import Mathlib

/-!
# Random-Game: the score counter bundle and its component runtime

A shallow embedding of `src/build/bundle.js`: the vendored component runtime
(dirty masks, the update scheduler, `flush`, the event dispatcher, teardown) and the
two views built on it (`Player`, `App`).

Conventions of the embedding.

* A component object is named by a number (`CompId`); its `$$` record is
  `World.comps c`.  In the bundle `app = 0`, `player0 = 1`, `player1 = 2`.
* Functions stored in the heap (update hooks, patch functions, listeners,
  lifecycle callbacks) are named by identifiers; a `Program` gives the code
  behind each identifier.  `bundle` is the program of this repository.
* JavaScript numbers are integers (the bundle only adds and subtracts 1 from
  20); `|`, `&` and `<<` are the 32-bit operations, written with explicit
  reductions modulo `2^32`.
* `World.log` is a ghost trace: it records scheduler events and is never read
  by the embedded code.
-/

namespace RandomGame

/-! ## Values -/

/-- JavaScript values that occur in state-vector slots. -/
inductive Val where
  | undef
  | bool (b : Bool)
  | num (n : Int)
  | str (s : String)
  | fn (name : String)
  deriving DecidableEq

/-- Truthiness of a value. -/
def Val.truthy : Val → Bool
  | .undef => false
  | .bool b => b
  | .num n => n != 0
  | .str s => s != ""
  | .fn _ => true

/-- The operator `a || b`. -/
def Val.or (a b : Val) : Val := if a.truthy then a else b

/-- The function `is_function`. -/
def is_function : Val → Bool
  | .fn _ => true
  | _ => false

/-- The function `safe_not_equal`: `a != a ? b == b : a !== b || ((a && typeof a === 'object') ||
typeof a === 'function')`.  No value of `Val` is `NaN` or an object, so what remains is strict
inequality, or `a` being a function. -/
def safe_not_equal (a b : Val) : Bool := (a != b) || is_function a

/-- The conversion `'' + data` of `set_data`, for the values the bundle renders. -/
def Val.toText : Val → String
  | .undef => "undefined"
  | .bool true => "true"
  | .bool false => "false"
  | .num n => toString n
  | .str s => s
  | .fn name => name

/-! ## 32-bit integer operations -/

/-- The abstract operation ToUint32 on integers. -/
def toUint32 (x : Int) : Nat := (x % 4294967296).toNat

/-- The abstract operation ToInt32 on an unsigned 32-bit pattern. -/
def toInt32 (n : Nat) : Int :=
  if n % 4294967296 < 2147483648 then Int.ofNat (n % 4294967296)
  else Int.ofNat (n % 4294967296) - 4294967296

/-- The operator `a & b` on 32-bit integers. -/
def and32 (a b : Int) : Int := toInt32 (toUint32 a &&& toUint32 b)

/-- The operator `a | b` on 32-bit integers. -/
def or32 (a b : Int) : Int := toInt32 (toUint32 a ||| toUint32 b)

/-- The operator `a << k` on 32-bit integers. -/
def shl32 (a : Int) (k : Nat) : Int := toInt32 (toUint32 a <<< (k % 32))

/-- Numeric value of an array used as an operand of `&`, as in `$$self.$$.dirty & 1`: the array
is converted through its string form, so `[x]` is `x`, `[]` is `0`, and a longer array is `NaN`,
which `&` reads as `0`. -/
def arrayToInt32 : List Int → Int
  | [x] => x
  | _ => 0

/-- The assignment `arr[k] |= b`.  Writing past the end extends the array; the holes it leaves
read as `undefined`, which `|` treats as `0`, so they are kept as `0`. -/
def orAt : List Int → Nat → Int → List Int
  | [], 0, b => [or32 0 b]
  | [], k + 1, b => 0 :: orAt [] k b
  | x :: xs, 0, b => or32 x b :: xs
  | x :: xs, k + 1, b => x :: orAt xs k b

/-- The assignment `arr[i] = v` on a state vector, extending it with `undefined` if needed. -/
def setAt : List Val → Nat → Val → List Val
  | [], 0, v => [v]
  | [], k + 1, v => Val.undef :: setAt [] k v
  | _ :: xs, 0, v => v :: xs
  | x :: xs, k + 1, v => x :: setAt xs k v

/-- The read `arr[i]` on a state vector. -/
def getAt (xs : List Val) (i : Nat) : Val := xs.getD i Val.undef

/-! ## Heap objects -/

/-- Name of a component object. -/
abbrev CompId := Nat

/-- Callbacks held in the lifecycle arrays and in `render_callbacks`. -/
inductive Cb where
  /-- the closure `mount_component` registers for a component: it runs the `on_mount` list -/
  | mount (c : CompId)
  /-- a function supplied by a component (an `after_update` entry) -/
  | user (n : Nat)
  deriving DecidableEq

/-- The field `$$.fragment`: `null` before creation and after destruction, `false` for a
component without a view, otherwise the fragment object. -/
inductive Fragment where
  | null
  | none
  | live
  deriving DecidableEq

/-- The record `component.$$`.  `ready` is the local variable of `init` captured by the
`$$invalidate` closure.  `bound` is left out: nothing in the bundle ever stores into it, so
`$$.bound[i]` is always `undefined`. -/
structure Comp where
  fragment : Fragment := Fragment.null
  ctx : List Val := []
  dirty : List Int := [-1]
  callbacks : List (String × List String) := []
  on_mount : List Nat := []
  on_destroy : Option (List Nat) := some []
  before_update : List Nat := []
  after_update : List Nat := []
  skip_bound : Bool := false
  ready : Bool := false
  deriving DecidableEq

/-- A `CustomEvent` as built by `custom_event`. -/
structure CustomEvent where
  type : String
  detail : Int
  cancelable : Bool := false
  defaultPrevented : Bool := false
  deriving DecidableEq

/-- The closure variables of `instance` (App). `blueWon`, `redWon`, `gameOver` are declared
without initialiser. -/
structure AppVars where
  redScore : Int := 20
  blueScore : Int := 20
  blueWon : Val := Val.undef
  redWon : Val := Val.undef
  gameOver : Val := Val.undef
  deriving DecidableEq

/-- The DOM nodes a Player fragment writes to: `button.disabled`, the text node `t2`, the
inline colour of `div`, and the text of the conditional block (`none` while `if_block` is
absent). -/
structure PlayerDom where
  /-- the click listener `plus` is attached to the button (`mounted`) -/
  listening : Bool := false
  disabled : Bool := false
  score : String := ""
  color : String := ""
  if_block : Option String := none
  deriving DecidableEq

/-- Ghost events. -/
inductive Ev where
  /-- `dirty_components.push(c)` -/
  | enqueue (c : CompId)
  /-- `resolved_promise.then(flush)` -/
  | schedule
  /-- `update(c.$$)` entered from the drain loop -/
  | update (c : CompId)
  /-- `$$.update()` of `c` is called -/
  | hook (c : CompId)
  /-- `$$.dirty = [-1]` for `c` -/
  | reset (c : CompId)
  /-- `$$.fragment.p($$.ctx, dirty)` of `c` is called with this mask -/
  | patch (c : CompId) (mask : List Int)
  deriving DecidableEq

/-- The heap and the module-level variables of the bundle. -/
structure World where
  comps : CompId → Comp
  dirty_components : List CompId := []
  binding_callbacks : List Nat := []
  render_callbacks : List Cb := []
  flush_callbacks : List Nat := []
  update_scheduled : Bool := false
  seen_callbacks : List Cb := []
  flushidx : Nat := 0
  current_component : Option CompId := none
  /-- number of `flush` jobs waiting in the microtask queue -/
  microtasks : Nat := 0
  app : AppVars := {}
  dom : CompId → PlayerDom := fun _ => {}
  /-- the click listener `reset` is attached to the Start Game button -/
  reset_listening : Bool := false
  log : List Ev := []

/-- Replace the record of component `c`. -/
def World.setComp (w : World) (c : CompId) (x : Comp) : World :=
  { w with comps := Function.update w.comps c x }

/-- Append a ghost event. -/
def World.emit (w : World) (e : Ev) : World := { w with log := w.log ++ [e] }

/-- The code behind the function identifiers of the heap. -/
structure Program where
  /-- the hook `$$.update` of a component -/
  update : CompId → World → World
  /-- the function `$$.fragment.p(ctx, dirty)` of a component -/
  patch : CompId → List Val → List Int → World → World
  /-- a callback `Cb.user n` -/
  callback : Nat → World → World
  /-- an `on_mount` function; it may return a function, which becomes an `on_destroy` entry -/
  on_mount : Nat → World → World × Option Nat
  /-- a listener; the returned flag tells whether it called `preventDefault` -/
  listener : String → CustomEvent → World → World × Bool

/-! ## Scheduler -/

/-- The function `schedule_update`. -/
def schedule_update (w : World) : World :=
  if !w.update_scheduled then
    ({ w with update_scheduled := true, microtasks := w.microtasks + 1 }).emit Ev.schedule
  else w

/-- The function `add_render_callback`. -/
def add_render_callback (w : World) (fn : Cb) : World :=
  { w with render_callbacks := w.render_callbacks ++ [fn] }

/-- The function `make_dirty`. -/
def make_dirty (component : CompId) (i : Nat) (w : World) : World :=
  let w :=
    if (w.comps component).dirty.head? = some (-1) then
      let w := ({ w with dirty_components := w.dirty_components ++ [component] }).emit
        (Ev.enqueue component)
      let w := schedule_update w
      w.setComp component
        { w.comps component with dirty := (w.comps component).dirty.map (fun _ => 0) }
    else w
  w.setComp component
    { w.comps component with
      dirty := orAt (w.comps component).dirty (i / 31) (shl32 1 (i % 31)) }

/-- The closure `$$invalidate` that `init` hands to `instance`, called with the value to store
(`rest.length ? rest[0] : ret`). -/
def invalidate (component : CompId) (i : Nat) (value : Val) (w : World) : World :=
  let old := getAt (w.comps component).ctx i
  let w := w.setComp component
    { w.comps component with ctx := setAt (w.comps component).ctx i value }
  if safe_not_equal old value then
    if (w.comps component).ready then make_dirty component i w else w
  else w

/-- The function `run_all`: `fns.forEach(run)`. -/
def run_all (P : Program) (fns : List Nat) (w : World) : World :=
  fns.foldl (fun w fn => P.callback fn w) w

/-- The function `update`. -/
def update (P : Program) (c : CompId) (w : World) : World :=
  if (w.comps c).fragment ≠ Fragment.null then
    let w := P.update c (w.emit (Ev.hook c))
    let w := run_all P (w.comps c).before_update w
    let dirty := (w.comps c).dirty
    let w := (w.setComp c { w.comps c with dirty := [-1] }).emit (Ev.reset c)
    let w :=
      if (w.comps c).fragment = Fragment.live then
        P.patch c (w.comps c).ctx dirty (w.emit (Ev.patch c dirty))
      else w
    (w.comps c).after_update.foldl (fun w fn => add_render_callback w (Cb.user fn)) w
  else w

/-- The closure that `mount_component` passes to `add_render_callback`. -/
def mount_callback (P : Program) (c : CompId) (w : World) : World :=
  let r := (w.comps c).on_mount.foldl
    (fun (acc : World × List Nat) fn =>
      let r := P.on_mount fn acc.1
      (r.1, acc.2 ++ r.2.toList)) (w, [])
  let w := r.1
  let new_on_destroy := r.2
  let w :=
    match (w.comps c).on_destroy with
    | some ds => w.setComp c { w.comps c with on_destroy := some (ds ++ new_on_destroy) }
    | Option.none => run_all P new_on_destroy w
  w.setComp c { w.comps c with on_mount := [] }

/-- Call a render callback. -/
def run_cb (P : Program) : Cb → World → World
  | Cb.mount c, w => mount_callback P c w
  | Cb.user n, w => P.callback n w

/-- The body of the drain loop of `flush` for the component under the cursor. -/
def drain_step (P : Program) (component : CompId) (w : World) : World :=
  update P component
    (({ w with flushidx := w.flushidx + 1, current_component := some component }).emit
      (Ev.update component))

/-- The statements `set_current_component(null); dirty_components.length = 0; flushidx = 0`
that follow the drain loop. -/
def clear_queue (w : World) : World :=
  { w with current_component := Option.none, dirty_components := [], flushidx := 0 }

/-- The loop `while (flushidx < dirty_components.length) { ... update(component.$$) }`. -/
def drain (P : Program) : Nat → World → Option World
  | 0, _ => Option.none
  | fuel + 1, w =>
    match w.dirty_components.get? w.flushidx with
    | some component => drain P fuel (drain_step P component w)
    | Option.none => some w

/-- The loop `while (arr.length) arr.pop()()` over `binding_callbacks`. -/
def run_binding_callbacks (P : Program) : Nat → World → Option World
  | 0, _ => Option.none
  | fuel + 1, w =>
    match w.binding_callbacks.getLast? with
    | some fn =>
      run_binding_callbacks P fuel
        (P.callback fn { w with binding_callbacks := w.binding_callbacks.dropLast })
    | Option.none => some w

/-- The loop `while (arr.length) arr.pop()()` over `flush_callbacks`. -/
def run_flush_callbacks (P : Program) : Nat → World → Option World
  | 0, _ => Option.none
  | fuel + 1, w =>
    match w.flush_callbacks.getLast? with
    | some fn =>
      run_flush_callbacks P fuel
        (P.callback fn { w with flush_callbacks := w.flush_callbacks.dropLast })
    | Option.none => some w

/-- The loop `for (let i = 0; i < render_callbacks.length; i += 1)` of `flush`. -/
def run_render_callbacks (P : Program) : Nat → Nat → World → Option World
  | 0, _, _ => Option.none
  | fuel + 1, i, w =>
    match w.render_callbacks.get? i with
    | some callback =>
      run_render_callbacks P fuel (i + 1)
        (if callback ∈ w.seen_callbacks then w
         else run_cb P callback { w with seen_callbacks := w.seen_callbacks ++ [callback] })
    | Option.none => some w

/-- The `do { ... } while (dirty_components.length)` loop of `flush`. -/
def flush_loop (P : Program) : Nat → World → Option World
  | 0, _ => Option.none
  | fuel + 1, w =>
    match drain P fuel w with
    | Option.none => Option.none
    | some w =>
      match run_binding_callbacks P fuel (clear_queue w) with
      | Option.none => Option.none
      | some w =>
        match run_render_callbacks P fuel 0 w with
        | Option.none => Option.none
        | some w =>
          let w := { w with render_callbacks := [] }
          if w.dirty_components.length ≠ 0 then flush_loop P fuel w else some w

/-- The function `flush`; `none` when the fuel does not suffice. `current_component` holds
`none` for both `undefined` and `null`. -/
def flush (P : Program) (fuel : Nat) (w : World) : Option World :=
  let saved_component := w.current_component
  match flush_loop P fuel w with
  | Option.none => Option.none
  | some w =>
    match run_flush_callbacks P fuel w with
    | Option.none => Option.none
    | some w =>
      some { w with update_scheduled := false, seen_callbacks := [],
                    current_component := saved_component }

/-- One turn of the microtask queue: a `flush` job queued by `schedule_update` runs. -/
def run_microtask (P : Program) (fuel : Nat) (w : World) : Option World :=
  if w.microtasks = 0 then some w
  else flush P fuel { w with microtasks := w.microtasks - 1 }

/-! ## Component base class and event dispatcher -/

/-- Look up `callbacks[type]`. -/
def lookup {α : Type} (type : String) : List (String × α) → Option α
  | [] => Option.none
  | (k, v) :: rest => if k = type then some v else lookup type rest

/-- Store `callbacks[type] = v`. -/
def store {α : Type} (type : String) (v : α) : List (String × α) → List (String × α)
  | [] => [(type, v)]
  | (k, x) :: rest => if k = type then (k, v) :: rest else (k, x) :: store type v rest

/-- The method `$on`: a value that is not a function is ignored. -/
def dollar_on (c : CompId) (type : String) (callback : Val) (w : World) : World :=
  match callback with
  | Val.fn name =>
    let callbacks := (lookup type (w.comps c).callbacks).getD []
    w.setComp c { w.comps c with
      callbacks := store type (callbacks ++ [name]) (w.comps c).callbacks }
  | _ => w

/-- The closure returned by `$on`: `indexOf` and `splice` remove the first occurrence. -/
def dollar_off (c : CompId) (type : String) (callback : String) (w : World) : World :=
  match lookup type (w.comps c).callbacks with
  | some callbacks =>
    w.setComp c { w.comps c with
      callbacks := store type (callbacks.erase callback) (w.comps c).callbacks }
  | Option.none => w

/-- The method `$set`; `set_props` is the property `$$set` of the component (absent for App) and
`is_empty` tests that the object has no key. -/
def dollar_set (set_props : Option (List (String × Val) → World → World)) (c : CompId)
    (props : List (String × Val)) (w : World) : World :=
  match set_props with
  | some set_props =>
    if !props.isEmpty then
      let w := w.setComp c { w.comps c with skip_bound := true }
      let w := set_props props w
      w.setComp c { w.comps c with skip_bound := false }
    else w
  | Option.none => w

/-- The function `custom_event`. -/
def custom_event (type : String) (detail : Int) (cancelable : Bool) : CustomEvent :=
  { type := type, detail := detail, cancelable := cancelable }

/-- The loop `callbacks.slice().forEach(fn => fn.call(component, event))`, over the copy of the
listener array.  It returns the event, the listeners it called (ghost) and the heap. -/
def call_listeners (P : Program) :
    List String → CustomEvent → List String → World → CustomEvent × List String × World
  | [], event, called, w => (event, called, w)
  | fn :: rest, event, called, w =>
    let r := P.listener fn event w
    let event :=
      { event with defaultPrevented := event.defaultPrevented || (event.cancelable && r.2) }
    call_listeners P rest event (called ++ [fn]) r.1

/-- The dispatcher returned by `createEventDispatcher` for `component`.  The result is the
returned boolean, the listeners called (ghost) and the heap. -/
def dispatch (P : Program) (component : CompId) (type : String) (detail : Int)
    (cancelable : Bool) (w : World) : Bool × List String × World :=
  match lookup type (w.comps component).callbacks with
  | some callbacks =>
    let event := custom_event type detail cancelable
    let r := call_listeners P callbacks event [] w
    (!r.1.defaultPrevented, r.2.1, r.2.2)
  | Option.none => (true, [], w)

/-! ## Component construction -/

/-- Outcome of code that may throw or, in the embedding, run out of fuel. -/
inductive Result where
  | ok (w : World)
  /-- an `Error` with this message was thrown -/
  | throw (msg : String) (w : World)
  | fuel

/-- The function `get_current_component`. -/
def get_current_component (w : World) : Except String CompId :=
  match w.current_component with
  | some c => Except.ok c
  | Option.none => Except.error "Function called outside component initialization"

/-- The function `createEventDispatcher`: it returns the component the dispatcher is bound
to; the dispatcher itself is `dispatch` applied to that component. -/
def createEventDispatcher (w : World) : Except String CompId := get_current_component w

/-- The function `mount_component` (never called with `customElement` in the bundle);
`m` is the method `m` of the fragment of the component. -/
def mount_component (m : World → World) (component : CompId) (w : World) : World :=
  let after_update := (w.comps component).after_update
  let w := if (w.comps component).fragment = Fragment.live then m w else w
  let w := add_render_callback w (Cb.mount component)
  after_update.foldl (fun w fn => add_render_callback w (Cb.user fn)) w

/-- Options of a component constructor: whether `target` is given, and `props`. -/
structure Options where
  target : Bool := false
  props : List (String × Val) := []

/-- What a component class hands to `init`: `instance`, `create_fragment`, and the methods `c`
and `m` of the fragment that `create_fragment` returns. -/
structure View where
  inst : CompId → List (String × Val) → World → Except String (List Val × World)
  create_fragment : CompId → List Val → World → Result
  c : CompId → World → World
  m : CompId → World → World

/-- The function `init` (the bundle never passes `hydrate`, `intro`, `context` or
`append_styles`, and `not_equal` is always `safe_not_equal`).  The record `$$` is built before
it is assigned to `component.$$`, and its field `root: options.target ||
parent_component.$$.root` reads `$$` of the parent when there is no target: with no target and
no current component this raises a TypeError, after `set_current_component(component)` and
before the record is assigned.  A component named by `current_component` is taken to have its
record `$$`; only the heap of that TypeError holds one without.  The fields `context` and
`root` themselves are left out: nothing in the bundle reads them afterwards. -/
def init (P : Program) (fuel : Nat) (component : CompId) (options : Options) (V : View)
    (w : World) : Result :=
  let parent_component := w.current_component
  let w := { w with current_component := some component }
  if !options.target && parent_component.isNone then Result.throw "TypeError" w
  else
    let w := w.setComp component {}
    match V.inst component options.props w with
    | Except.error msg => Result.throw msg w
    | Except.ok (ctx, w) =>
      let w := w.setComp component { w.comps component with ctx := ctx }
      let w := P.update component w
      let w := w.setComp component { w.comps component with ready := true }
      let w := run_all P (w.comps component).before_update w
      match V.create_fragment component (w.comps component).ctx w with
      | Result.throw msg w => Result.throw msg w
      | Result.fuel => Result.fuel
      | Result.ok w =>
        let w := w.setComp component { w.comps component with fragment := Fragment.live }
        if options.target then
          let w := V.c component w
          let w := mount_component (V.m component) component w
          match flush P fuel w with
          | Option.none => Result.fuel
          | some w => Result.ok { w with current_component := parent_component }
        else Result.ok { w with current_component := parent_component }

/-! ## Player -/

/-- The function `instance$1`. -/
def instance1 (_self : CompId) (props : List (String × Val)) (w : World) :
    Except String (List Val × World) :=
  match createEventDispatcher w with
  | Except.error msg => Except.error msg
  | Except.ok _ =>
    let prop := fun name => (lookup name props).getD Val.undef
    Except.ok ([prop "score", prop "winning", prop "won", prop "team", prop "gameOver",
      Val.fn "plus"], w)

/-- The setter `$$self.$$set` installed by `instance$1`.  The assignments to the closure
variables `score`, ... are left out: nothing reads them afterwards. -/
def player_set_props (self : CompId) (props : List (String × Val)) (w : World) : World :=
  let w := match lookup "score" props with
    | some v => invalidate self 0 v w
    | Option.none => w
  let w := match lookup "winning" props with
    | some v => invalidate self 1 v w
    | Option.none => w
  let w := match lookup "won" props with
    | some v => invalidate self 2 v w
    | Option.none => w
  let w := match lookup "team" props with
    | some v => invalidate self 3 v w
    | Option.none => w
  match lookup "gameOver" props with
  | some v => invalidate self 4 v w
  | Option.none => w

/-- Replace the DOM nodes of a Player. -/
def World.setDom (w : World) (c : CompId) (d : PlayerDom) : World :=
  { w with dom := Function.update w.dom c d }

/-- The function `create_fragment$1`: `if_block = ctx[2] && create_if_block(ctx)`. -/
def create_fragment1 (self : CompId) (ctx : List Val) (w : World) : Result :=
  Result.ok (w.setDom self
    { w.dom self with if_block := if (getAt ctx 2).truthy then some "" else Option.none })

/-- The method `c` of the Player fragment. -/
def player_c (self : CompId) (w : World) : World :=
  let ctx := (w.comps self).ctx
  w.setDom self { w.dom self with
    score := (getAt ctx 0).toText
    if_block := (w.dom self).if_block.map (fun _ => (getAt ctx 1).toText)
    disabled := (getAt ctx 4).truthy
    color := (getAt ctx 3).toText }

/-- The method `m` of the Player fragment: the nodes are inserted and, if not yet `mounted`,
`plus` starts listening to clicks on the button. -/
def player_m (self : CompId) (w : World) : World :=
  w.setDom self { w.dom self with listening := true }

/-- The method `p(ctx, [dirty])` of the Player fragment. -/
def player_p (self : CompId) (ctx : List Val) (mask : List Int) (w : World) : World :=
  let dirty := mask.headD 0
  let d := w.dom self
  let d := if and32 dirty 16 ≠ 0 then { d with disabled := (getAt ctx 4).truthy } else d
  let d := if and32 dirty 1 ≠ 0 then { d with score := (getAt ctx 0).toText } else d
  let d :=
    if (getAt ctx 2).truthy then
      match d.if_block with
      | some t =>
        { d with if_block := some (if and32 dirty 2 ≠ 0 then (getAt ctx 1).toText else t) }
      | Option.none => { d with if_block := some (getAt ctx 1).toText }
    else { d with if_block := Option.none }
  let d := if and32 dirty 8 ≠ 0 then { d with color := (getAt ctx 3).toText } else d
  w.setDom self d

/-- The view of the class `Player`. -/
def playerView : View :=
  { inst := instance1, create_fragment := create_fragment1, c := player_c, m := player_m }

/-! ## App -/

/-- The component objects of the bundle. -/
def app : CompId := 0

/-- The variable `player0` of `create_fragment`. -/
def player0 : CompId := 1

/-- The variable `player1` of `create_fragment`. -/
def player1 : CompId := 2

/-- The function `reset` of `instance`. -/
def reset (w : World) : World :=
  let w := { w with app := { w.app with blueScore := 20 } }
  let w := invalidate app 1 (Val.num w.app.blueScore) w
  let w := { w with app := { w.app with redScore := 20 } }
  invalidate app 0 (Val.num w.app.redScore) w

/-- The function `updateBlueScore` of `instance`: in `$$invalidate(0, redScore--, redScore)` the
stored value is the last argument, read after the decrement. -/
def updateBlueScore (e : CustomEvent) (w : World) : World :=
  let w := { w with app := { w.app with blueScore := w.app.blueScore + e.detail } }
  let w := invalidate app 1 (Val.num w.app.blueScore) w
  let w := { w with app := { w.app with redScore := w.app.redScore - 1 } }
  invalidate app 0 (Val.num w.app.redScore) w

/-- The function `updateRedScore` of `instance`. -/
def updateRedScore (e : CustomEvent) (w : World) : World :=
  let w := { w with app := { w.app with redScore := w.app.redScore + e.detail } }
  let w := invalidate app 0 (Val.num w.app.redScore) w
  let w := { w with app := { w.app with blueScore := w.app.blueScore - 1 } }
  invalidate app 1 (Val.num w.app.blueScore) w

/-- First statement of the hook of App:
`if ($$self.$$.dirty & 1) $$invalidate(2, blueWon = redScore <= 0)`. -/
def update_blueWon (w : World) : World :=
  if and32 (arrayToInt32 (w.comps app).dirty) 1 ≠ 0 then
    let w := { w with app := { w.app with blueWon := Val.bool (decide (w.app.redScore ≤ 0)) } }
    invalidate app 2 w.app.blueWon w
  else w

/-- Second statement of the hook of App:
`if ($$self.$$.dirty & 2) $$invalidate(3, redWon = blueScore <= 0)`. -/
def update_redWon (w : World) : World :=
  if and32 (arrayToInt32 (w.comps app).dirty) 2 ≠ 0 then
    let w := { w with app := { w.app with redWon := Val.bool (decide (w.app.blueScore ≤ 0)) } }
    invalidate app 3 w.app.redWon w
  else w

/-- Third statement of the hook of App:
`if ($$self.$$.dirty & 12) $$invalidate(4, gameOver = redWon || blueWon)`. -/
def update_gameOver (w : World) : World :=
  if and32 (arrayToInt32 (w.comps app).dirty) 12 ≠ 0 then
    let w := { w with app := { w.app with gameOver := w.app.redWon.or w.app.blueWon } }
    invalidate app 4 w.app.gameOver w
  else w

/-- The hook `$$self.$$.update` installed by `instance`. -/
def app_update (w : World) : World := update_gameOver (update_redWon (update_blueWon w))

/-- The function `instance` (App): the closure variables are initialised and the state vector
is returned; the hook `app_update` is the `update` of `app` in `bundle`. -/
def instance0 (_self : CompId) (_props : List (String × Val)) (w : World) :
    Except String (List Val × World) :=
  let w := { w with app := {} }
  Except.ok ([Val.num w.app.redScore, Val.num w.app.blueScore, w.app.blueWon, w.app.redWon,
    w.app.gameOver, Val.fn "reset", Val.fn "updateBlueScore", Val.fn "updateRedScore"], w)

/-- The method `p(ctx, [dirty])` of the App fragment. -/
def app_p (ctx : List Val) (mask : List Int) (w : World) : World :=
  let dirty := mask.headD 0
  let player0_changes :=
    (if and32 dirty 16 ≠ 0 then [("gameOver", getAt ctx 4)] else []) ++
    (if and32 dirty 4 ≠ 0 then [("won", getAt ctx 2)] else []) ++
    (if and32 dirty 2 ≠ 0 then [("score", getAt ctx 1)] else [])
  let w := dollar_set (some (player_set_props player0)) player0 player0_changes w
  let player1_changes :=
    (if and32 dirty 16 ≠ 0 then [("gameOver", getAt ctx 4)] else []) ++
    (if and32 dirty 8 ≠ 0 then [("won", getAt ctx 3)] else []) ++
    (if and32 dirty 1 ≠ 0 then [("score", getAt ctx 0)] else [])
  dollar_set (some (player_set_props player1)) player1 player1_changes w

/-- The program of the bundle: the code behind `$$.update`, `$$.fragment.p` and the listeners
registered with `$on`.  No lifecycle callback is ever registered. -/
def bundle : Program :=
  { update := fun c w => if c = app then app_update w else w
    patch := fun c ctx mask w => if c = app then app_p ctx mask w else player_p c ctx mask w
    callback := fun _ w => w
    on_mount := fun _ w => (w, Option.none)
    listener := fun name e w =>
      if name = "updateBlueScore" then (updateBlueScore e w, false)
      else if name = "updateRedScore" then (updateRedScore e w, false)
      else (w, false) }

/-- The constructor of `Player`. -/
def Player (fuel : Nat) (self : CompId) (options : Options) (w : World) : Result :=
  init bundle fuel self options playerView w

/-- The function `create_fragment` (App): the two Players are constructed and `$on` registers
the score handlers. -/
def create_fragment (fuel : Nat) (_self : CompId) (ctx : List Val) (w : World) : Result :=
  match Player fuel player0
      { props := [("gameOver", getAt ctx 4), ("team", Val.str "blue"), ("won", getAt ctx 2),
                  ("winning", Val.str "blue wins"), ("score", getAt ctx 1)] } w with
  | Result.throw msg w => Result.throw msg w
  | Result.fuel => Result.fuel
  | Result.ok w =>
    let w := dollar_on player0 "points" (getAt ctx 6) w
    match Player fuel player1
        { props := [("gameOver", getAt ctx 4), ("team", Val.str "red"), ("won", getAt ctx 3),
                    ("winning", Val.str "Red wins"), ("score", getAt ctx 0)] } w with
    | Result.throw msg w => Result.throw msg w
    | Result.fuel => Result.fuel
    | Result.ok w => Result.ok (dollar_on player1 "points" (getAt ctx 7) w)

/-- The method `c` of the App fragment: `create_component` of both Player fragments. -/
def app_c (_self : CompId) (w : World) : World :=
  let w := if (w.comps player0).fragment = Fragment.live then player_c player0 w else w
  if (w.comps player1).fragment = Fragment.live then player_c player1 w else w

/-- The method `m` of the App fragment. -/
def app_m (_self : CompId) (w : World) : World :=
  let w := mount_component (player_m player0) player0 w
  let w := mount_component (player_m player1) player1 w
  { w with reset_listening := true }

/-- The view of the class `App`. -/
def appView (fuel : Nat) : View :=
  { inst := instance0, create_fragment := create_fragment fuel, c := app_c, m := app_m }

/-- The constructor of `App`. -/
def App (fuel : Nat) (options : Options) (w : World) : Result :=
  init bundle fuel app options (appView fuel) w

/-- The heap before the bundle runs. -/
def World.empty : World := { comps := fun _ => {} }

/-- The statement `const app = new App({ target: document.body })`. -/
def main (fuel : Nat) : Result := App fuel { target := true } World.empty

/-! ## Browser events -/

/-- The function `plus` of a Player: `dispatchEvent('points', +1)`. -/
def plus (self : CompId) (w : World) : World := (dispatch bundle self "points" 1 false w).2.2

/-- A click on the `+` button of a Player, followed by the microtask turn.  The browser
delivers no click event to a disabled button, and none once the listener is removed. -/
def click_plus (fuel : Nat) (self : CompId) (w : World) : Option World :=
  if (w.dom self).listening && !(w.dom self).disabled then run_microtask bundle fuel (plus self w)
  else some w

/-- A click on the Start Game button, followed by the microtask turn. -/
def click_reset (fuel : Nat) (w : World) : Option World :=
  if w.reset_listening then run_microtask bundle fuel (reset w) else some w

/-! ## Reachable states of the application -/

/-- The world inside a result. -/
def Result.world : Result → World
  | Result.ok w => w
  | Result.throw _ w => w
  | Result.fuel => World.empty

/-- Whether a result is a normal return. -/
def Result.isOk : Result → Bool
  | Result.ok _ => true
  | _ => false

/-- Fuel given to every `flush` of the application; it suffices in every reachable state
(the step functions below never return `none` there). -/
def fuel : Nat := 8

/-- States of the running page: the state after `main`, and the state after each `points`
event of a Player or each `reset`, once the microtask turn that follows the handler is over.
The `points` events are not restricted to enabled buttons. -/
inductive Reach : World → Prop
  | main (w : World) : main fuel = Result.ok w → Reach w
  | points (w w' : World) (k : CompId) : Reach w → k = player0 ∨ k = player1 →
      run_microtask bundle fuel (plus k w) = some w' → Reach w'
  | reset (w w' : World) : Reach w → run_microtask bundle fuel (reset w) = some w' → Reach w'

/-- Slot 0 of the App state vector. -/
def redScore (w : World) : Val := getAt (w.comps app).ctx 0

/-- Slot 1 of the App state vector. -/
def blueScore (w : World) : Val := getAt (w.comps app).ctx 1

/-- Slot 2 of the App state vector. -/
def blueWon (w : World) : Val := getAt (w.comps app).ctx 2

/-- Slot 3 of the App state vector. -/
def redWon (w : World) : Val := getAt (w.comps app).ctx 3

/-- Slot 4 of the App state vector. -/
def gameOver (w : World) : Val := getAt (w.comps app).ctx 4

/-- The record `$$` of App between two events, for scores `r` and `b`. -/
def appComp (r b : Int) : Comp :=
  { fragment := Fragment.live
    ctx := [Val.num r, Val.num b, Val.bool (decide (r ≤ 0)), Val.bool (decide (b ≤ 0)),
            Val.bool (decide (b ≤ 0) || decide (r ≤ 0)),
            Val.fn "reset", Val.fn "updateBlueScore", Val.fn "updateRedScore"]
    ready := true }

/-- The record `$$` of a Player between two events. -/
def playerComp (score : Int) (winning : String) (won : Bool) (team : String) (gameOver : Bool)
    (handler : String) : Comp :=
  { fragment := Fragment.live
    ctx := [Val.num score, Val.str winning, Val.bool won, Val.str team, Val.bool gameOver,
            Val.fn "plus"]
    callbacks := [("points", [handler])]
    ready := true }

/-- The DOM nodes of a Player between two events. -/
def playerDom (score : Int) (winning : String) (won : Bool) (team : String) (gameOver : Bool) :
    PlayerDom :=
  { listening := true, disabled := gameOver, score := (Val.num score).toText, color := team,
    if_block := if won then some winning else Option.none }

/-- The shape of every reachable state, for scores `r` (red) and `b` (blue): the scheduler is
idle, the derived slots follow the scores, and both Players show what App holds. -/
structure Settled (r b : Int) (w : World) : Prop where
  c0 : w.comps 0 = appComp r b
  c1 : w.comps 1 = playerComp b "blue wins" (decide (r ≤ 0)) "blue"
        (decide (b ≤ 0) || decide (r ≤ 0)) "updateBlueScore"
  c2 : w.comps 2 = playerComp r "Red wins" (decide (b ≤ 0)) "red"
        (decide (b ≤ 0) || decide (r ≤ 0)) "updateRedScore"
  av : w.app = { redScore := r, blueScore := b, blueWon := Val.bool (decide (r ≤ 0)),
                 redWon := Val.bool (decide (b ≤ 0)),
                 gameOver := Val.bool (decide (b ≤ 0) || decide (r ≤ 0)) }
  d1 : w.dom 1 = playerDom b "blue wins" (decide (r ≤ 0)) "blue"
        (decide (b ≤ 0) || decide (r ≤ 0))
  d2 : w.dom 2 = playerDom r "Red wins" (decide (b ≤ 0)) "red"
        (decide (b ≤ 0) || decide (r ≤ 0))
  dc : w.dirty_components = []
  bc : w.binding_callbacks = []
  rc : w.render_callbacks = []
  fc : w.flush_callbacks = []
  us : w.update_scheduled = false
  seen : w.seen_callbacks = []
  fi : w.flushidx = 0
  cur : w.current_component = Option.none
  mt : w.microtasks = 0
  rl : w.reset_listening = true

/-- The settled world for scores `r` and `b`, over arbitrary other components, DOM nodes
and ghost trace. -/
def stable (r b : Int) (comps : CompId → Comp) (dom : CompId → PlayerDom) (log : List Ev) :
    World :=
  { comps := fun c =>
      if c = 0 then appComp r b
      else if c = 1 then playerComp b "blue wins" (decide (r ≤ 0)) "blue"
        (decide (b ≤ 0) || decide (r ≤ 0)) "updateBlueScore"
      else if c = 2 then playerComp r "Red wins" (decide (b ≤ 0)) "red"
        (decide (b ≤ 0) || decide (r ≤ 0)) "updateRedScore"
      else comps c
    app := { redScore := r, blueScore := b, blueWon := Val.bool (decide (r ≤ 0)),
             redWon := Val.bool (decide (b ≤ 0)),
             gameOver := Val.bool (decide (b ≤ 0) || decide (r ≤ 0)) }
    dom := fun c =>
      if c = 1 then playerDom b "blue wins" (decide (r ≤ 0)) "blue"
        (decide (b ≤ 0) || decide (r ≤ 0))
      else if c = 2 then playerDom r "Red wins" (decide (b ≤ 0)) "red"
        (decide (b ≤ 0) || decide (r ≤ 0))
      else dom c
    reset_listening := true
    log := log }

/-- A run of clicks on the `+` button of Player `k`. -/
def clicks (k : CompId) : Nat → World → Option World
  | 0, w => some w
  | n + 1, w => (click_plus fuel k w).bind (clicks k n)

/-- A run of clicks on the `+` buttons of the Players listed. -/
def click_all : List CompId → World → Option World
  | [], w => some w
  | k :: ks, w => (click_plus fuel k w).bind (click_all ks)

/-- The state after `n` `points` events of the blue Player, each followed by its microtask
turn. -/
def blueRun : Nat → World
  | 0 => (main fuel).world
  | n + 1 => (run_microtask bundle fuel (plus player0 (blueRun n))).getD World.empty

/-- Recomputation of the three derived values whatever the dirty mask holds: the body of
the hook `$$self.$$.update` with its three tests removed. -/
def recompute_all (w : World) : World :=
  let w := { w with app := { w.app with blueWon := Val.bool (decide (w.app.redScore ≤ 0)) } }
  let w := invalidate app 2 w.app.blueWon w
  let w := { w with app := { w.app with redWon := Val.bool (decide (w.app.blueScore ≤ 0)) } }
  let w := invalidate app 3 w.app.redWon w
  let w := { w with app := { w.app with gameOver := w.app.redWon.or w.app.blueWon } }
  invalidate app 4 w.app.gameOver w

/-- What the page shows of a state: the five data slots of App and the `disabled` property
of both `+` buttons. -/
structure Board where
  redScore : Val
  blueScore : Val
  blueWon : Val
  redWon : Val
  gameOver : Val
  disabled0 : Bool
  disabled1 : Bool
  deriving DecidableEq

/-- The board of a state. -/
def board (w : World) : Board :=
  { redScore := redScore w, blueScore := blueScore w, blueWon := blueWon w, redWon := redWon w,
    gameOver := gameOver w, disabled0 := (w.dom player0).disabled,
    disabled1 := (w.dom player1).disabled }

/-! ## Vocabulary for the scheduler properties -/

/-- The components of `dirty_components` at or after the cursor `flushidx`: those still
waiting for their update. -/
def pending (w : World) : List CompId := w.dirty_components.drop w.flushidx

/-- A change of the heap that leaves alone what only the scheduler writes: the dirty masks,
the fragments, `dirty_components`, `flushidx`, `update_scheduled`, the microtask queue, the
sets of one-shot callbacks, and the ghost trace. -/
structure SameSched (w w' : World) : Prop where
  dirty : ∀ c, (w'.comps c).dirty = (w.comps c).dirty
  fragment : ∀ c, (w'.comps c).fragment = (w.comps c).fragment
  dirty_components : w'.dirty_components = w.dirty_components
  flushidx : w'.flushidx = w.flushidx
  update_scheduled : w'.update_scheduled = w.update_scheduled
  microtasks : w'.microtasks = w.microtasks
  seen_callbacks : w'.seen_callbacks = w.seen_callbacks
  binding_callbacks : w'.binding_callbacks = w.binding_callbacks
  flush_callbacks : w'.flush_callbacks = w.flush_callbacks
  log : w'.log = w.log

/-- What component code can do to the heap: any number of changes that leave the scheduler
alone, and calls of `make_dirty` on components allowed by `ok`. -/
inductive ApiOn (ok : CompId → Prop) : World → World → Prop
  | done (w : World) : ApiOn ok w w
  | step (w w1 w2 : World) : SameSched w w1 → ApiOn ok w1 w2 → ApiOn ok w w2
  | dirty (w w2 : World) (c : CompId) (i : Nat) : ok c → ApiOn ok (make_dirty c i w) w2 →
      ApiOn ok w w2

/-- The code of a program reaches the scheduler only through `make_dirty`: the update hook of
`c` dirties only components `d` with `upd c d`, all other code only components in `oth`. -/
structure Program.Confined (P : Program) (upd : CompId → CompId → Prop) (oth : CompId → Prop) :
    Prop where
  update : ∀ c w, ApiOn (upd c) w (P.update c w)
  patch : ∀ c ctx mask w, ApiOn oth w (P.patch c ctx mask w)
  callback : ∀ n w, ApiOn oth w (P.callback n w)
  on_mount : ∀ n w, ApiOn oth w (P.on_mount n w).1

/-- The code of a program reaches the scheduler only through `make_dirty`. -/
def Program.WellBehaved (P : Program) : Prop := P.Confined (fun _ _ => True) (fun _ => True)

/-- The mask is the clean sentinel `[-1]`. -/
def isClean (mask : List Int) : Prop := mask.head? = some (-1)

instance (mask : List Int) : Decidable (isClean mask) := by
  unfold isClean; infer_instance

/-- Every word of the mask uses bits 0..30 only. -/
def wordsInRange (mask : List Int) : Prop := ∀ x ∈ mask, 0 ≤ x ∧ x < 2147483648

/-- The bit of slot `i` in a mask: bit `i mod 31` of word `floor(i / 31)`. -/
def slotBit (mask : List Int) (i : Nat) : Bool := ((mask.getD (i / 31) 0).toNat).testBit (i % 31)

/-- The invariant of the pending-update queue. -/
structure QueueInv (w : World) : Prop where
  /-- no component waits twice -/
  once : ∀ c, (pending w).count c ≤ 1
  /-- a waiting component has a mask other than the clean sentinel -/
  waiting_dirty : ∀ c ∈ pending w, ¬ isClean (w.comps c).dirty
  /-- a mask is the sentinel `[-1]` or made of words using bits 0..30 only -/
  masks : ∀ c, (w.comps c).dirty = [-1] ∨ wordsInRange (w.comps c).dirty
  /-- the cursor is inside the queue -/
  cursor : w.flushidx ≤ w.dirty_components.length

/-- Scheduler states: an idle scheduler with all masks clean, then any component code
(in particular any `make_dirty` call), any iteration of the drain loop, the clearing of the
drained queue, and any complete `flush`. -/
inductive Sched (P : Program) : World → Prop
  | idle (w : World) : (∀ c, (w.comps c).dirty = [-1]) → w.dirty_components = [] →
      w.flushidx = 0 → w.binding_callbacks = [] → w.flush_callbacks = [] → Sched P w
  | api (w w' : World) : Sched P w → ApiOn (fun _ => True) w w' → Sched P w'
  | iter (w : World) (c : CompId) : Sched P w → w.dirty_components.get? w.flushidx = some c →
      Sched P (drain_step P c w)
  | clear (w : World) : Sched P w → w.dirty_components.get? w.flushidx = Option.none →
      Sched P (clear_queue w)
  | flush (w w' : World) (n : Nat) : Sched P w → flush P n w = some w' → Sched P w'

/-- The components updated, in order, according to a trace. -/
def updatesOf : List Ev → List CompId
  | [] => []
  | Ev.update c :: rest => c :: updatesOf rest
  | _ :: rest => updatesOf rest

/-- The components enqueued, in order, according to a trace. -/
def enqueuesOf : List Ev → List CompId
  | [] => []
  | Ev.enqueue c :: rest => c :: enqueuesOf rest
  | _ :: rest => enqueuesOf rest

/-- The masks passed to the patch function of `c`, in order, according to a trace. -/
def patchesOf (c : CompId) : List Ev → List (List Int)
  | [] => []
  | Ev.patch d mask :: rest => if d = c then mask :: patchesOf c rest else patchesOf c rest
  | _ :: rest => patchesOf c rest

/-- The number of `flush` jobs put in the microtask queue according to a trace. -/
def schedulesOf : List Ev → Nat
  | [] => 0
  | Ev.schedule :: rest => schedulesOf rest + 1
  | _ :: rest => schedulesOf rest

/-- An event that `make_dirty` writes to the trace. -/
def Ev.isDirtying : Ev → Bool
  | Ev.enqueue _ => true
  | Ev.schedule => true
  | _ => false

/-- The component `x` is being updated: it has left the waiting part of the queue and its
mask is not yet reset. -/
structure Busy (x : CompId) (w : World) : Prop where
  not_pending : x ∉ pending w
  dirty : ¬ isClean (w.comps x).dirty

/-- The steps of `flush` that an invariant has to survive: `I` holds at the head of the drain
loop, `I'` from the clearing of the drained queue on. -/
structure FlushInv (P : Program) (I I' : World → Prop) : Prop where
  iter : ∀ w c, I w → w.dirty_components.get? w.flushidx = some c → I (drain_step P c w)
  clear : ∀ w, I w → w.dirty_components.get? w.flushidx = Option.none → I' (clear_queue w)
  binding : ∀ w fn, I' w → w.binding_callbacks.getLast? = some fn →
    I' (P.callback fn { w with binding_callbacks := w.binding_callbacks.dropLast })
  render : ∀ w cb, I' w → cb ∉ w.seen_callbacks →
    I' (run_cb P cb { w with seen_callbacks := w.seen_callbacks ++ [cb] })
  render_done : ∀ w, I' w → I' { w with render_callbacks := [] }
  again : ∀ w, I' w → w.dirty_components.length ≠ 0 → I w
  flushcb : ∀ w fn, I' w → w.flush_callbacks.getLast? = some fn →
    I' (P.callback fn { w with flush_callbacks := w.flush_callbacks.dropLast })
  finish : ∀ w s, I' w →
    I' { w with update_scheduled := false, seen_callbacks := [], current_component := s }

/-- The invariant behind the FIFO order of `flush`: relative to the trace `L0` and the waiting
components `p0` at the start, the components updated so far followed by those still waiting
are the components that waited at the start followed by those enqueued since. -/
def FifoInv (L0 : List Ev) (p0 : List CompId) (w : World) : Prop :=
  ∃ L, w.log = L0 ++ L ∧ updatesOf L ++ pending w = p0 ++ enqueuesOf L ∧
    w.flushidx ≤ w.dirty_components.length ∧ w.binding_callbacks = [] ∧ w.flush_callbacks = []

/-- The state right after the first `points` event of the blue Player, before the flush. -/
def firstPoint : World := plus player0 (main fuel).world

/-- The state after the flush that follows the first `points` event of the blue Player. -/
def firstFlush : World := (flush bundle fuel firstPoint).getD World.empty

/-- A heap with two dirty components: three `make_dirty` calls on the empty heap. -/
def twoDirty : World := make_dirty 1 4 (make_dirty 0 0 (make_dirty 0 1 World.empty))

/-- A program whose listener `a` changes the listener list while it is being dispatched: it
removes the listener `b` and registers a listener `c` for `points` on component 0. -/
def meddler : Program :=
  { update := fun _ w => w
    patch := fun _ _ _ w => w
    callback := fun _ w => w
    on_mount := fun _ w => (w, Option.none)
    listener := fun name _ w =>
      if name = "a" then
        (dollar_on 0 "points" (Val.fn "c") (dollar_off 0 "points" "b" w), false)
      else (w, false) }

/-- The empty heap after `$on("points", a)` and `$on("points", b)` on component 0. -/
def meddled : World :=
  dollar_on 0 "points" (Val.fn "b") (dollar_on 0 "points" (Val.fn "a") World.empty)

/-- The heap when the drain loop has taken `c` from the queue: the first statements of the
loop body, before `update`. -/
def dequeued (c : CompId) (w : World) : World :=
  ({ w with flushidx := w.flushidx + 1, current_component := some c }).emit (Ev.update c)

/-- The heap when `update` has called the update hook of `c` and its before-update
callbacks: the mask of `c` there is the one `update` captures. -/
def hooked (P : Program) (c : CompId) (w : World) : World :=
  run_all P ((P.update c (w.emit (Ev.hook c))).comps c).before_update
    (P.update c (w.emit (Ev.hook c)))

/-- The heap on which `update` calls the patch function of `c`, for the heap `w` on which
`update` is entered: the update hook and the before-update callbacks have run, the mask is
captured and reset. -/
def patching (P : Program) (c : CompId) (w : World) : World :=
  (((hooked P c w).setComp c { (hooked P c w).comps c with dirty := [-1] }).emit
    (Ev.reset c)).emit (Ev.patch c ((hooked P c w).comps c).dirty)

/-- The state of a flush once `c` has been updated: its mask is clean, it does not wait, only
components allowed by `ok` wait, and the trace since `L1` shows one call of its patch
function, with mask `m`. -/
def OncePatched (c : CompId) (ok : CompId → Prop) (L1 : List Ev) (m : List Int) (w : World) :
    Prop :=
  (w.comps c).dirty = [-1] ∧ c ∉ pending w ∧ (∀ d ∈ pending w, ok d) ∧
    w.flushidx ≤ w.dirty_components.length ∧ w.binding_callbacks = [] ∧
    w.flush_callbacks = [] ∧ ∃ L, w.log = L1 ++ L ∧ patchesOf c L = [m]

/-- The state of `update` of `c` while its update hook and before-update callbacks run: `c`
is being updated, only components allowed by `ok` wait, the bits of the slots `S` are set in
its mask, and the trace since `L1` shows no call of its patch function. -/
def Hooking (c : CompId) (ok : CompId → Prop) (L1 : List Ev) (S : List Nat) (w : World) :
    Prop :=
  QueueInv w ∧ Busy c w ∧ (∀ d ∈ pending w, ok d) ∧ w.binding_callbacks = [] ∧
    w.flush_callbacks = [] ∧ (∀ j ∈ S, slotBit (w.comps c).dirty j = true) ∧
    ∃ L, w.log = L1 ++ L ∧ patchesOf c L = []

/-- A run of `make_dirty` calls on the slots listed, with no flush in between. -/
def make_dirty_all (c : CompId) (slots : List Nat) (w : World) : World :=
  slots.foldl (fun w i => make_dirty c i w) w

/-- The settled state for scores 1 (red) and 39 (blue) in a heap that holds App and its two
Players only. -/
def nearEnd : World := stable 1 39 (fun _ => {}) (fun _ => {}) []

/-! ## Teardown -/

/-- Ghost events of a teardown. -/
inductive Td where
  /-- `run_all($$.on_destroy)` of component `c` calls the callback `fn` -/
  | callback (c : CompId) (fn : Nat)
  /-- `$$.fragment.d(detaching)` of component `c` is called -/
  | d (c : CompId) (detaching : Bool)
  deriving DecidableEq

/-- The component a teardown event belongs to. -/
def Td.comp : Td → CompId
  | Td.callback c _ => c
  | Td.d c _ => c

/-- The teardown events of component `c` in a trace. -/
def teardownOf (c : CompId) (t : List Td) : List Td := t.filter (fun e => decide (e.comp = c))

/-- The heap together with what only teardown touches: for each component object whether it
has the own property `$destroy = noop`, and the ghost trace of the teardown. -/
structure Page where
  world : World
  destroy_noop : CompId → Bool := fun _ => false
  trace : List Td := []

/-- Append a ghost event of the teardown. -/
def Page.emit (s : Page) (e : Td) : Page := { s with trace := s.trace ++ [e] }

/-- The call `run_all($$.on_destroy)` of `destroy_component`, for the array `fns`. -/
def run_on_destroy (P : Program) (component : CompId) (fns : List Nat) (s : Page) : Page :=
  fns.foldl
    (fun s fn => { s.emit (Td.callback component fn) with world := P.callback fn s.world }) s

/-- The function `destroy_component`; `d` is the method `d` of the fragment of the component
and may throw.  With `$$.on_destroy` null, `run_all` raises a TypeError (`fns.forEach` of
`null`). -/
def destroy_component (P : Program) (d : Bool → Page → Except String Page) (component : CompId)
    (detaching : Bool) (s : Page) : Except String Page :=
  if (s.world.comps component).fragment ≠ Fragment.null then
    match (s.world.comps component).on_destroy with
    | Option.none => Except.error "TypeError"
    | some fns =>
      let s := run_on_destroy P component fns s
      let r :=
        if (s.world.comps component).fragment = Fragment.live then
          d detaching (s.emit (Td.d component detaching))
        else Except.ok s
      match r with
      | Except.error msg => Except.error msg
      | Except.ok s =>
        let w := s.world
        let w := w.setComp component { w.comps component with on_destroy := Option.none }
        let w := w.setComp component { w.comps component with fragment := Fragment.null }
        let w := w.setComp component { w.comps component with ctx := [] }
        Except.ok { s with world := w }
  else Except.ok s

/-- The method `$destroy`: `destroy_component(this, 1); this.$destroy = noop`.  On a component
object that has the own property `$destroy`, the call runs `noop` instead. -/
def dollar_destroy (P : Program) (d : Bool → Page → Except String Page) (component : CompId)
    (s : Page) : Except String Page :=
  if s.destroy_noop component then Except.ok s
  else
    match destroy_component P d component true s with
    | Except.error msg => Except.error msg
    | Except.ok s =>
      Except.ok { s with destroy_noop := Function.update s.destroy_noop component true }

/-- The method `d` of the Player fragment: `if (detaching) detach(div); if (if_block)
if_block.d(); mounted = false; dispose()`.  The nodes and the function `dispose` exist once
`m` has run, which is when `listening` holds; on a fragment that was never mounted `detach`
or `dispose()` raises a TypeError.  Where a node sits in the document is not part of the
embedding, and `if_block.d()` without `detaching` does nothing; `dispose()` removes the click
listener. -/
def player_d (self : CompId) (_detaching : Bool) (s : Page) : Except String Page :=
  if (s.world.dom self).listening then
    Except.ok { s with world := s.world.setDom self { s.world.dom self with listening := false } }
  else Except.error "TypeError"

/-- The method `d` of the App fragment: `if (detaching) detach(main);
destroy_component(player0); destroy_component(player1); mounted = false; dispose()`.  The two
Players are destroyed without `detaching`.  On a fragment that was never mounted `detach(main)`
or `dispose()` raises a TypeError. -/
def app_d (detaching : Bool) (s : Page) : Except String Page :=
  if detaching && !s.world.reset_listening then Except.error "TypeError"
  else
    match destroy_component bundle (player_d player0) player0 false s with
    | Except.error msg => Except.error msg
    | Except.ok s =>
      match destroy_component bundle (player_d player1) player1 false s with
      | Except.error msg => Except.error msg
      | Except.ok s =>
        if s.world.reset_listening then
          Except.ok { s with world := { s.world with reset_listening := false } }
        else Except.error "TypeError"

/-- A destroy call on a component: `destroy_component(c, detaching)` or `c.$destroy()`. -/
inductive DestroyCall where
  | direct (detaching : Bool)
  | method
  deriving DecidableEq

/-- The argument `detaching` that a destroy call hands to `destroy_component`. -/
def DestroyCall.detaching : DestroyCall → Bool
  | DestroyCall.direct b => b
  | DestroyCall.method => true

/-- Make a destroy call on component `c`. -/
def DestroyCall.run (P : Program) (d : Bool → Page → Except String Page) (c : CompId) :
    DestroyCall → Page → Except String Page
  | DestroyCall.direct b, s => destroy_component P d c b s
  | DestroyCall.method, s => dollar_destroy P d c s

/-- Make the destroy calls listed on component `c`, one after the other. -/
def destroy_all (P : Program) (d : Bool → Page → Except String Page) (c : CompId) :
    List DestroyCall → Page → Except String Page
  | [], s => Except.ok s
  | k :: ks, s =>
    match k.run P d c s with
    | Except.error msg => Except.error msg
    | Except.ok s => destroy_all P d c ks s

/-- The page of the settled state for scores 1 and 39 before any teardown. -/
def nearEndPage : Page := { world := nearEnd }

/-- The page after `app.$destroy()` in `nearEndPage`. -/
def torn : Page := ((dollar_destroy bundle app_d app nearEndPage).toOption).getD nearEndPage

/-! # Theorems -/

/-! ## Evaluation lemmas -/

theorem bundle_listener (name : String) (e : CustomEvent) (w : World) :
    bundle.listener name e w =
      if name = "updateBlueScore" then (updateBlueScore e w, false)
      else if name = "updateRedScore" then (updateRedScore e w, false)
      else (w, false) := rfl

theorem bundle_update (c : CompId) (w : World) :
    bundle.update c w = if c = app then app_update w else w := rfl

theorem bundle_patch (c : CompId) (ctx : List Val) (mask : List Int) (w : World) :
    bundle.patch c ctx mask w =
      if c = app then app_p ctx mask w else player_p c ctx mask w := rfl

theorem bundle_callback (n : Nat) (w : World) : bundle.callback n w = w := rfl

theorem bundle_on_mount (n : Nat) (w : World) : bundle.on_mount n w = (w, Option.none) := rfl

theorem and32_1 (a : Int) (h0 : 0 ≤ a) (h1 : a < 32) : and32 a 1 = a % 2 := by
  interval_cases a <;> rfl

theorem and32_2 (a : Int) (h0 : 0 ≤ a) (h1 : a < 32) : and32 a 2 = a / 2 % 2 * 2 := by
  interval_cases a <;> rfl

theorem and32_4 (a : Int) (h0 : 0 ≤ a) (h1 : a < 32) : and32 a 4 = a / 4 % 2 * 4 := by
  interval_cases a <;> rfl

theorem and32_8 (a : Int) (h0 : 0 ≤ a) (h1 : a < 32) : and32 a 8 = a / 8 % 2 * 8 := by
  interval_cases a <;> rfl

theorem and32_16 (a : Int) (h0 : 0 ≤ a) (h1 : a < 32) : and32 a 16 = a / 16 % 2 * 16 := by
  interval_cases a <;> rfl

theorem and32_12 (a : Int) (h0 : 0 ≤ a) (h1 : a < 32) : and32 a 12 = a / 4 % 4 * 4 := by
  interval_cases a <;> rfl

theorem Result.eq_ok_world (r : Result) (h : r.isOk = true) : r = Result.ok r.world := by
  cases r <;> simp_all [Result.isOk, Result.world]

theorem main_ok : main fuel = Result.ok (main fuel).world :=
  Result.eq_ok_world _ (by decide)

set_option maxRecDepth 100000 in
theorem settled_main : Settled 20 20 (main fuel).world := by
  constructor <;> decide

theorem Settled.eq_stable {r b : Int} {w : World} (h : Settled r b w) :
    w = stable r b w.comps w.dom w.log := by
  obtain ⟨c0, c1, c2, av, d1, d2, dc, bc, rc, fc, us, seen, fi, cur, mt, rl⟩ := h
  cases w
  simp only [stable] at *
  subst dc bc rc fc us seen fi cur mt rl av
  congr 1
  · funext c
    split_ifs with h0 h1 h2
    · rw [h0]; exact c0
    · rw [h1]; exact c1
    · rw [h2]; exact c2
    · rfl
  · funext c
    split_ifs with h1 h2
    · rw [h1]; exact d1
    · rw [h2]; exact d2
    · rfl

set_option maxHeartbeats 4000000 in
theorem step_points0 (r b : Int) (hs : r + b = 40) (comps : CompId → Comp)
    (dom : CompId → PlayerDom) (log : List Ev) :
    ∃ w', run_microtask bundle fuel (plus player0 (stable r b comps dom log)) = some w' ∧
      Settled (r - 1) (b + 1) w' := by
  have e1 : ¬ r = r - 1 := by omega
  have e2 : ¬ b = b + 1 := by omega
  by_cases h1 : r ≤ 0 <;> by_cases h2 : r - 1 ≤ 0 <;> by_cases h3 : b ≤ 0 <;>
    by_cases h4 : b + 1 ≤ 0 <;>
  first
  | (exfalso; omega)
  | (simp [plus, dispatch, stable, playerComp, lookup, player0, call_listeners,
      bundle_listener, custom_event, updateBlueScore, invalidate, app, appComp, getAt, setAt,
      List.getD, World.setComp, Function.update, safe_not_equal, is_function, make_dirty,
      schedule_update, World.emit, orAt, or32, shl32, toInt32, toUint32, h1, h2, h3, h4, e1, e2]
     simp [run_microtask, fuel, flush, flush_loop, drain, drain_step, clear_queue, update, bundle_update, bundle_patch,
      bundle_callback, app_update, update_blueWon, update_redWon, update_gameOver, app_p, player_p, run_all, run_binding_callbacks,
      run_render_callbacks, run_flush_callbacks, dollar_set, player_set_props, arrayToInt32,
      Val.or, Val.truthy, World.setDom, invalidate, app, appComp, getAt, setAt, List.getD,
      player1, player0, lookup, playerDom, and32_1, and32_2, and32_4, and32_8, and32_12,
      and32_16, World.setComp, Function.update, safe_not_equal, is_function, make_dirty,
      schedule_update, World.emit, orAt, or32, shl32, toInt32, toUint32, h1, h2, h3, h4, e1, e2]
     constructor <;>
       simp [Function.update, appComp, playerComp, playerDom, Val.toText, h1, h2, h3, h4])

set_option maxHeartbeats 4000000 in
theorem step_points1 (r b : Int) (hs : r + b = 40) (comps : CompId → Comp)
    (dom : CompId → PlayerDom) (log : List Ev) :
    ∃ w', run_microtask bundle fuel (plus player1 (stable r b comps dom log)) = some w' ∧
      Settled (r + 1) (b - 1) w' := by
  have e1 : ¬ r = r + 1 := by omega
  have e2 : ¬ b = b - 1 := by omega
  by_cases h1 : r ≤ 0 <;> by_cases h2 : r + 1 ≤ 0 <;> by_cases h3 : b ≤ 0 <;>
    by_cases h4 : b - 1 ≤ 0 <;>
  first
  | (exfalso; omega)
  | (simp [plus, dispatch, stable, playerComp, lookup, player1, call_listeners,
      bundle_listener, custom_event, updateRedScore, invalidate, app, appComp, getAt, setAt,
      List.getD, World.setComp, Function.update, safe_not_equal, is_function, make_dirty,
      schedule_update, World.emit, orAt, or32, shl32, toInt32, toUint32, h1, h2, h3, h4, e1, e2]
     simp [run_microtask, fuel, flush, flush_loop, drain, drain_step, clear_queue, update, bundle_update, bundle_patch,
      bundle_callback, app_update, update_blueWon, update_redWon, update_gameOver, app_p, player_p, run_all, run_binding_callbacks,
      run_render_callbacks, run_flush_callbacks, dollar_set, player_set_props, arrayToInt32,
      Val.or, Val.truthy, World.setDom, invalidate, app, appComp, getAt, setAt, List.getD,
      player1, player0, lookup, playerDom, and32_1, and32_2, and32_4, and32_8, and32_12,
      and32_16, World.setComp, Function.update, safe_not_equal, is_function, make_dirty,
      schedule_update, World.emit, orAt, or32, shl32, toInt32, toUint32, h1, h2, h3, h4, e1, e2]
     constructor <;>
       simp [Function.update, appComp, playerComp, playerDom, Val.toText, h1, h2, h3, h4])

set_option maxHeartbeats 4000000 in
theorem step_reset (r b : Int) (hs : r + b = 40) (comps : CompId → Comp)
    (dom : CompId → PlayerDom) (log : List Ev) :
    ∃ w', run_microtask bundle fuel (reset (stable r b comps dom log)) = some w' ∧
      Settled 20 20 w' := by
  by_cases hr : r = 20
  · have hb : b = 20 := by omega
    subst hr hb
    simp [reset, stable, invalidate, app, appComp, getAt, setAt, List.getD, World.setComp,
      safe_not_equal, is_function, run_microtask]
    constructor <;> simp [Function.update, appComp, playerComp, playerDom]
  · have hb : ¬ b = 20 := by omega
    have hr' : ¬ 20 = r := fun h => hr h.symm
    have hb' : ¬ 20 = b := fun h => hb h.symm
    by_cases h1 : r ≤ 0 <;> by_cases h3 : b ≤ 0 <;>
    first
    | (exfalso; omega)
    | (simp [reset, stable, playerComp, invalidate, app, appComp, getAt, setAt,
        List.getD, World.setComp, Function.update, safe_not_equal, is_function, make_dirty,
        schedule_update, World.emit, orAt, or32, shl32, toInt32, toUint32, h1, h3, hr, hb,
        hr', hb']
       simp [run_microtask, fuel, flush, flush_loop, drain, drain_step, clear_queue, update, bundle_update,
        bundle_patch, bundle_callback, app_update, update_blueWon, update_redWon, update_gameOver, app_p, player_p, run_all,
        run_binding_callbacks, run_render_callbacks, run_flush_callbacks, dollar_set,
        player_set_props, arrayToInt32, Val.or, Val.truthy, World.setDom, invalidate, app,
        appComp, getAt, setAt, List.getD, player1, player0, lookup, playerDom, and32_1,
        and32_2, and32_4, and32_8, and32_12, and32_16, World.setComp, Function.update,
        safe_not_equal, is_function, make_dirty, schedule_update, World.emit, orAt, or32,
        shl32, toInt32, toUint32, h1, h3, hr, hb, hr', hb']
       constructor <;>
         simp [Function.update, appComp, playerComp, playerDom, Val.toText, h1, h3])

theorem reach_settled (w : World) (h : Reach w) : ∃ r b : Int, r + b = 40 ∧ Settled r b w := by
  induction h with
  | main w hw =>
    have e : Result.ok w = Result.ok (main fuel).world := hw.symm.trans main_ok
    injection e with e
    exact ⟨20, 20, by norm_num, e ▸ settled_main⟩
  | points w w' k _ hk hstep ih =>
    obtain ⟨r, b, hs, hw⟩ := ih
    rw [hw.eq_stable] at hstep
    rcases hk with rfl | rfl
    · obtain ⟨w'', h1, h2⟩ := step_points0 r b hs w.comps w.dom w.log
      rw [h1] at hstep
      injection hstep with e
      exact ⟨r - 1, b + 1, by omega, e ▸ h2⟩
    · obtain ⟨w'', h1, h2⟩ := step_points1 r b hs w.comps w.dom w.log
      rw [h1] at hstep
      injection hstep with e
      exact ⟨r + 1, b - 1, by omega, e ▸ h2⟩
  | reset w w' _ hstep ih =>
    obtain ⟨r, b, hs, hw⟩ := ih
    rw [hw.eq_stable] at hstep
    obtain ⟨w'', h1, h2⟩ := step_reset r b hs w.comps w.dom w.log
    rw [h1] at hstep
    injection hstep with e
    exact ⟨20, 20, by norm_num, e ▸ h2⟩

theorem settled_slots {r b : Int} {w : World} (h : Settled r b w) :
    redScore w = Val.num r ∧ blueScore w = Val.num b ∧
      blueWon w = Val.bool (decide (r ≤ 0)) ∧ redWon w = Val.bool (decide (b ≤ 0)) ∧
      gameOver w = Val.bool (decide (r ≤ 0) || decide (b ≤ 0)) := by
  simp [redScore, blueScore, blueWon, redWon, gameOver, app, h.c0, appComp, getAt, Bool.or_comm]

theorem plus0_slots (r b : Int) (comps : CompId → Comp) (dom : CompId → PlayerDom)
    (log : List Ev) :
    redScore (plus player0 (stable r b comps dom log)) = Val.num (r - 1) ∧
      blueScore (plus player0 (stable r b comps dom log)) = Val.num (b + 1) := by
  have e1 : ¬ r = r - 1 := by omega
  have e2 : ¬ b = b + 1 := by omega
  simp [redScore, blueScore, plus, dispatch, stable, playerComp, lookup, player0,
    call_listeners, bundle_listener, custom_event, updateBlueScore, invalidate, app, appComp,
    getAt, setAt, List.getD, World.setComp, Function.update, safe_not_equal, is_function,
    make_dirty, schedule_update, World.emit, orAt, or32, shl32, toInt32, toUint32, e1, e2]

theorem plus1_slots (r b : Int) (comps : CompId → Comp) (dom : CompId → PlayerDom)
    (log : List Ev) :
    redScore (plus player1 (stable r b comps dom log)) = Val.num (r + 1) ∧
      blueScore (plus player1 (stable r b comps dom log)) = Val.num (b - 1) := by
  have e1 : ¬ r = r + 1 := by omega
  have e2 : ¬ b = b - 1 := by omega
  simp [redScore, blueScore, plus, dispatch, stable, playerComp, lookup, player1,
    call_listeners, bundle_listener, custom_event, updateRedScore, invalidate, app, appComp,
    getAt, setAt, List.getD, World.setComp, Function.update, safe_not_equal, is_function,
    make_dirty, schedule_update, World.emit, orAt, or32, shl32, toInt32, toUint32, e1, e2]

/-- C1: in every state reached from the initial state by `points` events and resets, the two
score slots hold integers whose sum is 40; a `points` event of the blue Player adds 1 to
`blueScore` and subtracts 1 from `redScore`, one of the red Player does the opposite, so the
sum is again 40 right after the handler, before any flush. -/
theorem C1_score_sum_is_40 (w : World) (h : Reach w) :
    ∃ r b : Int, redScore w = Val.num r ∧ blueScore w = Val.num b ∧ r + b = 40 ∧
      w.app.redScore = r ∧ w.app.blueScore = b ∧
      redScore (plus player0 w) = Val.num (r - 1) ∧
      blueScore (plus player0 w) = Val.num (b + 1) ∧
      redScore (plus player1 w) = Val.num (r + 1) ∧
      blueScore (plus player1 w) = Val.num (b - 1) ∧
      (r - 1) + (b + 1) = 40 ∧ (r + 1) + (b - 1) = 40 := by
  obtain ⟨r, b, hs, hw⟩ := reach_settled w h
  have hr := (settled_slots hw).1
  have hb := (settled_slots hw).2.1
  have hav := hw.av
  have e := hw.eq_stable
  have p0 := plus0_slots r b w.comps w.dom w.log
  have p1 := plus1_slots r b w.comps w.dom w.log
  rw [← e] at p0 p1
  refine ⟨r, b, hr, hb, hs, ?_, ?_, p0.1, p0.2, p1.1, p1.2, by omega, by omega⟩
  · rw [hav]
  · rw [hav]

/-- Witness of C1 at the initial state. -/
theorem C1_witness :
    ∃ r b : Int, redScore (main fuel).world = Val.num r ∧
      blueScore (main fuel).world = Val.num b ∧ r + b = 40 ∧
      (main fuel).world.app.redScore = r ∧ (main fuel).world.app.blueScore = b ∧
      redScore (plus player0 (main fuel).world) = Val.num (r - 1) ∧
      blueScore (plus player0 (main fuel).world) = Val.num (b + 1) ∧
      redScore (plus player1 (main fuel).world) = Val.num (r + 1) ∧
      blueScore (plus player1 (main fuel).world) = Val.num (b - 1) ∧
      (r - 1) + (b + 1) = 40 ∧ (r + 1) + (b - 1) = 40 :=
  C1_score_sum_is_40 (main fuel).world (Reach.main _ main_ok)

theorem reach_step (w : World) (h : Reach w) :
    (∀ k, k = player0 ∨ k = player1 →
      ∃ w', run_microtask bundle fuel (plus k w) = some w' ∧ Reach w') ∧
    (∃ w', run_microtask bundle fuel (reset w) = some w' ∧ Reach w') := by
  obtain ⟨r, b, hs, hw⟩ := reach_settled w h
  have e := hw.eq_stable
  refine ⟨?_, ?_⟩
  · intro k hk
    rcases hk with rfl | rfl
    · obtain ⟨w', h1, _⟩ := step_points0 r b hs w.comps w.dom w.log
      rw [← e] at h1
      exact ⟨w', h1, Reach.points w w' player0 h (Or.inl rfl) h1⟩
    · obtain ⟨w', h1, _⟩ := step_points1 r b hs w.comps w.dom w.log
      rw [← e] at h1
      exact ⟨w', h1, Reach.points w w' player1 h (Or.inr rfl) h1⟩
  · obtain ⟨w', h1, _⟩ := step_reset r b hs w.comps w.dom w.log
    rw [← e] at h1
    exact ⟨w', h1, Reach.reset w w' h h1⟩

theorem recompute_all_stable (r b : Int) (comps : CompId → Comp) (dom : CompId → PlayerDom)
    (log : List Ev) :
    (recompute_all (stable r b comps dom log)).comps app = appComp r b ∧
      (recompute_all (stable r b comps dom log)).app = (stable r b comps dom log).app := by
  by_cases h1 : r ≤ 0 <;> by_cases h3 : b ≤ 0 <;>
    simp [recompute_all, stable, invalidate, app, appComp, getAt, setAt, List.getD,
      World.setComp, Function.update, safe_not_equal, is_function, Val.or, Val.truthy, h1, h3]

/-- C2: in every state reached from the initial state by `points` events and resets, each
followed by its flush, nothing is left pending and the derived slots equal their definitions
over the score slots: `blueWon = (redScore <= 0)`, `redWon = (blueScore <= 0)`,
`gameOver = (redScore <= 0 or blueScore <= 0)`.  Recomputing all three regardless of the dirty
bits changes nothing there, and from such a state every further event is followed by a flush
that completes and leads to such a state again. -/
theorem C2_derived_slots (w : World) (h : Reach w) :
    ∃ r b : Int, redScore w = Val.num r ∧ blueScore w = Val.num b ∧
      blueWon w = Val.bool (decide (r ≤ 0)) ∧
      redWon w = Val.bool (decide (b ≤ 0)) ∧
      gameOver w = Val.bool (decide (r ≤ 0) || decide (b ≤ 0)) ∧
      (w.comps app).dirty = [-1] ∧ w.dirty_components = [] ∧ w.microtasks = 0 ∧
      (recompute_all w).comps app = w.comps app ∧ (recompute_all w).app = w.app ∧
      (∀ k, k = player0 ∨ k = player1 →
        ∃ w', run_microtask bundle fuel (plus k w) = some w' ∧ Reach w') ∧
      (∃ w', run_microtask bundle fuel (reset w) = some w' ∧ Reach w') := by
  obtain ⟨r, b, hs, hw⟩ := reach_settled w h
  obtain ⟨s1, s2, s3, s4, s5⟩ := settled_slots hw
  have hc := recompute_all_stable r b w.comps w.dom w.log
  rw [← hw.eq_stable] at hc
  refine ⟨r, b, s1, s2, s3, s4, s5, ?_, hw.dc, hw.mt, ?_, hc.2, (reach_step w h).1,
    (reach_step w h).2⟩
  · have := hw.c0
    simp [app, this, appComp]
  · rw [hc.1]
    exact hw.c0.symm

/-- Witness of C2 at the initial state. -/
theorem C2_witness :
    ∃ r b : Int, redScore (main fuel).world = Val.num r ∧
      blueScore (main fuel).world = Val.num b ∧
      blueWon (main fuel).world = Val.bool (decide (r ≤ 0)) ∧
      redWon (main fuel).world = Val.bool (decide (b ≤ 0)) ∧
      gameOver (main fuel).world = Val.bool (decide (r ≤ 0) || decide (b ≤ 0)) ∧
      ((main fuel).world.comps app).dirty = [-1] ∧ (main fuel).world.dirty_components = [] ∧
      (main fuel).world.microtasks = 0 ∧
      (recompute_all (main fuel).world).comps app = (main fuel).world.comps app ∧
      (recompute_all (main fuel).world).app = (main fuel).world.app ∧
      (∀ k, k = player0 ∨ k = player1 →
        ∃ w', run_microtask bundle fuel (plus k (main fuel).world) = some w' ∧ Reach w') ∧
      (∃ w', run_microtask bundle fuel (reset (main fuel).world) = some w' ∧ Reach w') :=
  C2_derived_slots (main fuel).world (Reach.main _ main_ok)

set_option maxRecDepth 100000 in
/-- Counterexample to C3 as stated: after 20 `points` events of the blue Player, `redWon` is
`false`, not `true`. -/
theorem C3_counterexample :
    (clicks player0 20 (main fuel).world).map redWon = some (Val.bool false) ∧
      (clicks player0 20 (main fuel).world).map redWon ≠ some (Val.bool true) := by
  decide

set_option maxRecDepth 100000 in
/-- C3 (amended): from the initial state, 20 clicks on the `+` button of the blue Player, each
followed by its flush, give `redScore = 0`, `blueScore = 40`, `blueWon = true`,
`redWon = false`, `gameOver = true`, and both `+` buttons are disabled; the same state results
when the 20 `points` events are handled in a row and one flush follows. -/
theorem C3_blue_scores_twenty :
    (clicks player0 20 (main fuel).world).map board =
      some { redScore := Val.num 0, blueScore := Val.num 40, blueWon := Val.bool true,
             redWon := Val.bool false, gameOver := Val.bool true, disabled0 := true,
             disabled1 := true } ∧
    (run_microtask bundle fuel ((plus player0)^[20] (main fuel).world)).map board =
      some { redScore := Val.num 0, blueScore := Val.num 40, blueWon := Val.bool true,
             redWon := Val.bool false, gameOver := Val.bool true, disabled0 := true,
             disabled1 := true } := by
  decide

theorem reach_blueRun (n : Nat) : Reach (blueRun n) := by
  induction n with
  | zero => exact Reach.main _ main_ok
  | succ n ih =>
    obtain ⟨w', h1, h2⟩ := (reach_step (blueRun n) ih).1 player0 (Or.inl rfl)
    simp only [blueRun, h1, Option.getD_some]
    exact h2

/-- C4: from every state reached by `points` events and resets, a click on the Start Game
button runs `reset`, the flush that follows completes, and afterwards `redScore = 20`,
`blueScore = 20`, `blueWon = false`, `redWon = false`, `gameOver = false` (and both `+` buttons
are enabled). -/
theorem C4_reset_restores_start (w : World) (h : Reach w) :
    ∃ w', click_reset fuel w = some w' ∧ run_microtask bundle fuel (reset w) = some w' ∧
      Reach w' ∧
      board w' =
        { redScore := Val.num 20, blueScore := Val.num 20, blueWon := Val.bool false,
          redWon := Val.bool false, gameOver := Val.bool false, disabled0 := false,
          disabled1 := false } := by
  obtain ⟨r, b, hs, hw⟩ := reach_settled w h
  obtain ⟨w', h1, h2⟩ := step_reset r b hs w.comps w.dom w.log
  rw [← hw.eq_stable] at h1
  refine ⟨w', ?_, h1, Reach.reset w w' h h1, ?_⟩
  · simp [click_reset, hw.rl, h1]
  · obtain ⟨s1, s2, s3, s4, s5⟩ := settled_slots h2
    simp [board, s1, s2, s3, s4, s5, player0, player1, h2.d1, h2.d2, playerDom]

/-- Witness of C4 at the game-over state reached by 20 `points` events of the blue Player. -/
theorem C4_witness :
    ∃ w', click_reset fuel (blueRun 20) = some w' ∧
      run_microtask bundle fuel (reset (blueRun 20)) = some w' ∧ Reach w' ∧
      board w' =
        { redScore := Val.num 20, blueScore := Val.num 20, blueWon := Val.bool false,
          redWon := Val.bool false, gameOver := Val.bool false, disabled0 := false,
          disabled1 := false } :=
  C4_reset_restores_start (blueRun 20) (reach_blueRun 20)

theorem click_plus_inert (w : World) (h : Reach w) (hg : gameOver w = Val.bool true)
    (k : CompId) (hk : k = player0 ∨ k = player1) : click_plus fuel k w = some w := by
  obtain ⟨r, b, hs, hw⟩ := reach_settled w h
  have s5 := (settled_slots hw).2.2.2.2
  rw [s5] at hg
  injection hg with hg
  have hg' : (decide (b ≤ 0) || decide (r ≤ 0)) = true := by rw [Bool.or_comm]; exact hg
  rcases hk with rfl | rfl
  · simp [click_plus, player0, hw.d1, playerDom, hg']
  · simp [click_plus, player1, hw.d2, playerDom, hg']

/-- C5: in a reachable state whose `gameOver` slot is `true`, a click on the `+` button of
either Player changes nothing: the button is disabled, no `points` event is dispatched, and
the state (hence `redScore` and `blueScore`) stays as it is, also over any run of such
clicks. -/
theorem C5_game_over_inert (w : World) (h : Reach w) (hg : gameOver w = Val.bool true) :
    (w.dom player0).disabled = true ∧ (w.dom player1).disabled = true ∧
    (∀ k, k = player0 ∨ k = player1 → click_plus fuel k w = some w) ∧
    (∀ ks : List CompId, (∀ k ∈ ks, k = player0 ∨ k = player1) →
      click_all ks w = some w) := by
  have h3 := click_plus_inert w h hg
  obtain ⟨r, b, hs, hw⟩ := reach_settled w h
  have s5 := (settled_slots hw).2.2.2.2
  rw [s5] at hg
  injection hg with hg
  have hg' : (decide (b ≤ 0) || decide (r ≤ 0)) = true := by rw [Bool.or_comm]; exact hg
  refine ⟨?_, ?_, h3, ?_⟩
  · simp [player0, hw.d1, playerDom, hg']
  · simp [player1, hw.d2, playerDom, hg']
  · intro ks
    induction ks with
    | nil => intro _; rfl
    | cons k ks ih =>
      intro hks
      have hk := hks k (List.mem_cons_self k ks)
      have hrest : ∀ k' ∈ ks, k' = player0 ∨ k' = player1 :=
        fun k' hk' => hks k' (List.mem_cons_of_mem k hk')
      simp only [click_all, h3 k hk, Option.some_bind]
      exact ih hrest

set_option maxRecDepth 100000 in
/-- Witness of C5 at the game-over state reached by 20 `points` events of the blue Player. -/
theorem C5_witness :
    gameOver (blueRun 20) = Val.bool true ∧
    (blueRun 20).dom player0 = playerDom 40 "blue wins" true "blue" true ∧
    ((blueRun 20).dom player0).disabled = true ∧ ((blueRun 20).dom player1).disabled = true ∧
    (∀ k, k = player0 ∨ k = player1 → click_plus fuel k (blueRun 20) = some (blueRun 20)) ∧
    (∀ ks : List CompId, (∀ k ∈ ks, k = player0 ∨ k = player1) →
      click_all ks (blueRun 20) = some (blueRun 20)) :=
  ⟨by decide, by decide, C5_game_over_inert (blueRun 20) (reach_blueRun 20) (by decide)⟩

/-! ## Masks -/

theorem toUint32_of_range (x : Int) (h0 : 0 ≤ x) (h1 : x < 2147483648) :
    toUint32 x = x.toNat := by
  unfold toUint32
  rw [Int.emod_eq_of_lt h0 (by omega)]

theorem toInt32_of_lt (n : Nat) (h : n < 2147483648) : toInt32 n = (n : Int) := by
  unfold toInt32
  have : n % 4294967296 = n := Nat.mod_eq_of_lt (by omega)
  rw [this, if_pos h]
  rfl

theorem or32_of_range (a b : Int) (ha0 : 0 ≤ a) (ha1 : a < 2147483648) (hb0 : 0 ≤ b)
    (hb1 : b < 2147483648) :
    or32 a b = ((a.toNat ||| b.toNat : Nat) : Int) ∧
      (a.toNat ||| b.toNat) < 2147483648 := by
  have h : (a.toNat ||| b.toNat) < 2 ^ 31 :=
    Nat.or_lt_two_pow (by omega) (by omega)
  have h' : (a.toNat ||| b.toNat) < 2147483648 := by simpa using h
  refine ⟨?_, h'⟩
  unfold or32
  rw [toUint32_of_range a ha0 ha1, toUint32_of_range b hb0 hb1, toInt32_of_lt _ h']

theorem shl32_one (k : Nat) (h : k < 31) :
    shl32 1 k = ((2 ^ k : Nat) : Int) ∧ 2 ^ k < 2147483648 := by
  have h2 : 2 ^ k < 2 ^ 31 := Nat.pow_lt_pow_right (by norm_num) h
  have h2' : 2 ^ k < 2147483648 := by simpa using h2
  refine ⟨?_, h2'⟩
  unfold shl32
  have e : toUint32 1 = 1 := by decide
  rw [e, Nat.mod_eq_of_lt (by omega : k < 32), Nat.one_shiftLeft, toInt32_of_lt _ h2']

theorem slot_bit_in_range (i : Nat) :
    0 ≤ shl32 1 (i % 31) ∧ shl32 1 (i % 31) < 2147483648 ∧
      (shl32 1 (i % 31)).toNat = 2 ^ (i % 31) := by
  obtain ⟨h1, h2⟩ := shl32_one (i % 31) (Nat.mod_lt _ (by norm_num))
  rw [h1]
  exact ⟨by positivity, by exact_mod_cast h2, Int.toNat_natCast _⟩

/-! ## Facts about `make_dirty` -/

theorem make_dirty_other (c d : CompId) (i : Nat) (w : World) (h : d ≠ c) :
    (make_dirty c i w).comps d = w.comps d := by
  simp only [make_dirty, schedule_update, World.setComp, World.emit, isClean]
  split_ifs <;> simp_all [Function.update]

theorem make_dirty_dirty_components (c : CompId) (i : Nat) (w : World) :
    (make_dirty c i w).dirty_components =
      if isClean (w.comps c).dirty then w.dirty_components ++ [c] else w.dirty_components := by
  simp only [make_dirty, schedule_update, World.setComp, World.emit, isClean]
  split_ifs <;> simp_all

theorem make_dirty_flushidx (c : CompId) (i : Nat) (w : World) :
    (make_dirty c i w).flushidx = w.flushidx := by
  simp only [make_dirty, schedule_update, World.setComp, World.emit, isClean]
  split_ifs <;> simp_all

theorem make_dirty_binding_callbacks (c : CompId) (i : Nat) (w : World) :
    (make_dirty c i w).binding_callbacks = w.binding_callbacks := by
  simp only [make_dirty, schedule_update, World.setComp, World.emit, isClean]
  split_ifs <;> simp_all

theorem make_dirty_flush_callbacks (c : CompId) (i : Nat) (w : World) :
    (make_dirty c i w).flush_callbacks = w.flush_callbacks := by
  simp only [make_dirty, schedule_update, World.setComp, World.emit, isClean]
  split_ifs <;> simp_all

theorem make_dirty_fragment (c d : CompId) (i : Nat) (w : World) :
    ((make_dirty c i w).comps d).fragment = (w.comps d).fragment := by
  by_cases h : d = c
  · subst h
    simp only [make_dirty, schedule_update, World.setComp, World.emit, isClean]
    split_ifs <;> simp_all
  · rw [make_dirty_other c d i w h]

theorem make_dirty_dirty (c : CompId) (i : Nat) (w : World) :
    ((make_dirty c i w).comps c).dirty =
      orAt (if isClean (w.comps c).dirty then (w.comps c).dirty.map (fun _ => 0)
            else (w.comps c).dirty) (i / 31) (shl32 1 (i % 31)) := by
  simp only [make_dirty, schedule_update, World.setComp, World.emit, isClean]
  split_ifs <;> simp_all

theorem make_dirty_log (c : CompId) (i : Nat) (w : World) :
    (make_dirty c i w).log =
      w.log ++ (if isClean (w.comps c).dirty then
        Ev.enqueue c :: (if w.update_scheduled then [] else [Ev.schedule]) else []) := by
  simp only [make_dirty, schedule_update, World.setComp, World.emit, isClean]
  split_ifs <;> simp_all

theorem make_dirty_update_scheduled (c : CompId) (i : Nat) (w : World) :
    (make_dirty c i w).update_scheduled =
      (w.update_scheduled || decide (isClean (w.comps c).dirty)) := by
  simp only [make_dirty, schedule_update, World.setComp, World.emit, isClean]
  split_ifs <;> simp_all

theorem make_dirty_microtasks (c : CompId) (i : Nat) (w : World) :
    (make_dirty c i w).microtasks =
      if isClean (w.comps c).dirty ∧ w.update_scheduled = false then w.microtasks + 1
      else w.microtasks := by
  simp only [make_dirty, schedule_update, World.setComp, World.emit, isClean]
  split_ifs <;> simp_all

/-! ## Component code and the scheduler -/

theorem SameSched.refl (w : World) : SameSched w w :=
  ⟨fun _ => rfl, fun _ => rfl, rfl, rfl, rfl, rfl, rfl, rfl, rfl, rfl⟩

theorem SameSched.trans_same {w1 w2 w3 : World} (h1 : SameSched w1 w2) (h2 : SameSched w2 w3) :
    SameSched w1 w3 :=
  ⟨fun c => (h2.dirty c).trans (h1.dirty c), fun c => (h2.fragment c).trans (h1.fragment c),
   h2.dirty_components.trans h1.dirty_components, h2.flushidx.trans h1.flushidx,
   h2.update_scheduled.trans h1.update_scheduled, h2.microtasks.trans h1.microtasks,
   h2.seen_callbacks.trans h1.seen_callbacks, h2.binding_callbacks.trans h1.binding_callbacks,
   h2.flush_callbacks.trans h1.flush_callbacks, h2.log.trans h1.log⟩

theorem ApiOn.trans_api {ok : CompId → Prop} {w1 w2 w3 : World} (h1 : ApiOn ok w1 w2)
    (h2 : ApiOn ok w2 w3) : ApiOn ok w1 w3 := by
  induction h1 with
  | done w => exact h2
  | step w w1 w2 hs _ ih => exact ApiOn.step w w1 w3 hs (ih h2)
  | dirty w w2 c i hc _ ih => exact ApiOn.dirty w w3 c i hc (ih h2)

theorem ApiOn.mono_api {ok ok' : CompId → Prop} (hsub : ∀ c, ok c → ok' c) {w1 w2 : World}
    (h : ApiOn ok w1 w2) : ApiOn ok' w1 w2 := by
  induction h with
  | done w => exact ApiOn.done w
  | step w w1 w2 hs _ ih => exact ApiOn.step w w1 w2 hs ih
  | dirty w w2 c i hc _ ih => exact ApiOn.dirty w w2 c i (hsub c hc) ih

theorem ApiOn.of_same {ok : CompId → Prop} {w w' : World} (h : SameSched w w') :
    ApiOn ok w w' :=
  ApiOn.step w w' w' h (ApiOn.done w')

theorem ApiOn.of_make_dirty {ok : CompId → Prop} (c : CompId) (i : Nat) (w : World) (h : ok c) :
    ApiOn ok w (make_dirty c i w) :=
  ApiOn.dirty w _ c i h (ApiOn.done _)

/-- An invariant of local changes and of the allowed `make_dirty` calls is an invariant of
component code. -/
theorem ApiOn.preserve {ok : CompId → Prop} (I : World → Prop)
    (hlocal : ∀ w w', SameSched w w' → I w → I w')
    (hdirty : ∀ w c i, ok c → I w → I (make_dirty c i w))
    {w w' : World} (h : ApiOn ok w w') (hI : I w) : I w' := by
  induction h with
  | done w => exact hI
  | step w w1 w2 hs _ ih => exact ih (hlocal w w1 hs hI)
  | dirty w w2 c i hc _ ih => exact ih (hdirty w c i hc hI)

theorem run_all_api {ok : CompId → Prop} (P : Program)
    (hcb : ∀ n w, ApiOn ok w (P.callback n w)) (fns : List Nat) (w : World) :
    ApiOn ok w (run_all P fns w) := by
  induction fns generalizing w with
  | nil => exact ApiOn.done w
  | cons fn fns ih =>
    simp only [run_all, List.foldl_cons]
    exact (hcb fn w).trans_api (ih (P.callback fn w))

theorem add_render_callbacks_same (fns : List Nat) (w : World) :
    SameSched w (fns.foldl (fun w fn => add_render_callback w (Cb.user fn)) w) := by
  induction fns generalizing w with
  | nil => exact SameSched.refl w
  | cons fn fns ih =>
    simp only [List.foldl_cons]
    refine SameSched.trans_same ?_ (ih _)
    exact ⟨fun _ => rfl, fun _ => rfl, rfl, rfl, rfl, rfl, rfl, rfl, rfl, rfl⟩

theorem setComp_same (w : World) (c : CompId) (x : Comp) (hd : x.dirty = (w.comps c).dirty)
    (hf : x.fragment = (w.comps c).fragment) : SameSched w (w.setComp c x) := by
  refine ⟨fun d => ?_, fun d => ?_, rfl, rfl, rfl, rfl, rfl, rfl, rfl, rfl⟩
  · by_cases h : d = c
    · subst h; simp [World.setComp, hd]
    · simp [World.setComp, Function.update, h]
  · by_cases h : d = c
    · subst h; simp [World.setComp, hf]
    · simp [World.setComp, Function.update, h]

theorem on_mount_fold_api {ok : CompId → Prop} (P : Program)
    (hom : ∀ n w, ApiOn ok w (P.on_mount n w).1) (fns : List Nat) (w : World)
    (acc : List Nat) :
    ApiOn ok w (fns.foldl (fun (acc : World × List Nat) fn =>
      ((P.on_mount fn acc.1).1, acc.2 ++ (P.on_mount fn acc.1).2.toList)) (w, acc)).1 := by
  induction fns generalizing w acc with
  | nil => exact ApiOn.done w
  | cons fn fns ih =>
    simp only [List.foldl_cons]
    exact (hom fn w).trans_api (ih _ _)

theorem mount_callback_api {ok : CompId → Prop} (P : Program)
    (hcb : ∀ n w, ApiOn ok w (P.callback n w))
    (hom : ∀ n w, ApiOn ok w (P.on_mount n w).1) (c : CompId) (w : World) :
    ApiOn ok w (mount_callback P c w) := by
  unfold mount_callback
  refine (on_mount_fold_api P hom (w.comps c).on_mount w []).trans_api ?_
  generalize ((w.comps c).on_mount.foldl _ (w, [])) = r
  have h1 : ApiOn ok r.1 (match (r.1.comps c).on_destroy with
      | some ds => r.1.setComp c { r.1.comps c with on_destroy := some (ds ++ r.2) }
      | Option.none => run_all P r.2 r.1) := by
    cases (r.1.comps c).on_destroy with
    | none => exact run_all_api P hcb _ _
    | some ds => exact ApiOn.of_same (setComp_same _ _ _ rfl rfl)
  exact h1.trans_api (ApiOn.of_same (setComp_same _ _ _ rfl rfl))

theorem run_cb_api {ok : CompId → Prop} (P : Program)
    (hcb : ∀ n w, ApiOn ok w (P.callback n w))
    (hom : ∀ n w, ApiOn ok w (P.on_mount n w).1) (cb : Cb) (w : World) :
    ApiOn ok w (run_cb P cb w) := by
  cases cb with
  | mount c => exact mount_callback_api P hcb hom c w
  | user n => exact hcb n w

/-! ## Proof rules for `update` and the loops of `flush` -/

/-- Proof rule for `update`: `J` holds from the call of the update hook until the mask is
captured, `K` from the reset of the mask on. -/
theorem update_rule (P : Program) {upd : CompId → CompId → Prop} {oth : CompId → Prop}
    (hP : P.Confined upd oth) (c : CompId) (w : World) (J K : World → Prop)
    (hnull : (w.comps c).fragment = Fragment.null → K w)
    (hstart : (w.comps c).fragment ≠ Fragment.null → J (w.emit (Ev.hook c)))
    (hJl : ∀ v v', SameSched v v' → J v → J v')
    (hJd : ∀ v d i, (upd c d ∨ oth d) → J v → J (make_dirty d i v))
    (hreset : ∀ v, J v → (v.comps c).fragment ≠ Fragment.live →
      K ((v.setComp c { v.comps c with dirty := [-1] }).emit (Ev.reset c)))
    (hpatch : ∀ v, J v → (v.comps c).fragment = Fragment.live →
      K (((v.setComp c { v.comps c with dirty := [-1] }).emit (Ev.reset c)).emit
        (Ev.patch c (v.comps c).dirty)))
    (hKl : ∀ v v', SameSched v v' → K v → K v')
    (hKd : ∀ v d i, oth d → K v → K (make_dirty d i v)) :
    K (update P c w) := by
  unfold update
  by_cases hf : (w.comps c).fragment = Fragment.null
  · rw [if_neg (not_not.mpr hf)]
    exact hnull hf
  · rw [if_pos hf]
    have h1 : J (P.update c (w.emit (Ev.hook c))) :=
      ApiOn.preserve J hJl (fun v d i hd => hJd v d i (Or.inl hd)) (hP.update c _) (hstart hf)
    have h2 : J (run_all P ((P.update c (w.emit (Ev.hook c))).comps c).before_update
        (P.update c (w.emit (Ev.hook c)))) :=
      ApiOn.preserve J hJl (fun v d i hd => hJd v d i (Or.inr hd))
        (run_all_api P hP.callback _ _) h1
    simp only []
    generalize run_all P ((P.update c (w.emit (Ev.hook c))).comps c).before_update
        (P.update c (w.emit (Ev.hook c))) = v at h2
    refine hKl _ _ (add_render_callbacks_same _ _) ?_
    have hfr : ((((v.setComp c { v.comps c with dirty := [-1] }).emit (Ev.reset c))).comps
        c).fragment = (v.comps c).fragment := by
      simp [World.setComp, World.emit]
    split_ifs with hl
    · exact ApiOn.preserve K hKl hKd (hP.patch c _ _ _) (hpatch v h2 (hfr.symm.trans hl))
    · exact hreset v h2 (fun h => hl (hfr.trans h))

/-- Proof rule for the drain loop. -/
theorem drain_rule (P : Program) (I : World → Prop)
    (hiter : ∀ w c, I w → w.dirty_components.get? w.flushidx = some c → I (drain_step P c w))
    (n : Nat) (w w' : World) (h : drain P n w = some w') (hI : I w) :
    I w' ∧ w'.dirty_components.get? w'.flushidx = Option.none := by
  induction n generalizing w with
  | zero => simp [drain] at h
  | succ n ih =>
    unfold drain at h
    cases hg : w.dirty_components.get? w.flushidx with
    | none =>
      rw [hg] at h
      simp only [Option.some.injEq] at h
      subst h
      exact ⟨hI, hg⟩
    | some c =>
      rw [hg] at h
      exact ih _ h (hiter w c hI hg)

/-- Proof rule for the loop over `binding_callbacks`. -/
theorem run_binding_callbacks_rule (P : Program) (I : World → Prop)
    (hcall : ∀ w fn, I w → w.binding_callbacks.getLast? = some fn →
      I (P.callback fn { w with binding_callbacks := w.binding_callbacks.dropLast }))
    (n : Nat) (w w' : World) (h : run_binding_callbacks P n w = some w') (hI : I w) : I w' := by
  induction n generalizing w with
  | zero => simp [run_binding_callbacks] at h
  | succ n ih =>
    unfold run_binding_callbacks at h
    cases hg : w.binding_callbacks.getLast? with
    | none =>
      rw [hg] at h
      simp only [Option.some.injEq] at h
      subst h
      exact hI
    | some fn =>
      rw [hg] at h
      exact ih _ h (hcall w fn hI hg)

/-- Proof rule for the loop over `flush_callbacks`. -/
theorem run_flush_callbacks_rule (P : Program) (I : World → Prop)
    (hcall : ∀ w fn, I w → w.flush_callbacks.getLast? = some fn →
      I (P.callback fn { w with flush_callbacks := w.flush_callbacks.dropLast }))
    (n : Nat) (w w' : World) (h : run_flush_callbacks P n w = some w') (hI : I w) : I w' := by
  induction n generalizing w with
  | zero => simp [run_flush_callbacks] at h
  | succ n ih =>
    unfold run_flush_callbacks at h
    cases hg : w.flush_callbacks.getLast? with
    | none =>
      rw [hg] at h
      simp only [Option.some.injEq] at h
      subst h
      exact hI
    | some fn =>
      rw [hg] at h
      exact ih _ h (hcall w fn hI hg)

/-- Proof rule for the loop over `render_callbacks`. -/
theorem run_render_callbacks_rule (P : Program) (I : World → Prop)
    (hcall : ∀ w cb, I w → cb ∉ w.seen_callbacks →
      I (run_cb P cb { w with seen_callbacks := w.seen_callbacks ++ [cb] }))
    (n i : Nat) (w w' : World) (h : run_render_callbacks P n i w = some w') (hI : I w) :
    I w' := by
  induction n generalizing w i with
  | zero => simp [run_render_callbacks] at h
  | succ n ih =>
    unfold run_render_callbacks at h
    cases hg : w.render_callbacks.get? i with
    | none =>
      rw [hg] at h
      simp only [Option.some.injEq] at h
      subst h
      exact hI
    | some cb =>
      rw [hg] at h
      simp only [] at h
      by_cases hs : cb ∈ w.seen_callbacks
      · rw [if_pos hs] at h
        exact ih _ _ h hI
      · rw [if_neg hs] at h
        exact ih _ _ h (hcall w cb hI hs)

/-- Proof rule for the `do ... while` loop of `flush`; at its exit the queue and the list of
render callbacks are empty. -/
theorem flush_loop_rule (P : Program) (I I' : World → Prop) (hI : FlushInv P I I')
    (n : Nat) (w w' : World) (h : flush_loop P n w = some w') (h0 : I w) :
    I' w' ∧ w'.dirty_components = [] ∧ w'.render_callbacks = [] := by
  induction n generalizing w with
  | zero => simp [flush_loop] at h
  | succ n ih =>
    unfold flush_loop at h
    cases h1 : drain P n w with
    | none => rw [h1] at h; simp at h
    | some w1 =>
      rw [h1] at h
      simp only [] at h
      obtain ⟨i1, g1⟩ := drain_rule P I hI.iter n w w1 h1 h0
      have i2 := hI.clear w1 i1 g1
      cases h2 : run_binding_callbacks P n (clear_queue w1) with
      | none => rw [h2] at h; simp at h
      | some w2 =>
        rw [h2] at h
        simp only [] at h
        have i3 := run_binding_callbacks_rule P I' hI.binding n _ w2 h2 i2
        cases h3 : run_render_callbacks P n 0 w2 with
        | none => rw [h3] at h; simp at h
        | some w3 =>
          rw [h3] at h
          simp only [] at h
          have i4 := run_render_callbacks_rule P I' hI.render n 0 w2 w3 h3 i3
          have i5 := hI.render_done w3 i4
          by_cases hl : w3.dirty_components.length ≠ 0
          · rw [if_pos hl] at h
            exact ih _ h (hI.again _ i5 hl)
          · rw [if_neg hl] at h
            simp only [Option.some.injEq] at h
            subst h
            simp only [ne_eq, not_not, List.length_eq_zero] at hl
            exact ⟨i5, hl, rfl⟩

/-- Proof rule for `flush`. -/
theorem flush_rule (P : Program) (I I' : World → Prop) (hI : FlushInv P I I')
    (n : Nat) (w w' : World) (h : flush P n w = some w') (h0 : I w) : I' w' := by
  unfold flush at h
  simp only [] at h
  cases h1 : flush_loop P n w with
  | none => rw [h1] at h; simp at h
  | some w1 =>
    rw [h1] at h
    simp only [] at h
    obtain ⟨i1, q1, r1⟩ := flush_loop_rule P I I' hI n w w1 h1 h0
    cases h2 : run_flush_callbacks P n w1 with
    | none => rw [h2] at h; simp at h
    | some w2 =>
      rw [h2] at h
      simp only [Option.some.injEq] at h
      subst h
      exact hI.finish w2 _ (run_flush_callbacks_rule P I' hI.flushcb n w1 w2 h2 i1)

/-! ## The queue invariant (C7) -/

theorem orAt_range (m : List Int) (k : Nat) (b : Int) (hm : wordsInRange m)
    (hb0 : 0 ≤ b) (hb1 : b < 2147483648) : wordsInRange (orAt m k b) := by
  induction m generalizing k with
  | nil =>
    induction k with
    | zero =>
      intro x hx
      simp only [orAt, List.mem_singleton] at hx
      obtain ⟨e, h⟩ := or32_of_range 0 b le_rfl (by norm_num) hb0 hb1
      rw [hx, e]
      exact ⟨by positivity, by exact_mod_cast h⟩
    | succ k ih =>
      intro x hx
      simp only [orAt, List.mem_cons] at hx
      rcases hx with rfl | hx
      · norm_num
      · exact ih x hx
  | cons y ys ih =>
    have hy := hm y (List.mem_cons_self y ys)
    have hys : wordsInRange ys := fun x hx => hm x (List.mem_cons_of_mem y hx)
    cases k with
    | zero =>
      intro x hx
      simp only [orAt, List.mem_cons] at hx
      rcases hx with rfl | hx
      · obtain ⟨e, h⟩ := or32_of_range y b hy.1 hy.2 hb0 hb1
        rw [e]
        exact ⟨by positivity, by exact_mod_cast h⟩
      · exact hys x hx
    | succ k =>
      intro x hx
      simp only [orAt, List.mem_cons] at hx
      rcases hx with rfl | hx
      · exact hy
      · exact ih k hys x hx

theorem orAt_ne_nil (m : List Int) (k : Nat) (b : Int) : orAt m k b ≠ [] := by
  cases m <;> cases k <;> simp [orAt]

theorem not_clean_of_range (m : List Int) (hm : wordsInRange m) : ¬ isClean m := by
  intro h
  cases m with
  | nil => simp [isClean] at h
  | cons x xs =>
    simp only [isClean, List.head?_cons, Option.some.injEq] at h
    have := (hm x (List.mem_cons_self x xs)).1
    omega

theorem clean_of_mask {m : List Int} (h : m = [-1] ∨ wordsInRange m) (hc : isClean m) :
    m = [-1] := by
  rcases h with h | h
  · exact h
  · exact absurd hc (not_clean_of_range m h)

theorem make_dirty_range (c : CompId) (i : Nat) (w : World)
    (hm : (w.comps c).dirty = [-1] ∨ wordsInRange (w.comps c).dirty) :
    wordsInRange ((make_dirty c i w).comps c).dirty := by
  rw [make_dirty_dirty]
  obtain ⟨b0, b1, _⟩ := slot_bit_in_range i
  apply orAt_range _ _ _ _ b0 b1
  split_ifs with hc
  · intro x hx
    simp only [List.mem_map] at hx
    obtain ⟨_, _, rfl⟩ := hx
    norm_num
  · rcases hm with hm | hm
    · exact absurd (by rw [hm]; rfl) hc
    · exact hm

theorem pending_make_dirty (c : CompId) (i : Nat) (w : World)
    (hcur : w.flushidx ≤ w.dirty_components.length) :
    pending (make_dirty c i w) =
      if isClean (w.comps c).dirty then pending w ++ [c] else pending w := by
  unfold pending
  rw [make_dirty_dirty_components, make_dirty_flushidx]
  split_ifs
  · exact List.drop_append_of_le_length hcur
  · rfl

theorem QueueInv.congr_queue {w w' : World} (h : QueueInv w)
    (hd : ∀ c, (w'.comps c).dirty = (w.comps c).dirty)
    (hq : w'.dirty_components = w.dirty_components) (hi : w'.flushidx = w.flushidx) :
    QueueInv w' := by
  have hp : pending w' = pending w := by unfold pending; rw [hq, hi]
  refine ⟨fun c => hp ▸ h.once c, fun c hc => ?_, fun c => hd c ▸ h.masks c,
    by rw [hq, hi]; exact h.cursor⟩
  rw [hd c]
  exact h.waiting_dirty c (hp ▸ hc)

theorem QueueInv.same_queue {w w' : World} (hs : SameSched w w') (h : QueueInv w) : QueueInv w' :=
  h.congr_queue hs.dirty hs.dirty_components hs.flushidx

theorem QueueInv.make_dirty_queue {w : World} (h : QueueInv w) (c : CompId) (i : Nat) :
    QueueInv (RandomGame.make_dirty c i w) := by
  have hr := make_dirty_range c i w (h.masks c)
  have hp := pending_make_dirty c i w h.cursor
  refine ⟨fun d => ?_, fun d hd => ?_, fun d => ?_, ?_⟩
  · rw [hp]
    split_ifs with hc
    · rw [List.count_append]
      by_cases hdc : d = c
      · subst hdc
        have : d ∉ pending w := fun hmem => h.waiting_dirty d hmem hc
        rw [List.count_eq_zero_of_not_mem this]
        simp
      · have := h.once d
        simp [List.count_singleton, hdc]
        exact this
    · exact h.once d
  · by_cases hdc : d = c
    · subst hdc
      exact not_clean_of_range _ hr
    · rw [make_dirty_other c d i w hdc]
      rw [hp] at hd
      split_ifs at hd with hc
      · rcases List.mem_append.mp hd with hd | hd
        · exact h.waiting_dirty d hd
        · exact absurd (List.mem_singleton.mp hd) hdc
      · exact h.waiting_dirty d hd
  · by_cases hdc : d = c
    · subst hdc
      exact Or.inr hr
    · rw [make_dirty_other c d i w hdc]
      exact h.masks d
  · rw [make_dirty_dirty_components, make_dirty_flushidx]
    split_ifs
    · rw [List.length_append]
      have := h.cursor
      omega
    · exact h.cursor

theorem QueueInv.api_queue {ok : CompId → Prop} {w w' : World} (h : ApiOn ok w w')
    (hq : QueueInv w) : QueueInv w' :=
  ApiOn.preserve QueueInv (fun _ _ hs hq => hq.same_queue hs) (fun _ c i _ hq => hq.make_dirty_queue c i)
    h hq

theorem Busy.congr_busy {x : CompId} {w w' : World} (h : Busy x w)
    (hd : ∀ c, (w'.comps c).dirty = (w.comps c).dirty)
    (hq : w'.dirty_components = w.dirty_components) (hi : w'.flushidx = w.flushidx) :
    Busy x w' := by
  have hp : pending w' = pending w := by unfold pending; rw [hq, hi]
  exact ⟨hp ▸ h.not_pending, hd x ▸ h.dirty⟩

theorem Busy.make_dirty_busy {x : CompId} {w : World} (h : Busy x w) (hq : QueueInv w)
    (c : CompId) (i : Nat) : Busy x (RandomGame.make_dirty c i w) := by
  refine ⟨?_, ?_⟩
  · rw [pending_make_dirty c i w hq.cursor]
    split_ifs with hc
    · intro hmem
      rcases List.mem_append.mp hmem with hmem | hmem
      · exact h.not_pending hmem
      · have : x = c := List.mem_singleton.mp hmem
        subst this
        exact h.dirty hc
    · exact h.not_pending
  · by_cases hxc : x = c
    · subst hxc
      exact not_clean_of_range _ (make_dirty_range x i w (hq.masks x))
    · rw [make_dirty_other c x i w hxc]
      exact h.dirty

theorem emit_dirty (w : World) (e : Ev) (c : CompId) :
    ((w.emit e).comps c).dirty = (w.comps c).dirty := rfl

theorem QueueInv.emit_queue {w : World} (h : QueueInv w) (e : Ev) : QueueInv (w.emit e) :=
  h.congr_queue (fun _ => rfl) rfl rfl

theorem QueueInv.reset {w : World} (h : QueueInv w) (c : CompId) (hb : Busy c w) :
    QueueInv (w.setComp c { w.comps c with dirty := [-1] }) := by
  have hp : pending (w.setComp c { w.comps c with dirty := [-1] }) = pending w := rfl
  refine ⟨fun d => h.once d, fun d hd => ?_, fun d => ?_, h.cursor⟩
  · rw [hp] at hd
    have hdc : d ≠ c := fun e => hb.not_pending (e ▸ hd)
    have : ((w.setComp c { w.comps c with dirty := [-1] }).comps d) = w.comps d := by
      simp [World.setComp, Function.update, hdc]
    rw [this]
    exact h.waiting_dirty d hd
  · by_cases hdc : d = c
    · subst hdc
      left
      simp [World.setComp]
    · have : ((w.setComp c { w.comps c with dirty := [-1] }).comps d) = w.comps d := by
        simp [World.setComp, Function.update, hdc]
      rw [this]
      exact h.masks d

theorem QueueInv.update_queue (P : Program) (hP : P.WellBehaved) {w : World} (h : QueueInv w)
    (c : CompId) (hb : Busy c w) : QueueInv (RandomGame.update P c w) := by
  apply update_rule P hP c w (fun v => QueueInv v ∧ Busy c v) QueueInv
  · exact fun _ => h
  · exact fun _ => ⟨h.emit_queue _, hb.congr_busy (fun _ => rfl) rfl rfl⟩
  · exact fun v v' hs hv =>
      ⟨hv.1.same_queue hs, hv.2.congr_busy hs.dirty hs.dirty_components hs.flushidx⟩
  · exact fun v d i _ hv => ⟨hv.1.make_dirty_queue d i, hv.2.make_dirty_busy hv.1 d i⟩
  · exact fun v hv _ => (hv.1.reset c hv.2).emit_queue _
  · exact fun v hv _ => ((hv.1.reset c hv.2).emit_queue _).emit_queue _
  · exact fun v v' hs hv => hv.same_queue hs
  · exact fun v d i _ hv => hv.make_dirty_queue d i

theorem pending_of_get {w : World} {c : CompId}
    (hg : w.dirty_components.get? w.flushidx = some c) :
    w.flushidx < w.dirty_components.length ∧
      pending w = c :: w.dirty_components.drop (w.flushidx + 1) := by
  obtain ⟨hlt, he⟩ := List.get?_eq_some.mp hg
  refine ⟨hlt, ?_⟩
  unfold pending
  rw [List.drop_eq_getElem_cons hlt]
  simp only [List.get_eq_getElem] at he
  rw [he]

theorem QueueInv.drain_step_queue (P : Program) (hP : P.WellBehaved) {w : World} (h : QueueInv w)
    (c : CompId) (hg : w.dirty_components.get? w.flushidx = some c) :
    QueueInv (RandomGame.drain_step P c w) := by
  obtain ⟨hlt, hp⟩ := pending_of_get hg
  unfold RandomGame.drain_step
  have hp0 : ∀ (s : Option CompId) (e : Ev),
      pending (({ w with flushidx := w.flushidx + 1, current_component := s }).emit e) =
        w.dirty_components.drop (w.flushidx + 1) := fun _ _ => rfl
  have hc1 := h.once c
  rw [hp, List.count_cons_self] at hc1
  have hnot : c ∉ w.dirty_components.drop (w.flushidx + 1) := by
    intro hmem
    have := List.count_pos_iff.mpr hmem
    omega
  apply QueueInv.update_queue P hP
  · refine ⟨fun d => ?_, fun d hd => ?_, fun d => h.masks d, hlt⟩
    · rw [hp0 _ _]
      have := h.once d
      rw [hp] at this
      exact le_trans (List.count_le_count_cons _ _ _) this
    · rw [hp0 _ _] at hd
      exact h.waiting_dirty d (hp ▸ List.mem_cons_of_mem c hd)
  · exact ⟨(hp0 _ _) ▸ hnot, h.waiting_dirty c (hp ▸ List.mem_cons_self c _)⟩

theorem QueueInv.clear_queue_queue {w : World} (h : QueueInv w) :
    QueueInv (RandomGame.clear_queue w) := by
  refine ⟨fun d => ?_, fun d hd => ?_, fun d => h.masks d, Nat.zero_le _⟩
  · simp [pending, RandomGame.clear_queue]
  · simp [pending, RandomGame.clear_queue] at hd

theorem queueInv_flushInv (P : Program) (hP : P.WellBehaved) :
    FlushInv P QueueInv QueueInv where
  iter := fun _ c h hg => h.drain_step_queue P hP c hg
  clear := fun _ h _ => h.clear_queue_queue
  binding := fun _ fn h _ =>
    QueueInv.api_queue (hP.callback fn _) (h.congr_queue (fun _ => rfl) rfl rfl)
  render := fun _ cb h _ =>
    QueueInv.api_queue (run_cb_api P hP.callback hP.on_mount cb _) (h.congr_queue (fun _ => rfl) rfl rfl)
  render_done := fun _ h => h.congr_queue (fun _ => rfl) rfl rfl
  again := fun _ h _ => h
  flushcb := fun _ fn h _ =>
    QueueInv.api_queue (hP.callback fn _) (h.congr_queue (fun _ => rfl) rfl rfl)
  finish := fun _ _ h => h.congr_queue (fun _ => rfl) rfl rfl

theorem sched_queueInv (P : Program) (hP : P.WellBehaved) (w : World) (h : Sched P w) :
    QueueInv w := by
  induction h with
  | idle w hd hq hi _ _ =>
    refine ⟨fun c => ?_, fun c hc => ?_, fun c => Or.inl (hd c), by rw [hq, hi]; simp⟩
    · simp [pending, hq]
    · simp [pending, hq] at hc
  | api w w' _ ha ih => exact QueueInv.api_queue ha ih
  | iter w c _ hg ih => exact ih.drain_step_queue P hP c hg
  | clear w _ _ ih => exact ih.clear_queue_queue
  | flush w w' n _ hf ih =>
    exact flush_rule P QueueInv QueueInv (queueInv_flushInv P hP) n w w' hf ih

/-! ## The code of the bundle reaches the scheduler through `make_dirty` only -/

theorem Program.Confined.mono_confined {P : Program} {upd upd' : CompId → CompId → Prop}
    {oth oth' : CompId → Prop} (h : P.Confined upd oth)
    (hu : ∀ c d, upd c d → upd' c d) (ho : ∀ d, oth d → oth' d) : P.Confined upd' oth' :=
  ⟨fun c w => (h.update c w).mono_api (hu c), fun c ctx m w => (h.patch c ctx m w).mono_api ho,
   fun n w => (h.callback n w).mono_api ho, fun n w => (h.on_mount n w).mono_api ho⟩

theorem Program.Confined.wellBehaved {P : Program} {upd : CompId → CompId → Prop}
    {oth : CompId → Prop} (h : P.Confined upd oth) : P.WellBehaved :=
  h.mono_confined (fun _ _ _ => trivial) (fun _ _ => trivial)

theorem invalidate_api {ok : CompId → Prop} (c : CompId) (i : Nat) (v : Val) (w : World)
    (h : ok c) : ApiOn ok w (invalidate c i v w) := by
  unfold invalidate
  simp only []
  have h1 : SameSched w (w.setComp c { w.comps c with ctx := setAt (w.comps c).ctx i v }) :=
    setComp_same _ _ _ rfl rfl
  split_ifs
  · exact (ApiOn.of_same h1).trans_api (ApiOn.of_make_dirty c i _ h)
  · exact ApiOn.of_same h1
  · exact ApiOn.of_same h1

theorem setApp_same (w : World) (a : AppVars) : SameSched w { w with app := a } :=
  ⟨fun _ => rfl, fun _ => rfl, rfl, rfl, rfl, rfl, rfl, rfl, rfl, rfl⟩

theorem setDom_same (w : World) (c : CompId) (d : PlayerDom) : SameSched w (w.setDom c d) :=
  ⟨fun _ => rfl, fun _ => rfl, rfl, rfl, rfl, rfl, rfl, rfl, rfl, rfl⟩

theorem app_update_api (w : World) : ApiOn (fun d => d = app) w (app_update w) := by
  have s1 : ∀ v, ApiOn (fun d => d = app) v (update_blueWon v) := by
    intro v
    unfold update_blueWon
    split_ifs
    · exact (ApiOn.of_same (setApp_same _ _)).trans_api (invalidate_api _ _ _ _ rfl)
    · exact ApiOn.done _
  have s2 : ∀ v, ApiOn (fun d => d = app) v (update_redWon v) := by
    intro v
    unfold update_redWon
    split_ifs
    · exact (ApiOn.of_same (setApp_same _ _)).trans_api (invalidate_api _ _ _ _ rfl)
    · exact ApiOn.done _
  have s3 : ∀ v, ApiOn (fun d => d = app) v (update_gameOver v) := by
    intro v
    unfold update_gameOver
    split_ifs
    · exact (ApiOn.of_same (setApp_same _ _)).trans_api (invalidate_api _ _ _ _ rfl)
    · exact ApiOn.done _
  exact (s1 w).trans_api ((s2 _).trans_api (s3 _))

theorem player_set_props_api (c : CompId) (props : List (String × Val)) (w : World) :
    ApiOn (fun d => d = c) w (player_set_props c props w) := by
  unfold player_set_props
  simp only []
  have step : ∀ (name : String) (i : Nat) (v : World),
      ApiOn (fun d => d = c) v
        (match lookup name props with
          | some x => invalidate c i x v
          | Option.none => v) := by
    intro name i v
    cases lookup name props with
    | none => exact ApiOn.done _
    | some x => exact invalidate_api _ _ _ _ rfl
  exact (step "score" 0 w).trans_api ((step "winning" 1 _).trans_api ((step "won" 2 _).trans_api
    ((step "team" 3 _).trans_api (step "gameOver" 4 _))))

theorem dollar_set_player_api (c : CompId) (props : List (String × Val)) (w : World) :
    ApiOn (fun d => d = c) w (dollar_set (some (player_set_props c)) c props w) := by
  unfold dollar_set
  simp only []
  split_ifs
  · have h0 : ApiOn (fun d => d = c) w (w.setComp c { w.comps c with skip_bound := true }) :=
      ApiOn.of_same (setComp_same w c _ rfl rfl)
    have h1 := player_set_props_api c props (w.setComp c { w.comps c with skip_bound := true })
    exact (h0.trans_api h1).trans_api (ApiOn.of_same (setComp_same _ c _ rfl rfl))
  · exact ApiOn.done _

theorem app_p_api (ctx : List Val) (mask : List Int) (w : World) :
    ApiOn (fun d => d = player0 ∨ d = player1) w (app_p ctx mask w) := by
  unfold app_p
  simp only []
  exact ((dollar_set_player_api player0 _ w).mono_api (fun _ h => Or.inl h)).trans_api
    ((dollar_set_player_api player1 _ _).mono_api (fun _ h => Or.inr h))

theorem player_p_api {ok : CompId → Prop} (c : CompId) (ctx : List Val) (mask : List Int)
    (w : World) : ApiOn ok w (player_p c ctx mask w) := by
  unfold player_p
  exact ApiOn.of_same (setDom_same _ _ _)

/-- In the bundle only the update hook of App dirties App, and everything else dirties the
two Players at most. -/
theorem bundle_confined :
    bundle.Confined (fun c d => c = app ∧ d = app) (fun d => d = player0 ∨ d = player1) where
  update := fun c w => by
    rw [bundle_update]
    split_ifs with h
    · exact (app_update_api w).mono_api (fun d hd => ⟨h, hd⟩)
    · exact ApiOn.done _
  patch := fun c ctx mask w => by
    rw [bundle_patch]
    split_ifs
    · exact app_p_api ctx mask w
    · exact player_p_api c ctx mask w
  callback := fun _ w => ApiOn.done w
  on_mount := fun _ w => ApiOn.done w

theorem bundle_wellBehaved : bundle.WellBehaved := bundle_confined.wellBehaved

theorem not_clean_api {ok : CompId → Prop} {w w' : World} (c : CompId)
    (h : ApiOn ok w w') (hq : QueueInv w) (hc : ¬ isClean (w.comps c).dirty) :
    ¬ isClean (w'.comps c).dirty := by
  have := ApiOn.preserve (fun v => QueueInv v ∧ ¬ isClean (v.comps c).dirty)
    (fun v v' hs hv => ⟨hv.1.same_queue hs, by rw [hs.dirty c]; exact hv.2⟩)
    (fun v d i _ hv => ⟨hv.1.make_dirty_queue d i, by
      by_cases hdc : c = d
      · subst hdc
        exact not_clean_of_range _ (make_dirty_range c i v (hv.1.masks c))
      · rw [make_dirty_other d c i v hdc]
        exact hv.2⟩) h ⟨hq, hc⟩
  exact this.2

/-- C7: in every scheduler state reached from an idle scheduler by component code (any
`make_dirty` calls), iterations of the drain loop and complete flushes, no component occurs
twice among the components waiting in `dirty_components` (from the cursor `flushidx` on), and
each waiting component has a mask other than the sentinel.  `make_dirty` pushes the component
exactly when the first word of its mask is -1; afterwards the mask consists of words that use
bits 0..30 only, so its first word is not -1, and it stays so through all component code:
only `update`, called by `flush`, stores `[-1]` again. -/
theorem C7_enqueued_once_per_cycle (P : Program) (hP : P.WellBehaved) (w : World)
    (h : Sched P w) :
    (∀ c, (pending w).count c ≤ 1) ∧
    (∀ c ∈ pending w, ¬ isClean (w.comps c).dirty) ∧
    (∀ c, (w.comps c).dirty = [-1] ∨ wordsInRange (w.comps c).dirty) ∧
    (∀ c i, (make_dirty c i w).dirty_components =
      if isClean (w.comps c).dirty then w.dirty_components ++ [c] else w.dirty_components) ∧
    (∀ c i, wordsInRange ((make_dirty c i w).comps c).dirty ∧
      ¬ isClean ((make_dirty c i w).comps c).dirty) ∧
    (∀ c w', ¬ isClean (w.comps c).dirty → ApiOn (fun _ => True) w w' →
      ¬ isClean (w'.comps c).dirty) := by
  have hq := sched_queueInv P hP w h
  refine ⟨hq.once, hq.waiting_dirty, hq.masks, fun c i => make_dirty_dirty_components c i w,
    fun c i => ?_, fun c w' hc ha => not_clean_api c ha hq hc⟩
  have hr := make_dirty_range c i w (hq.masks c)
  exact ⟨hr, not_clean_of_range _ hr⟩

/-- Witness of C7: the bundle and the heap `twoDirty`, reached from the empty heap by three
`make_dirty` calls on two components. -/
theorem C7_witness :
    (∀ c, (pending twoDirty).count c ≤ 1) ∧
    (∀ c ∈ pending twoDirty, ¬ isClean (twoDirty.comps c).dirty) ∧
    (∀ c, (twoDirty.comps c).dirty = [-1] ∨ wordsInRange (twoDirty.comps c).dirty) ∧
    (∀ c i, (make_dirty c i twoDirty).dirty_components =
      if isClean (twoDirty.comps c).dirty then twoDirty.dirty_components ++ [c]
      else twoDirty.dirty_components) ∧
    (∀ c i, wordsInRange ((make_dirty c i twoDirty).comps c).dirty ∧
      ¬ isClean ((make_dirty c i twoDirty).comps c).dirty) ∧
    (∀ c w', ¬ isClean (twoDirty.comps c).dirty → ApiOn (fun _ => True) twoDirty w' →
      ¬ isClean (w'.comps c).dirty) :=
  C7_enqueued_once_per_cycle bundle bundle_wellBehaved twoDirty
    (Sched.api _ _ (Sched.idle World.empty (fun _ => rfl) rfl rfl rfl rfl)
      ((ApiOn.of_make_dirty 0 1 _ trivial).trans_api ((ApiOn.of_make_dirty 0 0 _ trivial).trans_api
        (ApiOn.of_make_dirty 1 4 _ trivial))))

/-! ## The FIFO drain (C9) -/

theorem updatesOf_append (L L' : List Ev) : updatesOf (L ++ L') = updatesOf L ++ updatesOf L' := by
  induction L with
  | nil => rfl
  | cons e L ih => cases e <;> simp [updatesOf, ih]

theorem enqueuesOf_append (L L' : List Ev) :
    enqueuesOf (L ++ L') = enqueuesOf L ++ enqueuesOf L' := by
  induction L with
  | nil => rfl
  | cons e L ih => cases e <;> simp [enqueuesOf, ih]

theorem FifoInv.same_fifo {L0 : List Ev} {p0 : List CompId} {w w' : World} (hs : SameSched w w')
    (h : FifoInv L0 p0 w) : FifoInv L0 p0 w' := by
  obtain ⟨L, h1, h2, h3, h4, h5⟩ := h
  have hp : pending w' = pending w := by
    unfold pending; rw [hs.dirty_components, hs.flushidx]
  exact ⟨L, by rw [hs.log, h1], by rw [hp, h2], by rw [hs.dirty_components, hs.flushidx]; exact h3,
    by rw [hs.binding_callbacks, h4], by rw [hs.flush_callbacks, h5]⟩

theorem FifoInv.make_dirty_fifo {L0 : List Ev} {p0 : List CompId} {w : World}
    (h : FifoInv L0 p0 w) (c : CompId) (i : Nat) :
    FifoInv L0 p0 (RandomGame.make_dirty c i w) := by
  obtain ⟨L, h1, h2, h3, h4, h5⟩ := h
  refine ⟨L ++ (if isClean (w.comps c).dirty then
      Ev.enqueue c :: (if w.update_scheduled then [] else [Ev.schedule]) else []), ?_, ?_, ?_,
    by rw [make_dirty_binding_callbacks, h4], by rw [make_dirty_flush_callbacks, h5]⟩
  · rw [make_dirty_log, h1, List.append_assoc]
  · rw [pending_make_dirty c i w h3, updatesOf_append, enqueuesOf_append]
    split_ifs with hc hu
    · simp only [updatesOf, enqueuesOf, List.append_nil]
      rw [← List.append_assoc, h2, List.append_assoc]
    · simp only [updatesOf, enqueuesOf, List.append_nil]
      rw [← List.append_assoc, h2, List.append_assoc]
    · simp only [updatesOf, enqueuesOf, List.append_nil]
      exact h2
  · rw [make_dirty_dirty_components, make_dirty_flushidx]
    split_ifs
    · rw [List.length_append]; omega
    · exact h3

theorem FifoInv.api_fifo {ok : CompId → Prop} {L0 : List Ev} {p0 : List CompId} {w w' : World}
    (ha : ApiOn ok w w') (h : FifoInv L0 p0 w) : FifoInv L0 p0 w' :=
  ApiOn.preserve (FifoInv L0 p0) (fun _ _ hs h => h.same_fifo hs) (fun _ c i _ h => h.make_dirty_fifo c i)
    ha h

/-- A trace event other than `update` and `enqueue` does not disturb the invariant, nor does
a change of fields the invariant does not read. -/
theorem FifoInv.emit_fifo {L0 : List Ev} {p0 : List CompId} {w w' : World} (e : Ev)
    (h : FifoInv L0 p0 w) (hu : updatesOf [e] = []) (he : enqueuesOf [e] = [])
    (hlog : w'.log = w.log ++ [e]) (hq : w'.dirty_components = w.dirty_components)
    (hi : w'.flushidx = w.flushidx) (hb : w'.binding_callbacks = w.binding_callbacks)
    (hf : w'.flush_callbacks = w.flush_callbacks) : FifoInv L0 p0 w' := by
  obtain ⟨L, h1, h2, h3, h4, h5⟩ := h
  have hp : pending w' = pending w := by unfold pending; rw [hq, hi]
  refine ⟨L ++ [e], by rw [hlog, h1, List.append_assoc], ?_, by rw [hq, hi]; exact h3,
    by rw [hb, h4], by rw [hf, h5]⟩
  rw [updatesOf_append, enqueuesOf_append, hu, he, hp]
  simpa using h2

theorem FifoInv.congr_fifo {L0 : List Ev} {p0 : List CompId} {w w' : World}
    (h : FifoInv L0 p0 w) (hlog : w'.log = w.log) (hq : w'.dirty_components = w.dirty_components)
    (hi : w'.flushidx = w.flushidx) (hb : w'.binding_callbacks = w.binding_callbacks)
    (hf : w'.flush_callbacks = w.flush_callbacks) : FifoInv L0 p0 w' := by
  obtain ⟨L, h1, h2, h3, h4, h5⟩ := h
  have hp : pending w' = pending w := by unfold pending; rw [hq, hi]
  exact ⟨L, by rw [hlog, h1], by rw [hp, h2], by rw [hq, hi]; exact h3, by rw [hb, h4],
    by rw [hf, h5]⟩

theorem FifoInv.update_fifo (P : Program) (hP : P.WellBehaved) {L0 : List Ev} {p0 : List CompId}
    {w : World} (h : FifoInv L0 p0 w) (c : CompId) :
    FifoInv L0 p0 (RandomGame.update P c w) := by
  apply update_rule P hP c w (FifoInv L0 p0) (FifoInv L0 p0)
  · exact fun _ => h
  · exact fun _ => h.emit_fifo (Ev.hook c) rfl rfl rfl rfl rfl rfl rfl
  · exact fun v v' hs hv => hv.same_fifo hs
  · exact fun v d i _ hv => hv.make_dirty_fifo d i
  · exact fun v hv _ => hv.emit_fifo (Ev.reset c) rfl rfl rfl rfl rfl rfl rfl
  · intro v hv _
    have h1 : FifoInv L0 p0 ((v.setComp c { v.comps c with dirty := [-1] }).emit (Ev.reset c)) :=
      hv.emit_fifo (Ev.reset c) rfl rfl rfl rfl rfl rfl rfl
    exact h1.emit_fifo (Ev.patch c _) rfl rfl rfl rfl rfl rfl rfl
  · exact fun v v' hs hv => hv.same_fifo hs
  · exact fun v d i _ hv => hv.make_dirty_fifo d i

theorem FifoInv.drain_step_fifo (P : Program) (hP : P.WellBehaved) {L0 : List Ev}
    {p0 : List CompId} {w : World} (h : FifoInv L0 p0 w) (c : CompId)
    (hg : w.dirty_components.get? w.flushidx = some c) :
    FifoInv L0 p0 (RandomGame.drain_step P c w) := by
  obtain ⟨hlt, hp⟩ := pending_of_get hg
  unfold RandomGame.drain_step
  apply FifoInv.update_fifo P hP
  obtain ⟨L, h1, h2, h3, h4, h5⟩ := h
  refine ⟨L ++ [Ev.update c], ?_, ?_, hlt, h4, h5⟩
  · show w.log ++ [Ev.update c] = L0 ++ (L ++ [Ev.update c])
    rw [h1, List.append_assoc]
  · show updatesOf (L ++ [Ev.update c]) ++ w.dirty_components.drop (w.flushidx + 1) =
      p0 ++ enqueuesOf (L ++ [Ev.update c])
    rw [updatesOf_append, enqueuesOf_append]
    simp only [updatesOf, enqueuesOf, List.append_nil]
    rw [← h2, hp]
    simp

theorem FifoInv.clear_queue_fifo {L0 : List Ev} {p0 : List CompId} {w : World}
    (h : FifoInv L0 p0 w) (hg : w.dirty_components.get? w.flushidx = Option.none) :
    FifoInv L0 p0 (RandomGame.clear_queue w) := by
  obtain ⟨L, h1, h2, h3, h4, h5⟩ := h
  have hp : pending w = [] := by
    unfold pending
    exact List.drop_eq_nil_of_le (List.get?_eq_none.mp hg)
  refine ⟨L, h1, ?_, Nat.zero_le _, h4, h5⟩
  rw [hp] at h2
  rw [← h2]
  simp [pending, RandomGame.clear_queue]

theorem fifoInv_flushInv (P : Program) (hP : P.WellBehaved) (L0 : List Ev)
    (p0 : List CompId) : FlushInv P (FifoInv L0 p0) (FifoInv L0 p0) where
  iter := fun _ c h hg => h.drain_step_fifo P hP c hg
  clear := fun _ h hg => h.clear_queue_fifo hg
  binding := fun w fn h hg => by
    obtain ⟨_, _, _, _, h4, _⟩ := h
    rw [h4] at hg
    simp at hg
  render := fun _ cb h _ =>
    FifoInv.api_fifo (run_cb_api P hP.callback hP.on_mount cb _) (h.congr_fifo rfl rfl rfl rfl rfl)
  render_done := fun _ h => h.congr_fifo rfl rfl rfl rfl rfl
  again := fun _ h _ => h
  flushcb := fun w fn h hg => by
    obtain ⟨_, _, _, _, _, h5⟩ := h
    rw [h5] at hg
    simp at hg
  finish := fun _ _ h => h.congr_fifo rfl rfl rfl rfl rfl

theorem run_flush_callbacks_nil (P : Program) (n : Nat) (w w' : World)
    (hf : w.flush_callbacks = []) (h : run_flush_callbacks P n w = some w') : w' = w := by
  cases n with
  | zero => simp [run_flush_callbacks] at h
  | succ n =>
    unfold run_flush_callbacks at h
    rw [hf] at h
    simpa using h.symm

theorem some_getD_of_isSome {α : Type} (o : Option α) (d : α) (h : o.isSome = true) :
    o = some (o.getD d) := by
  cases o with
  | none => simp at h
  | some x => rfl

/-- C9: `flush` drains the queue in FIFO order and to the end.  For a program that reaches
the scheduler only through `make_dirty`, whenever `flush` returns, `dirty_components` and
`render_callbacks` are empty, `update_scheduled` is false, `seen_callbacks` is empty and
`current_component` is restored; and the components updated during the call, in order, are
exactly the components that were waiting when it started followed by the components enqueued
while it ran (by an update hook, a patch or a callback), in the order of their enqueueing.
For the bundle the flush that follows a `points` event or a reset always returns. -/
theorem C9_fifo_drain (P : Program) (hP : P.WellBehaved) (n : Nat) (w w' : World)
    (hcur : w.flushidx ≤ w.dirty_components.length) (hb : w.binding_callbacks = [])
    (hf : w.flush_callbacks = []) (h : flush P n w = some w') :
    (w'.dirty_components = [] ∧ w'.render_callbacks = [] ∧ w'.update_scheduled = false ∧
      w'.seen_callbacks = [] ∧ w'.current_component = w.current_component ∧
      ∃ L, w'.log = w.log ++ L ∧ updatesOf L = pending w ++ enqueuesOf L) ∧
    (∀ v, Reach v →
      (run_microtask bundle fuel (plus player0 v)).isSome = true ∧
      (run_microtask bundle fuel (plus player1 v)).isSome = true ∧
      (run_microtask bundle fuel (reset v)).isSome = true) := by
  refine ⟨?_, fun v hv => ?_⟩
  · have h0 : FifoInv w.log (pending w) w := ⟨[], by simp, by simp [updatesOf, enqueuesOf],
      hcur, hb, hf⟩
    unfold flush at h
    simp only [] at h
    cases h1 : flush_loop P n w with
    | none => rw [h1] at h; simp at h
    | some w1 =>
      rw [h1] at h
      simp only [] at h
      obtain ⟨i1, q1, r1⟩ :=
        flush_loop_rule P _ _ (fifoInv_flushInv P hP w.log (pending w)) n w w1 h1 h0
      cases h2 : run_flush_callbacks P n w1 with
      | none => rw [h2] at h; simp at h
      | some w2 =>
        rw [h2] at h
        simp only [Option.some.injEq] at h
        obtain ⟨L, l1, l2, _, _, l5⟩ := i1
        have e := run_flush_callbacks_nil P n w1 w2 l5 h2
        subst e
        subst h
        refine ⟨q1, r1, rfl, rfl, rfl, L, l1, ?_⟩
        have hp : pending w2 = [] := by simp [pending, q1]
        rw [hp, List.append_nil] at l2
        exact l2
  · obtain ⟨h1, h2⟩ := reach_step v hv
    obtain ⟨a, ha, _⟩ := h1 player0 (Or.inl rfl)
    obtain ⟨b, hb', _⟩ := h1 player1 (Or.inr rfl)
    obtain ⟨c, hc, _⟩ := h2
    simp [ha, hb', hc]

set_option maxRecDepth 100000 in
/-- Witness of C9: the bundle and the flush after the first `points` event of the blue Player;
App is updated first, then the two Players its patch enqueued. -/
theorem C9_witness :
    (firstFlush.dirty_components = [] ∧ firstFlush.render_callbacks = [] ∧
      firstFlush.update_scheduled = false ∧ firstFlush.seen_callbacks = [] ∧
      firstFlush.current_component = firstPoint.current_component ∧
      ∃ L, firstFlush.log = firstPoint.log ++ L ∧
        updatesOf L = pending firstPoint ++ enqueuesOf L) ∧
    (∀ v, Reach v →
      (run_microtask bundle fuel (plus player0 v)).isSome = true ∧
      (run_microtask bundle fuel (plus player1 v)).isSome = true ∧
      (run_microtask bundle fuel (reset v)).isSome = true) ∧
    updatesOf firstFlush.log = [0, 1, 2] ∧ pending firstPoint = [0] :=
  ⟨(C9_fifo_drain bundle bundle_wellBehaved fuel firstPoint firstFlush (by decide) (by decide)
      (by decide) (some_getD_of_isSome _ _ (by decide))).1,
   (C9_fifo_drain bundle bundle_wellBehaved fuel firstPoint firstFlush (by decide) (by decide)
      (by decide) (some_getD_of_isSome _ _ (by decide))).2, by decide, by decide⟩

/-! ## The order of the steps of `update` (C8) -/

theorem fragment_api {ok : CompId → Prop} {w w' : World} (c : CompId) (h : ApiOn ok w w') :
    (w'.comps c).fragment = (w.comps c).fragment := by
  induction h with
  | done w => rfl
  | step w w1 w2 hs _ ih => rw [ih, hs.fragment c]
  | dirty w w2 d i _ _ ih => rw [ih, make_dirty_fragment]

theorem log_api {ok : CompId → Prop} {w w' : World} (h : ApiOn ok w w') :
    ∃ A, w'.log = w.log ++ A ∧ ∀ e ∈ A, e.isDirtying = true := by
  induction h with
  | done w => exact ⟨[], by simp, by simp⟩
  | step w w1 w2 hs _ ih =>
    obtain ⟨A, h1, h2⟩ := ih
    exact ⟨A, by rw [h1, hs.log], h2⟩
  | dirty w w2 d i _ _ ih =>
    obtain ⟨A, h1, h2⟩ := ih
    rw [make_dirty_log] at h1
    refine ⟨(if isClean (w.comps d).dirty then
        Ev.enqueue d :: (if w.update_scheduled then [] else [Ev.schedule]) else []) ++ A,
      by rw [h1, List.append_assoc], ?_⟩
    intro e he
    rcases List.mem_append.mp he with he | he
    · split_ifs at he with hc hu
      · simp only [List.mem_singleton] at he
        subst he
        rfl
      · simp only [List.mem_cons, List.mem_singleton, List.not_mem_nil, or_false] at he
        rcases he with rfl | rfl <;> rfl
      · simp at he
    · exact h2 e he

/-- What `update` does to a component with a live fragment, in terms of the heap `v` left by
the update hook and the before-update callbacks: the mask is captured and reset, then the
patch function runs on the heap whose mask is already `[-1]`. -/
theorem update_eq (P : Program) (hP : P.WellBehaved) (c : CompId) (w v : World)
    (hlive : (w.comps c).fragment = Fragment.live)
    (hv : v = run_all P ((P.update c (w.emit (Ev.hook c))).comps c).before_update
      (P.update c (w.emit (Ev.hook c)))) :
    (v.comps c).fragment = Fragment.live ∧
    update P c w =
      (fun x : World =>
        (x.comps c).after_update.foldl (fun w fn => add_render_callback w (Cb.user fn)) x)
        (P.patch c (v.comps c).ctx (v.comps c).dirty
          (((v.setComp c { v.comps c with dirty := [-1] }).emit (Ev.reset c)).emit
            (Ev.patch c (v.comps c).dirty))) := by
  have hfv : (v.comps c).fragment = Fragment.live := by
    rw [hv, fragment_api c (run_all_api P hP.callback _ _), fragment_api c (hP.update c _)]
    exact hlive
  refine ⟨hfv, ?_⟩
  unfold update
  rw [if_pos (by rw [hlive]; decide)]
  simp only []
  rw [← hv]
  have e1 : (((v.setComp c { v.comps c with dirty := [-1] }).emit (Ev.reset c)).comps c) =
      { v.comps c with dirty := [-1] } := by
    simp [World.setComp, World.emit]
  rw [e1]
  simp only []
  rw [if_pos hfv]

theorem foldl_add_render_log (fns : List Nat) (w : World) :
    (fns.foldl (fun w fn => add_render_callback w (Cb.user fn)) w).log = w.log :=
  (add_render_callbacks_same fns w).log

set_option maxRecDepth 100000 in
/-- Counterexample to C8 as stated: in the flush after the first `points` event the mask of
App is reset (`Ev.reset 0`) before its patch function is called (`Ev.patch 0 [3]`), not
after. -/
theorem C8_counterexample :
    firstFlush.log =
      [Ev.enqueue 0, Ev.schedule, Ev.update 0, Ev.hook 0, Ev.reset 0, Ev.patch 0 [3],
       Ev.enqueue 1, Ev.enqueue 2, Ev.update 1, Ev.hook 1, Ev.reset 1, Ev.patch 1 [1],
       Ev.update 2, Ev.hook 2, Ev.reset 2, Ev.patch 2 [1]] ∧
    firstFlush.log.indexOf (Ev.reset 0) < firstFlush.log.indexOf (Ev.patch 0 [3]) ∧
    ¬ (firstFlush.log.indexOf (Ev.patch 0 [3]) < firstFlush.log.indexOf (Ev.reset 0)) := by
  decide

/-- C8 (amended): for a component with a live fragment, `update` first calls the update hook
and the before-update callbacks; then it captures the mask `m` they left (with the bits the
hook set) and stores the clean sentinel `[-1]`; only then it calls the patch function with
`m`, on a heap where the mask of the component already is `[-1]`; last it registers the
after-update callbacks.  In the trace the hook is followed by `reset` and then `patch`, with
nothing but `make_dirty` events in between and after. -/
theorem C8_update_order (P : Program) (hP : P.WellBehaved) (c : CompId) (w : World)
    (hlive : (w.comps c).fragment = Fragment.live) :
    ∃ (v : World) (m : List Int) (A B : List Ev),
      v = run_all P ((P.update c (w.emit (Ev.hook c))).comps c).before_update
        (P.update c (w.emit (Ev.hook c))) ∧
      m = (v.comps c).dirty ∧
      update P c w =
        (fun x : World =>
          (x.comps c).after_update.foldl (fun w fn => add_render_callback w (Cb.user fn)) x)
          (P.patch c (v.comps c).ctx m
            (((v.setComp c { v.comps c with dirty := [-1] }).emit (Ev.reset c)).emit
              (Ev.patch c m))) ∧
      ((((v.setComp c { v.comps c with dirty := [-1] }).emit (Ev.reset c)).emit
        (Ev.patch c m)).comps c).dirty = [-1] ∧
      (update P c w).log = w.log ++ Ev.hook c :: A ++ Ev.reset c :: Ev.patch c m :: B ∧
      (∀ e ∈ A, e.isDirtying = true) ∧ (∀ e ∈ B, e.isDirtying = true) := by
  obtain ⟨_, he⟩ := update_eq P hP c w _ hlive rfl
  obtain ⟨A1, a1, a2⟩ := log_api (hP.update c (w.emit (Ev.hook c)))
  obtain ⟨A2, a3, a4⟩ := log_api (run_all_api P hP.callback
    ((P.update c (w.emit (Ev.hook c))).comps c).before_update (P.update c (w.emit (Ev.hook c))))
  generalize run_all P ((P.update c (w.emit (Ev.hook c))).comps c).before_update
    (P.update c (w.emit (Ev.hook c))) = v at he a3
  obtain ⟨B, b1, b2⟩ := log_api (hP.patch c (v.comps c).ctx (v.comps c).dirty
    (((v.setComp c { v.comps c with dirty := [-1] }).emit (Ev.reset c)).emit
      (Ev.patch c (v.comps c).dirty)))
  refine ⟨v, (v.comps c).dirty, A1 ++ A2, B, rfl, rfl, he, ?_, ?_, ?_, b2⟩
  · simp [World.setComp, World.emit]
  · rw [he]
    simp only []
    rw [foldl_add_render_log, b1]
    have : ((((v.setComp c { v.comps c with dirty := [-1] }).emit (Ev.reset c)).emit
        (Ev.patch c (v.comps c).dirty))).log =
        v.log ++ [Ev.reset c, Ev.patch c (v.comps c).dirty] := by
      simp [World.setComp, World.emit]
    rw [this, a3, a1]
    simp [World.emit]
  · intro e he'
    rcases List.mem_append.mp he' with h | h
    · exact a2 e h
    · exact a4 e h

set_option maxRecDepth 100000 in
/-- Witness of C8: the update of App in the flush after the first `points` event. -/
theorem C8_witness :
    (firstPoint.comps app).fragment = Fragment.live ∧
    ∃ (v : World) (m : List Int) (A B : List Ev),
      v = run_all bundle ((bundle.update app (firstPoint.emit (Ev.hook app))).comps
        app).before_update (bundle.update app (firstPoint.emit (Ev.hook app))) ∧
      m = (v.comps app).dirty ∧
      update bundle app firstPoint =
        (fun x : World =>
          (x.comps app).after_update.foldl (fun w fn => add_render_callback w (Cb.user fn)) x)
          (bundle.patch app (v.comps app).ctx m
            (((v.setComp app { v.comps app with dirty := [-1] }).emit (Ev.reset app)).emit
              (Ev.patch app m))) ∧
      ((((v.setComp app { v.comps app with dirty := [-1] }).emit (Ev.reset app)).emit
        (Ev.patch app m)).comps app).dirty = [-1] ∧
      (update bundle app firstPoint).log =
        firstPoint.log ++ Ev.hook app :: A ++ Ev.reset app :: Ev.patch app m :: B ∧
      (∀ e ∈ A, e.isDirtying = true) ∧ (∀ e ∈ B, e.isDirtying = true) :=
  ⟨by decide, C8_update_order bundle bundle_wellBehaved app firstPoint (by decide)⟩

/-! ## The event dispatcher (C10) -/

theorem call_listeners_called (P : Program) (fns : List String) (event : CustomEvent)
    (called : List String) (w : World) :
    (call_listeners P fns event called w).2.1 = called ++ fns := by
  induction fns generalizing event called w with
  | nil => simp [call_listeners]
  | cons fn fns ih =>
    simp only [call_listeners]
    rw [ih]
    simp

theorem lookup_store {α : Type} (type : String) (v : α) (l : List (String × α)) :
    lookup type (store type v l) = some v := by
  induction l with
  | nil => simp [store, lookup]
  | cons kv l ih =>
    obtain ⟨k, x⟩ := kv
    by_cases h : k = type
    · simp [store, lookup, h]
    · simp [store, lookup, h, ih]

set_option maxRecDepth 100000 in
/-- C10: a dispatch calls exactly the listeners that `callbacks[type]` holds when the dispatch
starts, once per registration and in the order of registration, whatever the listeners do to
the listener lists meanwhile (the program `P` is arbitrary; with `meddler` the first listener
removes the second and adds a third, and still exactly the two registered ones are called).
`$on` appends a function to the list and ignores a value that is not a function.  With no
listener for the event, nothing is called, the heap is unchanged and the result is
`true`. -/
theorem C10_dispatch_snapshot (P : Program) (c : CompId) (type : String) (detail : Int)
    (cancelable : Bool) (w : World) :
    (dispatch P c type detail cancelable w).2.1 =
      (lookup type (w.comps c).callbacks).getD [] ∧
    ((lookup type (w.comps c).callbacks).getD [] = [] →
      dispatch P c type detail cancelable w = (true, [], w)) ∧
    (∀ name, lookup type ((dollar_on c type (Val.fn name) w).comps c).callbacks =
      some ((lookup type (w.comps c).callbacks).getD [] ++ [name])) ∧
    (∀ v, is_function v = false → dollar_on c type v w = w) ∧
    ((dispatch meddler 0 "points" 1 false meddled).2.1 = ["a", "b"] ∧
      lookup "points" (meddled.comps 0).callbacks = some ["a", "b"] ∧
      lookup "points" (((dispatch meddler 0 "points" 1 false meddled).2.2).comps 0).callbacks =
        some ["a", "c"]) := by
  refine ⟨?_, ?_, ?_, ?_, by decide⟩
  · unfold dispatch
    cases lookup type (w.comps c).callbacks with
    | none => rfl
    | some callbacks =>
      simp only [Option.getD_some]
      rw [call_listeners_called]
      rfl
  · intro h
    unfold dispatch
    cases hl : lookup type (w.comps c).callbacks with
    | none => rfl
    | some callbacks =>
      rw [hl] at h
      simp only [Option.getD_some] at h
      subst h
      rfl
  · intro name
    simp [dollar_on, World.setComp, lookup_store]
  · intro v hv
    cases v <;> simp_all [dollar_on, is_function]

/-! ## Batching (C6) -/

theorem getD_orAt (m : List Int) (k : Nat) (b : Int) (k' : Nat) :
    (orAt m k b).getD k' 0 = if k' = k then or32 (m.getD k 0) b else m.getD k' 0 := by
  induction m generalizing k k' with
  | nil =>
    induction k generalizing k' with
    | zero => cases k' <;> simp [orAt]
    | succ k ih =>
      cases k' with
      | zero => simp [orAt]
      | succ k' =>
        have := ih k'
        simp only [List.getD_eq_getElem?_getD] at this
        simp [orAt, this]
  | cons x xs ih =>
    cases k with
    | zero => cases k' <;> simp [orAt]
    | succ k =>
      cases k' with
      | zero => simp [orAt]
      | succ k' =>
        have := ih k k'
        simp only [List.getD_eq_getElem?_getD] at this
        simp [orAt, this]

theorem getD_range (m : List Int) (k : Nat) (hm : wordsInRange m) :
    0 ≤ m.getD k 0 ∧ m.getD k 0 < 2147483648 := by
  by_cases h : k < m.length
  · rw [List.getD_eq_getElem _ _ h]
    exact hm _ (List.getElem_mem h)
  · rw [List.getD_eq_default _ _ (by omega)]
    norm_num

theorem slot_eq_iff (i j : Nat) : j = i ↔ j / 31 = i / 31 ∧ j % 31 = i % 31 := by
  constructor
  · rintro rfl; exact ⟨rfl, rfl⟩
  · rintro ⟨h1, h2⟩
    omega

theorem slotBit_orAt (m : List Int) (i j : Nat) (hm : wordsInRange m) :
    slotBit (orAt m (i / 31) (shl32 1 (i % 31))) j = (slotBit m j || decide (j = i)) := by
  unfold slotBit
  rw [getD_orAt]
  obtain ⟨b0, b1, b2⟩ := slot_bit_in_range i
  by_cases hw : j / 31 = i / 31
  · rw [if_pos hw]
    obtain ⟨x0, x1⟩ := getD_range m (i / 31) hm
    obtain ⟨e, _⟩ := or32_of_range _ _ x0 x1 b0 b1
    rw [e, Int.toNat_natCast, Nat.testBit_or, b2, Nat.testBit_two_pow, hw]
    congr 1
    have := slot_eq_iff i j
    by_cases h2 : j % 31 = i % 31
    · have hji : j = i := this.mpr ⟨hw, h2⟩
      simp [hji]
    · have hji : ¬ j = i := fun h => h2 (this.mp h).2
      have h2' : ¬ i % 31 = j % 31 := fun h => h2 h.symm
      simp [hji, h2']
  · rw [if_neg hw]
    have hji : ¬ j = i := fun h => hw (by rw [h])
    simp [hji]

theorem slotBit_zeros (m : List Int) (j : Nat) : slotBit (m.map (fun _ => 0)) j = false := by
  unfold slotBit
  have : (m.map (fun _ => (0 : Int))).getD (j / 31) 0 = 0 := by
    by_cases h : j / 31 < (m.map (fun _ => (0 : Int))).length
    · rw [List.getD_eq_getElem _ _ h]
      simp
    · rw [List.getD_eq_default _ _ (by omega)]
  rw [this]
  simp

theorem make_dirty_of_not_clean (c : CompId) (i : Nat) (w : World)
    (h : ¬ isClean (w.comps c).dirty) :
    make_dirty c i w = w.setComp c { w.comps c with
      dirty := orAt (w.comps c).dirty (i / 31) (shl32 1 (i % 31)) } := by
  unfold isClean at h
  simp [make_dirty, h]

/-- A run of `make_dirty` calls on a component whose mask is not clean only adds the bits of
the slots to that mask. -/
theorem make_dirty_more (c : CompId) (slots : List Nat) (w : World)
    (hc : wordsInRange (w.comps c).dirty) :
    (slots.foldl (fun w i => make_dirty c i w) w).dirty_components = w.dirty_components ∧
    (slots.foldl (fun w i => make_dirty c i w) w).flushidx = w.flushidx ∧
    (slots.foldl (fun w i => make_dirty c i w) w).update_scheduled = w.update_scheduled ∧
    (slots.foldl (fun w i => make_dirty c i w) w).microtasks = w.microtasks ∧
    (slots.foldl (fun w i => make_dirty c i w) w).log = w.log ∧
    (slots.foldl (fun w i => make_dirty c i w) w).binding_callbacks = w.binding_callbacks ∧
    (slots.foldl (fun w i => make_dirty c i w) w).flush_callbacks = w.flush_callbacks ∧
    (∀ d, ((slots.foldl (fun w i => make_dirty c i w) w).comps d).fragment =
      (w.comps d).fragment) ∧
    (∀ d, d ≠ c → (slots.foldl (fun w i => make_dirty c i w) w).comps d = w.comps d) ∧
    wordsInRange ((slots.foldl (fun w i => make_dirty c i w) w).comps c).dirty ∧
    (∀ j, slotBit ((slots.foldl (fun w i => make_dirty c i w) w).comps c).dirty j =
      (slotBit (w.comps c).dirty j || decide (j ∈ slots))) := by
  induction slots generalizing w with
  | nil => simp [hc]
  | cons i slots ih =>
    simp only [List.foldl_cons]
    have hnc := not_clean_of_range _ hc
    have hr := make_dirty_range c i w (Or.inr hc)
    obtain ⟨h1, h2, h3, h4, h5, h6, h7, h8, h9, h10, h11⟩ := ih (make_dirty c i w) hr
    have hdc : ((make_dirty c i w).comps c).dirty =
        orAt (w.comps c).dirty (i / 31) (shl32 1 (i % 31)) := by
      rw [make_dirty_dirty, if_neg hnc]
    refine ⟨?_, ?_, ?_, ?_, ?_, ?_, ?_, ?_, ?_, h10, ?_⟩
    · rw [h1, make_dirty_dirty_components, if_neg hnc]
    · rw [h2, make_dirty_flushidx]
    · rw [h3, make_dirty_update_scheduled]; simp [hnc]
    · rw [h4, make_dirty_microtasks]; simp [hnc]
    · rw [h5, make_dirty_log, if_neg hnc]; simp
    · rw [h6, make_dirty_binding_callbacks]
    · rw [h7, make_dirty_flush_callbacks]
    · intro d; rw [h8, make_dirty_fragment]
    · intro d hd; rw [h9 d hd, make_dirty_other c d i w hd]
    · intro j
      rw [h11, hdc, slotBit_orAt _ _ _ hc]
      simp only [List.mem_cons, Bool.or_assoc, Bool.decide_or]

/-- A run of `make_dirty` calls on a clean component of an idle scheduler: one push, one
scheduled flush, and a mask whose bits are those of the slots. -/
theorem make_dirty_batch (c : CompId) (i : Nat) (slots : List Nat) (w : World)
    (hc : (w.comps c).dirty = [-1]) (hus : w.update_scheduled = false) :
    ((i :: slots).foldl (fun w i => make_dirty c i w) w).dirty_components =
      w.dirty_components ++ [c] ∧
    ((i :: slots).foldl (fun w i => make_dirty c i w) w).flushidx = w.flushidx ∧
    ((i :: slots).foldl (fun w i => make_dirty c i w) w).update_scheduled = true ∧
    ((i :: slots).foldl (fun w i => make_dirty c i w) w).microtasks = w.microtasks + 1 ∧
    ((i :: slots).foldl (fun w i => make_dirty c i w) w).log =
      w.log ++ [Ev.enqueue c, Ev.schedule] ∧
    ((i :: slots).foldl (fun w i => make_dirty c i w) w).binding_callbacks =
      w.binding_callbacks ∧
    ((i :: slots).foldl (fun w i => make_dirty c i w) w).flush_callbacks =
      w.flush_callbacks ∧
    (∀ d, (((i :: slots).foldl (fun w i => make_dirty c i w) w).comps d).fragment =
      (w.comps d).fragment) ∧
    (∀ d, d ≠ c → ((i :: slots).foldl (fun w i => make_dirty c i w) w).comps d = w.comps d) ∧
    wordsInRange (((i :: slots).foldl (fun w i => make_dirty c i w) w).comps c).dirty ∧
    (∀ j, slotBit (((i :: slots).foldl (fun w i => make_dirty c i w) w).comps c).dirty j =
      decide (j ∈ i :: slots)) := by
  simp only [List.foldl_cons]
  have hcl : isClean (w.comps c).dirty := by rw [hc]; rfl
  have hr := make_dirty_range c i w (Or.inl hc)
  obtain ⟨h1, h2, h3, h4, h5, h6, h7, h8, h9, h10, h11⟩ :=
    make_dirty_more c slots (make_dirty c i w) hr
  refine ⟨?_, ?_, ?_, ?_, ?_, ?_, ?_, ?_, ?_, h10, ?_⟩
  · rw [h1, make_dirty_dirty_components, if_pos hcl]
  · rw [h2, make_dirty_flushidx]
  · rw [h3, make_dirty_update_scheduled]; simp [hcl]
  · rw [h4, make_dirty_microtasks]; simp [hcl, hus]
  · rw [h5, make_dirty_log, if_pos hcl, hus]; simp
  · rw [h6, make_dirty_binding_callbacks]
  · rw [h7, make_dirty_flush_callbacks]
  · intro d; rw [h8, make_dirty_fragment]
  · intro d hd; rw [h9 d hd, make_dirty_other c d i w hd]
  · intro j
    rw [h11, make_dirty_dirty, if_pos hcl, slotBit_orAt, slotBit_zeros]
    · simp only [Bool.false_or, List.mem_cons, Bool.decide_or]
    · intro x hx
      simp only [List.mem_map] at hx
      obtain ⟨_, _, rfl⟩ := hx
      norm_num

theorem patchesOf_append (c : CompId) (L L' : List Ev) :
    patchesOf c (L ++ L') = patchesOf c L ++ patchesOf c L' := by
  induction L with
  | nil => rfl
  | cons e L ih =>
    cases e <;> simp [patchesOf, ih]
    split_ifs <;> simp

theorem patchesOf_dirtying (c : CompId) (L : List Ev) (h : ∀ e ∈ L, e.isDirtying = true) :
    patchesOf c L = [] := by
  induction L with
  | nil => rfl
  | cons e L ih =>
    have he := h e (List.mem_cons_self e L)
    have hL := ih (fun x hx => h x (List.mem_cons_of_mem e hx))
    cases e <;> simp_all [patchesOf, Ev.isDirtying]

theorem Hooking.same_hooking {c : CompId} {ok : CompId → Prop} {L1 : List Ev} {S : List Nat}
    {w w' : World} (hs : SameSched w w') (h : Hooking c ok L1 S w) : Hooking c ok L1 S w' := by
  obtain ⟨h1, h2, h3, h4, h5, h6, L, h7, h8⟩ := h
  have hp : pending w' = pending w := by
    unfold pending; rw [hs.dirty_components, hs.flushidx]
  exact ⟨h1.same_queue hs, h2.congr_busy hs.dirty hs.dirty_components hs.flushidx, by rw [hp]; exact h3,
    by rw [hs.binding_callbacks, h4], by rw [hs.flush_callbacks, h5],
    by rw [hs.dirty c]; exact h6, L, by rw [hs.log, h7], h8⟩

theorem Hooking.make_dirty_hooking {c : CompId} {ok : CompId → Prop} {L1 : List Ev} {S : List Nat}
    {w : World} (h : Hooking c ok L1 S w) (d : CompId) (i : Nat) (hd : ok d ∨ d = c) :
    Hooking c ok L1 S (RandomGame.make_dirty d i w) := by
  obtain ⟨h1, h2, h3, h4, h5, h6, L, h7, h8⟩ := h
  refine ⟨h1.make_dirty_queue d i, h2.make_dirty_busy h1 d i, ?_, by rw [make_dirty_binding_callbacks, h4],
    by rw [make_dirty_flush_callbacks, h5], ?_, ?_⟩
  · rw [pending_make_dirty d i w h1.cursor]
    split_ifs with hc
    · intro x hx
      rcases List.mem_append.mp hx with hx | hx
      · exact h3 x hx
      · have hxd : x = d := List.mem_singleton.mp hx
        subst hxd
        rcases hd with hd | hd
        · exact hd
        · subst hd
          exact absurd hc h2.dirty
    · exact h3
  · intro j hj
    by_cases hdc : d = c
    · subst hdc
      have hnc := h2.dirty
      have hr : wordsInRange (w.comps d).dirty := by
        rcases h1.masks d with hm | hm
        · exact absurd (by rw [hm]; rfl) hnc
        · exact hm
      rw [make_dirty_dirty, if_neg hnc, slotBit_orAt _ _ _ hr, h6 j hj]
      rfl
    · rw [make_dirty_other d c i w (fun e => hdc e.symm)]
      exact h6 j hj
  · refine ⟨L ++ (if isClean (w.comps d).dirty then
        Ev.enqueue d :: (if w.update_scheduled then [] else [Ev.schedule]) else []),
      by rw [make_dirty_log, h7, List.append_assoc], ?_⟩
    rw [patchesOf_append, h8]
    split_ifs <;> simp [patchesOf]

theorem OncePatched.same_once {c : CompId} {ok : CompId → Prop} {L1 : List Ev} {m : List Int}
    {w w' : World} (hs : SameSched w w') (h : OncePatched c ok L1 m w) :
    OncePatched c ok L1 m w' := by
  obtain ⟨h1, h2, h3, h4, h5, h6, L, h7, h8⟩ := h
  have hp : pending w' = pending w := by
    unfold pending; rw [hs.dirty_components, hs.flushidx]
  exact ⟨by rw [hs.dirty c]; exact h1, by rw [hp]; exact h2, by rw [hp]; exact h3,
    by rw [hs.dirty_components, hs.flushidx]; exact h4, by rw [hs.binding_callbacks, h5],
    by rw [hs.flush_callbacks, h6], L, by rw [hs.log, h7], h8⟩

theorem OncePatched.make_dirty_once {c : CompId} {ok : CompId → Prop} {L1 : List Ev} {m : List Int}
    {w : World} (h : OncePatched c ok L1 m w) (d : CompId) (i : Nat) (hd : ok d)
    (hnot : ¬ ok c) : OncePatched c ok L1 m (RandomGame.make_dirty d i w) := by
  obtain ⟨h1, h2, h3, h4, h5, h6, L, h7, h8⟩ := h
  have hdc : c ≠ d := fun e => hnot (e ▸ hd)
  refine ⟨by rw [make_dirty_other d c i w hdc]; exact h1, ?_, ?_, ?_,
    by rw [make_dirty_binding_callbacks, h5], by rw [make_dirty_flush_callbacks, h6], ?_⟩
  · rw [pending_make_dirty d i w h4]
    split_ifs
    · intro hx
      rcases List.mem_append.mp hx with hx | hx
      · exact h2 hx
      · exact hdc (List.mem_singleton.mp hx)
    · exact h2
  · rw [pending_make_dirty d i w h4]
    split_ifs
    · intro x hx
      rcases List.mem_append.mp hx with hx | hx
      · exact h3 x hx
      · rw [List.mem_singleton.mp hx]; exact hd
    · exact h3
  · rw [make_dirty_dirty_components, make_dirty_flushidx]
    split_ifs
    · rw [List.length_append]; omega
    · exact h4
  · refine ⟨L ++ (if isClean (w.comps d).dirty then
        Ev.enqueue d :: (if w.update_scheduled then [] else [Ev.schedule]) else []),
      by rw [make_dirty_log, h7, List.append_assoc], ?_⟩
    rw [patchesOf_append, h8]
    split_ifs <;> simp [patchesOf]

theorem OncePatched.api_once {c : CompId} {ok : CompId → Prop} {L1 : List Ev} {m : List Int}
    {w w' : World} (ha : ApiOn ok w w') (hnot : ¬ ok c) (h : OncePatched c ok L1 m w) :
    OncePatched c ok L1 m w' :=
  ApiOn.preserve (OncePatched c ok L1 m) (fun _ _ hs h => h.same_once hs)
    (fun _ d i hd h => h.make_dirty_once d i hd hnot) ha h

/-- A change of the trace by an event that is no patch of `c`, and of fields that the
invariant does not read. -/
theorem OncePatched.emit_once {c : CompId} {ok : CompId → Prop} {L1 : List Ev} {m : List Int}
    {w w' : World} (h : OncePatched c ok L1 m w) (es : List Ev) (he : patchesOf c es = [])
    (hlog : w'.log = w.log ++ es) (hd : (w'.comps c).dirty = (w.comps c).dirty)
    (hq : w'.dirty_components = w.dirty_components) (hi : w'.flushidx = w.flushidx)
    (hb : w'.binding_callbacks = w.binding_callbacks)
    (hf : w'.flush_callbacks = w.flush_callbacks) : OncePatched c ok L1 m w' := by
  obtain ⟨h1, h2, h3, h4, h5, h6, L, h7, h8⟩ := h
  have hp : pending w' = pending w := by unfold pending; rw [hq, hi]
  exact ⟨by rw [hd]; exact h1, by rw [hp]; exact h2, by rw [hp]; exact h3,
    by rw [hq, hi]; exact h4, by rw [hb, h5], by rw [hf, h6], L ++ es,
    by rw [hlog, h7, List.append_assoc], by rw [patchesOf_append, h8, he]; rfl⟩

theorem OncePatched.update_once (P : Program) {c : CompId} {ok : CompId → Prop}
    (hP : P.Confined (fun c' d => ok d ∨ (c' = c ∧ d = c)) ok) (hnot : ¬ ok c)
    {L1 : List Ev} {m : List Int} {w : World} (h : OncePatched c ok L1 m w) (d : CompId)
    (hdc : d ≠ c) : OncePatched c ok L1 m (RandomGame.update P d w) := by
  have other : ∀ v : World, ((v.setComp d { v.comps d with dirty := [-1] }).comps c).dirty =
      (v.comps c).dirty := by
    intro v
    have hcd : ¬ c = d := fun e => hdc e.symm
    simp [World.setComp, Function.update, hcd]
  apply update_rule P hP d w (OncePatched c ok L1 m) (OncePatched c ok L1 m)
  · exact fun _ => h
  · exact fun _ => h.emit_once [Ev.hook d] rfl rfl rfl rfl rfl rfl rfl
  · exact fun v v' hs hv => hv.same_once hs
  · intro v d' i hd' hv
    refine hv.make_dirty_once d' i ?_ hnot
    rcases hd' with (hd' | ⟨hd', _⟩) | hd'
    · exact hd'
    · exact absurd hd' hdc
    · exact hd'
  · exact fun v hv _ => hv.emit_once [Ev.reset d] rfl rfl (other v) rfl rfl rfl rfl
  · intro v hv _
    refine hv.emit_once [Ev.reset d, Ev.patch d (v.comps d).dirty] ?_ ?_ (other v) rfl rfl rfl rfl
    · simp [patchesOf, hdc]
    · simp [World.emit, World.setComp]
  · exact fun v v' hs hv => hv.same_once hs
  · exact fun v d' i hd' hv => hv.make_dirty_once d' i hd' hnot

theorem OncePatched.drain_step_once (P : Program) {c : CompId} {ok : CompId → Prop}
    (hP : P.Confined (fun c' d => ok d ∨ (c' = c ∧ d = c)) ok) (hnot : ¬ ok c)
    {L1 : List Ev} {m : List Int} {w : World} (h : OncePatched c ok L1 m w) (d : CompId)
    (hg : w.dirty_components.get? w.flushidx = some d) :
    OncePatched c ok L1 m (RandomGame.drain_step P d w) := by
  obtain ⟨hlt, hp⟩ := pending_of_get hg
  obtain ⟨h1, h2, h3, h4, h5, h6, L, h7, h8⟩ := h
  have hd : ok d := h3 d (hp ▸ List.mem_cons_self d _)
  have hdc : d ≠ c := fun e => hnot (e ▸ hd)
  unfold RandomGame.drain_step
  apply OncePatched.update_once P hP hnot _ d hdc
  have hp0 : ∀ (s : Option CompId) (e : Ev),
      pending (({ w with flushidx := w.flushidx + 1, current_component := s }).emit e) =
        w.dirty_components.drop (w.flushidx + 1) := fun _ _ => rfl
  refine ⟨h1, ?_, ?_, hlt, h5, h6, L ++ [Ev.update d], ?_, ?_⟩
  · rw [hp0]
    intro hx
    exact h2 (hp ▸ List.mem_cons_of_mem d hx)
  · rw [hp0]
    intro x hx
    exact h3 x (hp ▸ List.mem_cons_of_mem d hx)
  · show w.log ++ [Ev.update d] = L1 ++ (L ++ [Ev.update d])
    rw [h7, List.append_assoc]
  · rw [patchesOf_append, h8]
    rfl

theorem oncePatched_flushInv (P : Program) {c : CompId} {ok : CompId → Prop}
    (hP : P.Confined (fun c' d => ok d ∨ (c' = c ∧ d = c)) ok) (hnot : ¬ ok c)
    (L1 : List Ev) (m : List Int) (s : World)
    (hs : s.dirty_components.get? s.flushidx = some c)
    (hfirst : OncePatched c ok L1 m (drain_step P c s)) :
    FlushInv P (fun v => v = s ∨ OncePatched c ok L1 m v) (OncePatched c ok L1 m) where
  iter := fun w d h hg => by
    rcases h with h | h
    · subst h
      rw [hs] at hg
      injection hg with hg
      subst hg
      exact Or.inr hfirst
    · exact Or.inr (h.drain_step_once P hP hnot d hg)
  clear := fun w h hg => by
    rcases h with h | h
    · subst h
      rw [hs] at hg
      simp at hg
    · obtain ⟨h1, h2, h3, h4, h5, h6, L, h7, h8⟩ := h
      exact ⟨h1, by simp [pending, clear_queue], by simp [pending, clear_queue],
        Nat.zero_le _, h5, h6, L, h7, h8⟩
  binding := fun w fn h hg => by
    obtain ⟨_, _, _, _, h5, _⟩ := h
    rw [h5] at hg
    simp at hg
  render := fun w cb h _ =>
    OncePatched.api_once (run_cb_api P hP.callback hP.on_mount cb _) hnot
      (h.emit_once [] rfl (by simp) rfl rfl rfl rfl rfl)
  render_done := fun w h => h.emit_once [] rfl (by simp) rfl rfl rfl rfl rfl
  again := fun w h _ => Or.inr h
  flushcb := fun w fn h hg => by
    obtain ⟨_, _, _, _, _, h6, _⟩ := h
    rw [h6] at hg
    simp at hg
  finish := fun w _ h => h.emit_once [] rfl (by simp) rfl rfl rfl rfl rfl

theorem Hooking.api_hooking {c : CompId} {ok ok' : CompId → Prop} {L1 : List Ev} {S : List Nat}
    {w w' : World} (ha : ApiOn ok' w w') (hsub : ∀ d, ok' d → ok d ∨ d = c)
    (h : Hooking c ok L1 S w) : Hooking c ok L1 S w' :=
  ApiOn.preserve (Hooking c ok L1 S) (fun _ _ hs h => h.same_hooking hs)
    (fun _ d i hd h => h.make_dirty_hooking d i (hsub d hd)) ha h

/-- The first iteration of the drain loop on a queue that holds `c` alone. -/
theorem first_update (P : Program) {c : CompId} {ok : CompId → Prop}
    (hP : P.Confined (fun c' d => ok d ∨ (c' = c ∧ d = c)) ok) (hnot : ¬ ok c)
    (s : World) (S : List Nat) (hq : QueueInv s) (hs1 : s.dirty_components = [c])
    (hs2 : s.flushidx = 0) (hb : s.binding_callbacks = []) (hf : s.flush_callbacks = [])
    (hlive : (s.comps c).fragment = Fragment.live)
    (hS : ∀ j ∈ S, slotBit (s.comps c).dirty j = true) :
    OncePatched c ok s.log ((hooked P c (dequeued c s)).comps c).dirty (drain_step P c s) ∧
      (∀ j ∈ S, slotBit ((hooked P c (dequeued c s)).comps c).dirty j = true) := by
  have hpend : pending s = [c] := by simp [pending, hs1, hs2]
  have hpd : pending (dequeued c s) = [] := by simp [pending, dequeued, World.emit, hs1, hs2]
  have h0 : Hooking c ok s.log S ((dequeued c s).emit (Ev.hook c)) := by
    refine ⟨?_, ?_, ?_, hb, hf, hS, [Ev.update c, Ev.hook c], ?_, rfl⟩
    · refine ⟨fun d => ?_, fun d hd => ?_, fun d => hq.masks d, ?_⟩
      · show (pending (dequeued c s)).count d ≤ 1
        rw [hpd]; simp
      · have : d ∈ pending (dequeued c s) := hd
        rw [hpd] at this
        simp at this
      · show s.flushidx + 1 ≤ s.dirty_components.length
        rw [hs1, hs2]; simp
    · refine ⟨?_, hq.waiting_dirty c (by rw [hpend]; simp)⟩
      show c ∉ pending (dequeued c s)
      rw [hpd]; simp
    · intro d hd
      have : d ∈ pending (dequeued c s) := hd
      rw [hpd] at this
      simp at this
    · simp [dequeued, World.emit]
  have h1 : Hooking c ok s.log S (P.update c ((dequeued c s).emit (Ev.hook c))) :=
    Hooking.api_hooking (hP.update c _) (fun d hd => hd.imp id (fun h => h.2)) h0
  have h2 : Hooking c ok s.log S (hooked P c (dequeued c s)) :=
    Hooking.api_hooking (run_all_api P hP.callback _ _) (fun d hd => Or.inl hd) h1
  obtain ⟨hfv, he⟩ := update_eq P hP.wellBehaved c (dequeued c s) (hooked P c (dequeued c s))
    hlive rfl
  refine ⟨?_, h2.2.2.2.2.2.1⟩
  show OncePatched c ok s.log _ (update P c (dequeued c s))
  rw [he]
  generalize hooked P c (dequeued c s) = v at h2
  obtain ⟨g1, g2, g3, g4, g5, g6, L, g7, g8⟩ := h2
  simp only []
  apply OncePatched.same_once (add_render_callbacks_same _ _)
  apply OncePatched.api_once (hP.patch c _ _ _) hnot
  refine ⟨by simp [World.setComp, World.emit], g2.not_pending, g3, g1.cursor, g4, g5,
    L ++ [Ev.reset c, Ev.patch c (v.comps c).dirty], ?_, ?_⟩
  · simp [World.setComp, World.emit, g7]
  · rw [patchesOf_append, g8]
    simp [patchesOf]

/-- On a queue that holds `c` alone, a flush that returns has called the patch function of
`c` exactly once, with the mask left by its update hook. -/
theorem flush_patches_once (P : Program) {c : CompId} {ok : CompId → Prop}
    (hP : P.Confined (fun c' d => ok d ∨ (c' = c ∧ d = c)) ok) (hnot : ¬ ok c)
    (s : World) (S : List Nat) (hq : QueueInv s) (hs1 : s.dirty_components = [c])
    (hs2 : s.flushidx = 0) (hb : s.binding_callbacks = []) (hf : s.flush_callbacks = [])
    (hlive : (s.comps c).fragment = Fragment.live)
    (hS : ∀ j ∈ S, slotBit (s.comps c).dirty j = true)
    (n : Nat) (w' : World) (h : flush P n s = some w') :
    (∃ L, w'.log = s.log ++ L ∧
      patchesOf c L = [((hooked P c (dequeued c s)).comps c).dirty]) ∧
    (∀ j ∈ S, slotBit ((hooked P c (dequeued c s)).comps c).dirty j = true) := by
  obtain ⟨f1, f2⟩ := first_update P hP hnot s S hq hs1 hs2 hb hf hlive hS
  have hg : s.dirty_components.get? s.flushidx = some c := by simp [hs1, hs2]
  have := flush_rule P _ _ (oncePatched_flushInv P hP hnot s.log _ s hg f1) n s w' h
    (Or.inl rfl)
  exact ⟨this.2.2.2.2.2.2, f2⟩

theorem idle_queueInv (w : World) (hclean : ∀ d, (w.comps d).dirty = [-1])
    (hq : w.dirty_components = []) (hfi : w.flushidx = 0) : QueueInv w := by
  refine ⟨fun c => ?_, fun c hc => ?_, fun c => Or.inl (hclean c), by rw [hq, hfi]; simp⟩
  · simp [pending, hq]
  · simp [pending, hq] at hc

theorem make_dirty_all_queueInv (c : CompId) (slots : List Nat) (w : World) (h : QueueInv w) :
    QueueInv (make_dirty_all c slots w) := by
  unfold make_dirty_all
  induction slots generalizing w with
  | nil => exact h
  | cons i slots ih => exact ih _ (h.make_dirty_queue c i)

set_option maxRecDepth 100000 in
/-- Counterexample to C6 as stated: the 20th `points` event of the blue Player makes two
value-changing mutations of the clean App, on slots 1 and 0, which leave the mask `[3]`; the
flush that follows passes the mask `[23]` to the patch function of App, with the bits of the
slots 2 and 4 that the update hook of App invalidated during that flush. -/
theorem C6_counterexample :
    ((blueRun 19).comps app).dirty = [-1] ∧ (blueRun 19).dirty_components = [] ∧
    ((plus player0 (blueRun 19)).comps app).dirty = [3] ∧
    ((make_dirty_all app [1, 0] (blueRun 19)).comps app).dirty = [3] ∧
    patchesOf app ((blueRun 20).log.drop (plus player0 (blueRun 19)).log.length) = [[23]] ∧
    slotBit [23] 2 = true ∧ slotBit [23] 4 = true ∧ 2 ∉ [1, 0] ∧ 4 ∉ [1, 0] := by
  decide

/-- C6 (amended): let `c` be a clean component with a live fragment in an idle scheduler, and
let `N >= 1` calls of `make_dirty` on slots `i :: slots` follow each other with no flush in
between.  Then `c` is enqueued exactly once, exactly one flush is scheduled, and the set bits
of its mask are exactly those of the slots (slot `j` is bit `j mod 31` of word
`floor(j / 31)`).  The scheduled flush, when it returns, has called the patch function of `c`
exactly once, with the mask left by the update hook of `c`: it holds the bits of all the slots,
and it is the mask above if the hook dirtied nothing.  (`ok` names the components that the
code running in this flush may dirty, `c` itself not among them, apart from the update hook of
`c`.) -/
theorem C6_batching (P : Program) (c : CompId) (ok : CompId → Prop)
    (hP : P.Confined (fun c' d => ok d ∨ (c' = c ∧ d = c)) ok) (hnot : ¬ ok c)
    (w : World) (i : Nat) (slots : List Nat)
    (hclean : ∀ d, (w.comps d).dirty = [-1]) (hq : w.dirty_components = [])
    (hfi : w.flushidx = 0) (hus : w.update_scheduled = false)
    (hb : w.binding_callbacks = []) (hf : w.flush_callbacks = [])
    (hlive : (w.comps c).fragment = Fragment.live) :
    (make_dirty_all c (i :: slots) w).dirty_components = [c] ∧
    (make_dirty_all c (i :: slots) w).log = w.log ++ [Ev.enqueue c, Ev.schedule] ∧
    (make_dirty_all c (i :: slots) w).microtasks = w.microtasks + 1 ∧
    (make_dirty_all c (i :: slots) w).update_scheduled = true ∧
    wordsInRange ((make_dirty_all c (i :: slots) w).comps c).dirty ∧
    (∀ j, slotBit ((make_dirty_all c (i :: slots) w).comps c).dirty j =
      decide (j ∈ i :: slots)) ∧
    (∀ n w', run_microtask P n (make_dirty_all c (i :: slots) w) = some w' →
      ∃ m L, m = ((hooked P c (dequeued c { make_dirty_all c (i :: slots) w with
            microtasks := (make_dirty_all c (i :: slots) w).microtasks - 1 })).comps c).dirty ∧
        w'.log = (make_dirty_all c (i :: slots) w).log ++ L ∧
        patchesOf c L = [m] ∧
        (∀ j ∈ i :: slots, slotBit m j = true) ∧
        (m = ((make_dirty_all c (i :: slots) w).comps c).dirty →
          ∀ j, slotBit m j = decide (j ∈ i :: slots))) := by
  obtain ⟨h1, h2, h3, h4, h5, h6, h7, h8, _, h10, h11⟩ := make_dirty_batch c i slots w
    (hclean c) hus
  have hQ : QueueInv (make_dirty_all c (i :: slots) w) :=
    make_dirty_all_queueInv c _ w (idle_queueInv w hclean hq hfi)
  refine ⟨by rw [make_dirty_all, h1, hq]; rfl, h5, h4, h3, h10, h11, ?_⟩
  intro n w' hrun
  unfold run_microtask at hrun
  have hmt : ¬ (make_dirty_all c (i :: slots) w).microtasks = 0 := by
    rw [make_dirty_all, h4]; omega
  rw [if_neg hmt] at hrun
  have key := flush_patches_once P hP hnot
    { make_dirty_all c (i :: slots) w with
      microtasks := (make_dirty_all c (i :: slots) w).microtasks - 1 } (i :: slots)
    (hQ.congr_queue (fun _ => rfl) rfl rfl) (by show (make_dirty_all c (i :: slots) w).dirty_components = [c]; rw [make_dirty_all, h1, hq]; rfl)
    (by show (make_dirty_all c (i :: slots) w).flushidx = 0; rw [make_dirty_all, h2, hfi])
    (by show (make_dirty_all c (i :: slots) w).binding_callbacks = []; rw [make_dirty_all, h6, hb])
    (by show (make_dirty_all c (i :: slots) w).flush_callbacks = []; rw [make_dirty_all, h7, hf])
    (by show ((make_dirty_all c (i :: slots) w).comps c).fragment = Fragment.live
        rw [make_dirty_all, h8, hlive])
    (fun j hj => by
      show slotBit ((make_dirty_all c (i :: slots) w).comps c).dirty j = true
      rw [make_dirty_all, h11 j]
      exact decide_eq_true hj)
    n w' hrun
  obtain ⟨⟨L, l1, l2⟩, k2⟩ := key
  refine ⟨_, L, rfl, l1, l2, k2, fun hm j => ?_⟩
  rw [hm]
  exact h11 j

theorem nearEnd_clean (d : CompId) : (nearEnd.comps d).dirty = [-1] := by
  simp only [nearEnd, stable]
  split_ifs <;> rfl

/-- Witness of C6: the bundle, App in the settled state for scores 1 and 39, and the two
`make_dirty` calls on slots 1 and 0 that a `points` event of the blue Player makes; the code
that runs in the flush dirties the two Players at most. -/
theorem C6_witness :
    (make_dirty_all app (1 :: [0]) nearEnd).dirty_components = [app] ∧
    (make_dirty_all app (1 :: [0]) nearEnd).log =
      nearEnd.log ++ [Ev.enqueue app, Ev.schedule] ∧
    (make_dirty_all app (1 :: [0]) nearEnd).microtasks = nearEnd.microtasks + 1 ∧
    (make_dirty_all app (1 :: [0]) nearEnd).update_scheduled = true ∧
    wordsInRange ((make_dirty_all app (1 :: [0]) nearEnd).comps app).dirty ∧
    (∀ j, slotBit ((make_dirty_all app (1 :: [0]) nearEnd).comps app).dirty j =
      decide (j ∈ 1 :: [0])) ∧
    (∀ n w', run_microtask bundle n (make_dirty_all app (1 :: [0]) nearEnd) = some w' →
      ∃ m L, m = ((hooked bundle app (dequeued app { make_dirty_all app (1 :: [0]) nearEnd with
            microtasks := (make_dirty_all app (1 :: [0]) nearEnd).microtasks - 1 })).comps
            app).dirty ∧
        w'.log = (make_dirty_all app (1 :: [0]) nearEnd).log ++ L ∧
        patchesOf app L = [m] ∧
        (∀ j ∈ 1 :: [0], slotBit m j = true) ∧
        (m = ((make_dirty_all app (1 :: [0]) nearEnd).comps app).dirty →
          ∀ j, slotBit m j = decide (j ∈ 1 :: [0]))) :=
  C6_batching bundle app (fun d => d = player0 ∨ d = player1)
    (bundle_confined.mono_confined (fun _ _ h => Or.inr h) (fun _ h => h)) (by decide) nearEnd 1 [0]
    nearEnd_clean rfl rfl rfl rfl rfl rfl

theorem run_on_destroy_trace (P : Program) (c : CompId) (fns : List Nat) (s : Page) :
    (run_on_destroy P c fns s).trace = s.trace ++ fns.map (Td.callback c) := by
  induction fns generalizing s with
  | nil => simp [run_on_destroy]
  | cons fn fns ih =>
    have := ih { s.emit (Td.callback c fn) with world := P.callback fn s.world }
    simp only [run_on_destroy, List.foldl_cons] at this ⊢
    rw [this]
    simp [Page.emit]

theorem run_on_destroy_world (P : Program) (c : CompId) (fns : List Nat) (s : Page) :
    (run_on_destroy P c fns s).world = run_all P fns s.world := by
  induction fns generalizing s with
  | nil => simp [run_on_destroy, run_all]
  | cons fn fns ih =>
    have := ih { s.emit (Td.callback c fn) with world := P.callback fn s.world }
    simp only [run_on_destroy, run_all, List.foldl_cons] at this ⊢
    rw [this]

theorem run_on_destroy_noop (P : Program) (c : CompId) (fns : List Nat) (s : Page) :
    (run_on_destroy P c fns s).destroy_noop = s.destroy_noop := by
  induction fns generalizing s with
  | nil => simp [run_on_destroy]
  | cons fn fns ih =>
    have := ih { s.emit (Td.callback c fn) with world := P.callback fn s.world }
    simp only [run_on_destroy, List.foldl_cons] at this ⊢
    rw [this]
    simp [Page.emit]

theorem teardownOf_append (c : CompId) (t u : List Td) :
    teardownOf c (t ++ u) = teardownOf c t ++ teardownOf c u := by
  simp [teardownOf]

theorem teardownOf_callbacks (c : CompId) (fns : List Nat) :
    teardownOf c (fns.map (Td.callback c)) = fns.map (Td.callback c) := by
  induction fns with
  | nil => rfl
  | cons fn fns ih =>
    simp only [teardownOf, List.map_cons] at ih ⊢
    simp [List.filter_cons, Td.comp, ih]

theorem teardownOf_callbacks_other (c k : CompId) (h : k ≠ c) (fns : List Nat) :
    teardownOf c (fns.map (Td.callback k)) = [] := by
  induction fns with
  | nil => rfl
  | cons fn fns ih =>
    simp only [teardownOf, List.map_cons] at ih ⊢
    simp [List.filter_cons, Td.comp, ih, h]

/-- What the first `destroy_component` call on a component does. -/
theorem destroy_component_first (P : Program) (d : Bool → Page → Except String Page)
    (c : CompId) (b : Bool) (s s1 : Page) (fns : List Nat)
    (hf : (s.world.comps c).fragment ≠ Fragment.null)
    (hd : (s.world.comps c).on_destroy = some fns)
    (hq : ∀ x y, d b x = Except.ok y → teardownOf c y.trace = teardownOf c x.trace)
    (h : destroy_component P d c b s = Except.ok s1) :
    (s1.world.comps c).fragment = Fragment.null ∧
    (s1.world.comps c).on_destroy = Option.none ∧
    (s1.world.comps c).ctx = [] ∧
    teardownOf c s1.trace = teardownOf c s.trace ++ fns.map (Td.callback c) ++
      (if ((run_all P fns s.world).comps c).fragment = Fragment.live then [Td.d c b] else []) := by
  unfold destroy_component at h
  rw [if_pos hf, hd] at h
  simp only [] at h
  have ht := run_on_destroy_trace P c fns s
  have hw := run_on_destroy_world P c fns s
  generalize run_on_destroy P c fns s = s0 at h ht hw
  rw [← hw]
  by_cases hl : (s0.world.comps c).fragment = Fragment.live
  · rw [if_pos hl] at h
    rw [if_pos hl]
    cases hd2 : d b (s0.emit (Td.d c b)) with
    | error msg => rw [hd2] at h; simp at h
    | ok s2 =>
      rw [hd2] at h
      simp only [Except.ok.injEq] at h
      subst h
      have := hq _ _ hd2
      simp only [World.setComp, Function.update_same, true_and]
      rw [this]
      simp [Page.emit, ht, teardownOf_append, teardownOf_callbacks, teardownOf, Td.comp]
  · rw [if_neg hl] at h
    rw [if_neg hl]
    simp only [Except.ok.injEq] at h
    subst h
    simp [World.setComp, ht, teardownOf_append, teardownOf_callbacks]

/-- On a destroyed component every further destroy call returns and changes neither the heap
nor the trace. -/
theorem destroy_all_destroyed (P : Program) (d : Bool → Page → Except String Page)
    (c : CompId) (calls : List DestroyCall) (s1 : Page)
    (hf : (s1.world.comps c).fragment = Fragment.null) :
    ∃ s', destroy_all P d c calls s1 = Except.ok s' ∧ s'.world = s1.world ∧
      s'.trace = s1.trace ∧ ∀ k, k ≠ c → s'.destroy_noop k = s1.destroy_noop k := by
  induction calls generalizing s1 with
  | nil => exact ⟨s1, rfl, rfl, rfl, fun _ _ => rfl⟩
  | cons k ks ih =>
    have hdc : ∀ b, destroy_component P d c b s1 = Except.ok s1 := by
      intro b
      unfold destroy_component
      rw [if_neg (by simp [hf])]
    cases k with
    | direct b =>
      obtain ⟨s', h1, h2, h3, h4⟩ := ih s1 hf
      exact ⟨s', by simp only [destroy_all, DestroyCall.run, hdc b]; exact h1, h2, h3, h4⟩
    | method =>
      by_cases hn : s1.destroy_noop c = true
      · obtain ⟨s', h1, h2, h3, h4⟩ := ih s1 hf
        refine ⟨s', ?_, h2, h3, h4⟩
        simp only [destroy_all, DestroyCall.run, dollar_destroy, hn, if_true]
        exact h1
      · obtain ⟨s', h1, h2, h3, h4⟩ :=
          ih { s1 with destroy_noop := Function.update s1.destroy_noop c true } hf
        refine ⟨s', ?_, h2, h3, ?_⟩
        · simp only [destroy_all, DestroyCall.run, dollar_destroy, hn, hdc true]
          exact h1
        · intro k hk
          rw [h4 k hk]
          simp [Function.update, hk]
theorem destroy_component_other (P : Program) (d : Bool → Page → Except String Page)
    (c k : CompId) (hk : k ≠ c) (b : Bool) (s s1 : Page)
    (hq : ∀ x y, d b x = Except.ok y → teardownOf c y.trace = teardownOf c x.trace)
    (h : destroy_component P d k b s = Except.ok s1) :
    teardownOf c s1.trace = teardownOf c s.trace := by
  unfold destroy_component at h
  by_cases hf : (s.world.comps k).fragment ≠ Fragment.null
  · rw [if_pos hf] at h
    cases hd : (s.world.comps k).on_destroy with
    | none => rw [hd] at h; simp at h
    | some fns =>
      rw [hd] at h
      simp only [] at h
      have ht := run_on_destroy_trace P k fns s
      generalize run_on_destroy P k fns s = s0 at h ht
      have h0 : teardownOf c s0.trace = teardownOf c s.trace := by
        rw [ht, teardownOf_append, teardownOf_callbacks_other c k hk, List.append_nil]
      by_cases hl : (s0.world.comps k).fragment = Fragment.live
      · rw [if_pos hl] at h
        cases hd2 : d b (s0.emit (Td.d k b)) with
        | error msg => rw [hd2] at h; simp at h
        | ok s2 =>
          rw [hd2] at h
          simp only [Except.ok.injEq] at h
          subst h
          have := hq _ _ hd2
          simp only []
          rw [this, ← h0]
          simp [Page.emit, teardownOf, Td.comp, hk]
      · rw [if_neg hl] at h
        simp only [Except.ok.injEq] at h
        subst h
        exact h0
  · rw [if_neg hf] at h
    simp only [Except.ok.injEq] at h
    subst h
    rfl

theorem player_d_trace (k : CompId) (b : Bool) (x y : Page) (h : player_d k b x = Except.ok y) :
    y.trace = x.trace := by
  unfold player_d at h
  split_ifs at h
  simp only [Except.ok.injEq] at h
  subst h
  rfl

theorem app_d_teardownOf (b : Bool) (x y : Page) (h : app_d b x = Except.ok y) :
    teardownOf app y.trace = teardownOf app x.trace := by
  unfold app_d at h
  split_ifs at h
  cases h0 : destroy_component bundle (player_d player0) player0 false x with
  | error msg => rw [h0] at h; simp at h
  | ok x0 =>
    rw [h0] at h
    simp only [] at h
    cases h1 : destroy_component bundle (player_d player1) player1 false x0 with
    | error msg => rw [h1] at h; simp at h
    | ok x1 =>
      rw [h1] at h
      simp only [] at h
      split_ifs at h
      simp only [Except.ok.injEq] at h
      subst h
      have e0 := destroy_component_other bundle (player_d player0) app player0 (by decide) false
        x x0 (fun u v huv => by rw [player_d_trace _ _ _ _ huv]) h0
      have e1 := destroy_component_other bundle (player_d player1) app player1 (by decide) false
        x0 x1 (fun u v huv => by rw [player_d_trace _ _ _ _ huv]) h1
      simp only []
      rw [e1, e0]

theorem except_eq_ok {α : Type} (x : Except String α) (d : α) (h : x.toOption.isSome = true) :
    x = Except.ok (x.toOption.getD d) := by
  cases x with
  | error e => simp [Except.toOption] at h
  | ok a => rfl

theorem destroy_app_settled (r b : Int) (comps : CompId → Comp) (dom : CompId → PlayerDom)
    (log : List Ev) :
    ∃ s1, dollar_destroy bundle app_d app { world := stable r b comps dom log } = Except.ok s1 ∧
      s1.trace = [Td.d app true, Td.d player0 false, Td.d player1 false] ∧
      (∀ k, k = app ∨ k = player0 ∨ k = player1 →
        (s1.world.comps k).fragment = Fragment.null ∧
        (s1.world.comps k).on_destroy = Option.none ∧ (s1.world.comps k).ctx = []) ∧
      (s1.world.dom player0).listening = false ∧ (s1.world.dom player1).listening = false ∧
      s1.world.reset_listening = false := by
  simp [dollar_destroy, destroy_component, app_d, player_d, run_on_destroy, Page.emit, stable,
      appComp, playerComp, playerDom, World.setComp, World.setDom, app, player0, player1,
      Function.update]

theorem destroy_player_settled (r b : Int) (comps : CompId → Comp) (dom : CompId → PlayerDom)
    (log : List Ev) (k : CompId) (hk : k = player0 ∨ k = player1) :
    ∃ s1, dollar_destroy bundle (player_d k) k { world := stable r b comps dom log } =
        Except.ok s1 ∧
      s1.trace = [Td.d k true] ∧ (s1.world.comps k).fragment = Fragment.null ∧
      (s1.world.comps k).on_destroy = Option.none ∧ (s1.world.comps k).ctx = [] ∧
      (s1.world.dom k).listening = false := by
  rcases hk with rfl | rfl
  · simp [dollar_destroy, destroy_component, player_d, run_on_destroy, Page.emit, stable,
        appComp, playerComp, playerDom, World.setComp, World.setDom, app, player0, player1,
        Function.update]
  · simp [dollar_destroy, destroy_component, player_d, run_on_destroy, Page.emit, stable,
        appComp, playerComp, playerDom, World.setComp, World.setDom, app, player0, player1,
        Function.update]
/-- C11: destroy is idempotent.  For every program, every fragment method `d` and every
component `c` that is not yet destroyed (its fragment is not null), whenever the first destroy
call on `c` (`destroy_component(c, detaching)` or `c.$destroy()`) returns: `$$.fragment` and
`$$.on_destroy` of `c` are null and `$$.ctx` is empty, and the teardown events of `c` added to
the trace are one call of each callback of `on_destroy`, in order, followed by one call of
`d` of its fragment (none when the component has no fragment object); here `d` itself makes
no destroy call on `c`.  After that, every sequence of further destroy calls on `c`, of
either kind, returns and changes neither the heap nor the trace: no callback runs, no
fragment is touched, and the records `$$` are what they were (a `$destroy` call only gives
the object its own property `$destroy = noop`).  In every reachable state of the bundle the
first `$destroy` of App returns, calls `d` of App and, from it, `d` of both Players once,
leaves all three components destroyed and removes the three click listeners; the first
`$destroy` of a Player returns, calls its `d` once and removes its click listener. -/
theorem C11_destroy_idempotent (P : Program) (d : Bool → Page → Except String Page)
    (c : CompId) (first : DestroyCall) (s s1 : Page) (fns : List Nat)
    (hf : (s.world.comps c).fragment ≠ Fragment.null)
    (hd : (s.world.comps c).on_destroy = some fns)
    (hn : first = DestroyCall.method → s.destroy_noop c = false)
    (hq : ∀ x y, d first.detaching x = Except.ok y →
      teardownOf c y.trace = teardownOf c x.trace)
    (h : first.run P d c s = Except.ok s1) :
    ((s1.world.comps c).fragment = Fragment.null ∧
      (s1.world.comps c).on_destroy = Option.none ∧ (s1.world.comps c).ctx = [] ∧
      teardownOf c s1.trace = teardownOf c s.trace ++ fns.map (Td.callback c) ++
        (if ((run_all P fns s.world).comps c).fragment = Fragment.live then
          [Td.d c first.detaching] else [])) ∧
    (∀ calls : List DestroyCall, ∃ s', destroy_all P d c calls s1 = Except.ok s' ∧
      s'.world = s1.world ∧ s'.trace = s1.trace ∧
      ∀ k, k ≠ c → s'.destroy_noop k = s1.destroy_noop k) ∧
    (∀ w, Reach w →
      (∃ t, dollar_destroy bundle app_d app { world := w } = Except.ok t ∧
        t.trace = [Td.d app true, Td.d player0 false, Td.d player1 false] ∧
        (∀ k, k = app ∨ k = player0 ∨ k = player1 →
          (t.world.comps k).fragment = Fragment.null ∧
          (t.world.comps k).on_destroy = Option.none ∧ (t.world.comps k).ctx = []) ∧
        (t.world.dom player0).listening = false ∧ (t.world.dom player1).listening = false ∧
        t.world.reset_listening = false) ∧
      (∀ k, k = player0 ∨ k = player1 →
        ∃ t, dollar_destroy bundle (player_d k) k { world := w } = Except.ok t ∧
          t.trace = [Td.d k true] ∧ (t.world.comps k).fragment = Fragment.null ∧
          (t.world.comps k).on_destroy = Option.none ∧ (t.world.comps k).ctx = [] ∧
          (t.world.dom k).listening = false)) := by
  have first_part : (s1.world.comps c).fragment = Fragment.null ∧
      (s1.world.comps c).on_destroy = Option.none ∧ (s1.world.comps c).ctx = [] ∧
      teardownOf c s1.trace = teardownOf c s.trace ++ fns.map (Td.callback c) ++
        (if ((run_all P fns s.world).comps c).fragment = Fragment.live then
          [Td.d c first.detaching] else []) := by
    cases first with
    | direct b => exact destroy_component_first P d c b s s1 fns hf hd hq h
    | method =>
      simp only [DestroyCall.run, dollar_destroy, hn rfl] at h
      cases h0 : destroy_component P d c true s with
      | error msg => rw [h0] at h; simp at h
      | ok s2 =>
        rw [h0] at h
        simp only [Bool.false_eq_true, if_false, Except.ok.injEq] at h
        subst h
        exact destroy_component_first P d c true s s2 fns hf hd hq h0
  refine ⟨first_part, fun calls => destroy_all_destroyed P d c calls s1 first_part.1,
    fun w hw => ?_⟩
  obtain ⟨r, b, _, hs⟩ := reach_settled w hw
  rw [hs.eq_stable]
  exact ⟨destroy_app_settled r b _ _ _, fun k hk => destroy_player_settled r b _ _ _ k hk⟩

/-- Witness of C11: the bundle in the settled state for scores 1 and 39; the first destroy
call is `app.$destroy()`. -/
theorem C11_witness :
    ((nearEndPage.world.comps app).fragment ≠ Fragment.null ∧
      (nearEndPage.world.comps app).on_destroy = some [] ∧
      DestroyCall.run bundle app_d app DestroyCall.method nearEndPage = Except.ok torn) ∧
    ((torn.world.comps app).fragment = Fragment.null ∧
      (torn.world.comps app).on_destroy = Option.none ∧ (torn.world.comps app).ctx = [] ∧
      teardownOf app torn.trace = teardownOf app nearEndPage.trace ++
        ([] : List Nat).map (Td.callback app) ++
        (if ((run_all bundle [] nearEndPage.world).comps app).fragment = Fragment.live then
          [Td.d app DestroyCall.method.detaching] else [])) ∧
    (∀ calls : List DestroyCall, ∃ s', destroy_all bundle app_d app calls torn = Except.ok s' ∧
      s'.world = torn.world ∧ s'.trace = torn.trace ∧
      ∀ k, k ≠ app → s'.destroy_noop k = torn.destroy_noop k) ∧
    (∀ w, Reach w →
      (∃ t, dollar_destroy bundle app_d app { world := w } = Except.ok t ∧
        t.trace = [Td.d app true, Td.d player0 false, Td.d player1 false] ∧
        (∀ k, k = app ∨ k = player0 ∨ k = player1 →
          (t.world.comps k).fragment = Fragment.null ∧
          (t.world.comps k).on_destroy = Option.none ∧ (t.world.comps k).ctx = []) ∧
        (t.world.dom player0).listening = false ∧ (t.world.dom player1).listening = false ∧
        t.world.reset_listening = false) ∧
      (∀ k, k = player0 ∨ k = player1 →
        ∃ t, dollar_destroy bundle (player_d k) k { world := w } = Except.ok t ∧
          t.trace = [Td.d k true] ∧ (t.world.comps k).fragment = Fragment.null ∧
          (t.world.comps k).on_destroy = Option.none ∧ (t.world.comps k).ctx = [] ∧
          (t.world.dom k).listening = false)) :=
  ⟨⟨by decide, by decide, except_eq_ok _ _ (by decide)⟩,
    C11_destroy_idempotent bundle app_d app DestroyCall.method nearEndPage torn []
      (by decide) (by decide) (fun _ => rfl) (fun x y hxy => app_d_teardownOf _ x y hxy)
      (except_eq_ok _ _ (by decide))⟩

theorem make_dirty_current (c : CompId) (i : Nat) (w : World) :
    (make_dirty c i w).current_component = w.current_component := by
  simp only [make_dirty, schedule_update, World.setComp, World.emit, isClean]
  split_ifs <;> simp_all

theorem invalidate_current (c : CompId) (i : Nat) (v : Val) (w : World) :
    (invalidate c i v w).current_component = w.current_component := by
  unfold invalidate
  simp only []
  split_ifs
  · rw [make_dirty_current]; rfl
  · rfl
  · rfl

theorem listener_current (name : String) (e : CustomEvent) (w : World) :
    (bundle.listener name e w).1.current_component = w.current_component := by
  rw [bundle_listener]
  split_ifs
  · simp [updateBlueScore, invalidate_current]
  · simp [updateRedScore, invalidate_current]
  · rfl

theorem call_listeners_current (fns : List String) (e : CustomEvent) (called : List String)
    (w : World) :
    (call_listeners bundle fns e called w).2.2.current_component = w.current_component := by
  induction fns generalizing e called w with
  | nil => rfl
  | cons fn fns ih =>
    simp only [call_listeners]
    rw [ih, listener_current]

theorem plus_current (k : CompId) (w : World) :
    (plus k w).current_component = w.current_component := by
  unfold plus dispatch
  cases lookup "points" (w.comps k).callbacks with
  | none => rfl
  | some fns => exact call_listeners_current fns _ _ w

theorem reset_current (w : World) : (reset w).current_component = w.current_component := by
  simp [reset, invalidate_current]

theorem app_update_current (w : World) :
    (app_update w).current_component = w.current_component := by
  have h1 : ∀ z, (update_blueWon z).current_component = z.current_component := by
    intro z
    unfold update_blueWon
    split_ifs
    · simp [invalidate_current]
    · rfl
  have h2 : ∀ z, (update_redWon z).current_component = z.current_component := by
    intro z
    unfold update_redWon
    split_ifs
    · simp [invalidate_current]
    · rfl
  have h3 : ∀ z, (update_gameOver z).current_component = z.current_component := by
    intro z
    unfold update_gameOver
    split_ifs
    · simp [invalidate_current]
    · rfl
  rw [app_update, h3, h2, h1]

theorem bundle_update_current (c : CompId) (w : World) :
    (bundle.update c w).current_component = w.current_component := by
  rw [bundle_update]
  split_ifs
  · exact app_update_current w
  · rfl

theorem run_all_current (P : Program)
    (hc : ∀ n z, (P.callback n z).current_component = z.current_component)
    (fns : List Nat) (w : World) :
    (run_all P fns w).current_component = w.current_component := by
  induction fns generalizing w with
  | nil => rfl
  | cons fn fns ih =>
    simp only [run_all, List.foldl_cons] at ih ⊢
    rw [ih, hc]

theorem patching_current (P : Program) (c : CompId)
    (hu : ∀ z, (P.update c z).current_component = z.current_component)
    (hc : ∀ n z, (P.callback n z).current_component = z.current_component) (w : World) :
    (patching P c w).current_component = w.current_component := by
  have : (hooked P c w).current_component = w.current_component := by
    unfold hooked
    rw [run_all_current P hc, hu]
    rfl
  simp only [patching, World.setComp, World.emit]
  exact this

/-- The call of the patch function inside `update`. -/
theorem update_patch_call (P : Program) (c : CompId) (w : World)
    (h0 : (w.comps c).fragment ≠ Fragment.null)
    (h1 : ((hooked P c w).comps c).fragment = Fragment.live) :
    update P c w =
      (fun x : World =>
        (x.comps c).after_update.foldl (fun w fn => add_render_callback w (Cb.user fn)) x)
        (P.patch c ((hooked P c w).comps c).ctx ((hooked P c w).comps c).dirty
          (patching P c w)) := by
  unfold update
  rw [if_pos h0]
  simp only [patching]
  unfold hooked at h1 ⊢
  generalize run_all P ((P.update c (w.emit (Ev.hook c))).comps c).before_update
    (P.update c (w.emit (Ev.hook c))) = v at h1
  have hl : ((((v.setComp c { v.comps c with dirty := [-1] }).emit (Ev.reset c))).comps
      c).fragment = Fragment.live := by
    simp [World.setComp, World.emit, h1]
  rw [if_pos hl]
  have e1 : (((v.setComp c { v.comps c with dirty := [-1] }).emit (Ev.reset c)).comps c).ctx =
      (v.comps c).ctx := by
    simp [World.setComp, World.emit]
  rw [e1]

theorem init_restores (P : Program) (n : Nat) (c : CompId) (o : Options) (V : View)
    (x x' : World) (h : init P n c o V x = Result.ok x') :
    x'.current_component = x.current_component := by
  unfold init at h
  simp only [] at h
  by_cases hc : (!o.target && x.current_component.isNone) = true
  · rw [if_pos hc] at h
    simp at h
  · rw [if_neg hc] at h
    split at h
    · simp at h
    · split at h
      · simp at h
      · simp at h
      · split_ifs at h
        · split at h
          · simp at h
          · simp only [Result.ok.injEq] at h
            subst h
            rfl
        · simp only [Result.ok.injEq] at h
          subst h
          rfl

theorem init_no_parent (P : Program) (n : Nat) (c : CompId) (o : Options) (V : View)
    (x : World) (ht : o.target = false) (hx : x.current_component = Option.none) :
    init P n c o V x = Result.throw "TypeError" { x with current_component := some c } := by
  unfold init
  simp [ht, hx]

theorem flush_restores (P : Program) (n : Nat) (x x' : World) (h : flush P n x = some x') :
    x'.current_component = x.current_component := by
  unfold flush at h
  simp only [] at h
  split at h
  · simp at h
  · split at h
    · simp at h
    · simp only [Option.some.injEq] at h
      subst h
      rfl

theorem init_instance_context (P : Program) (n : Nat) (c : CompId) (o : Options) (V V' : View)
    (x : World) (h1 : V'.create_fragment = V.create_fragment) (h2 : V'.c = V.c)
    (h3 : V'.m = V.m)
    (h4 : ∀ props y, createEventDispatcher y = Except.ok c →
      V'.inst c props y = V.inst c props y) :
    init P n c o V' x = init P n c o V x := by
  unfold init
  simp only [h1, h2, h3]
  rw [h4 _ _ (by simp [createEventDispatcher, get_current_component, World.setComp])]

theorem init_throws (P : Program) (n : Nat) (c : CompId) (o : Options) (V : View)
    (x y : World) (msg : String) (h : init P n c o V x = Result.throw msg y) :
    msg = "TypeError" ∨
    (∃ w, w.current_component = some c ∧ V.inst c o.props w = Except.error msg) ∨
    (∃ ctx w, V.create_fragment c ctx w = Result.throw msg y) := by
  unfold init at h
  simp only [] at h
  by_cases hc : (!o.target && x.current_component.isNone) = true
  · rw [if_pos hc] at h
    simp only [Result.throw.injEq] at h
    exact Or.inl h.1.symm
  · rw [if_neg hc] at h
    split at h
    · rename_i e he
      simp only [Result.throw.injEq] at h
      rw [h.1] at he
      exact Or.inr (Or.inl ⟨_, rfl, he⟩)
    · split at h
      · rename_i e w' he
        simp only [Result.throw.injEq] at h
        rw [h.1, h.2] at he
        exact Or.inr (Or.inr ⟨_, _, he⟩)
      · simp at h
      · split_ifs at h
        split at h <;> simp at h

theorem player_dispatcher_bound (n : Nat) (k : CompId) (o : Options) (x y : World) :
    Player n k o x ≠ Result.throw "Function called outside component initialization" y := by
  intro h
  rcases init_throws bundle n k o playerView x y _ h with hm | ⟨w, hw, he⟩ | ⟨ctx, w, he⟩
  · exact absurd hm (by decide)
  · simp [playerView, instance1, createEventDispatcher, get_current_component, hw] at he
  · simp [playerView, create_fragment1] at he
/-- C12 as stated fails for a call made while `flush` updates a component.  The top-level
`init` (the constructor of App in `main`) has returned and left `current_component` unset;
the first `points` event of the blue Player leaves App waiting in `dirty_components`; the
drain loop of the flush that follows takes App and calls `update` in the heap
`dequeued app firstPoint`, where `current_component` is App.  A call of
`createEventDispatcher` made there, from the update hook or from the patch function (called
on the heap `patching bundle app (dequeued app firstPoint)`), returns a dispatcher bound to
App and raises nothing, though no component is being initialised. -/
theorem C12_counterexample :
    main fuel = Result.ok (main fuel).world ∧
    (main fuel).world.current_component = Option.none ∧
    firstPoint.dirty_components.get? firstPoint.flushidx = some app ∧
    drain_step bundle app firstPoint = update bundle app (dequeued app firstPoint) ∧
    createEventDispatcher ((dequeued app firstPoint).emit (Ev.hook app)) = Except.ok app ∧
    update bundle app (dequeued app firstPoint) =
      (fun x : World =>
        (x.comps app).after_update.foldl (fun w fn => add_render_callback w (Cb.user fn)) x)
        (bundle.patch app ((hooked bundle app (dequeued app firstPoint)).comps app).ctx
          ((hooked bundle app (dequeued app firstPoint)).comps app).dirty
          (patching bundle app (dequeued app firstPoint))) ∧
    createEventDispatcher (patching bundle app (dequeued app firstPoint)) = Except.ok app ∧
    createEventDispatcher (patching bundle app (dequeued app firstPoint)) ≠
      Except.error "Function called outside component initialization" := by
  have hp : createEventDispatcher (patching bundle app (dequeued app firstPoint)) =
      Except.ok app := by
    have := patching_current bundle app (bundle_update_current app) (fun _ _ => rfl)
      (dequeued app firstPoint)
    simp only [createEventDispatcher, get_current_component, this]
    rfl
  refine ⟨Result.eq_ok_world _ (by decide), by decide, by decide, rfl, rfl,
    update_patch_call bundle app _ (by decide) (by decide), hp, ?_⟩
  rw [hp]
  simp

/-- C12 (amended): `createEventDispatcher` raises the error 'Function called outside
component initialization' if and only if `current_component` is unset, and otherwise returns
a dispatcher bound to `current_component`.  `init` sets `current_component` to the component
it initialises before it calls `instance` (the result of `init` depends on `instance` only
through what it does on heaps where `createEventDispatcher` returns a dispatcher bound to that
component), so the call in `instance$1` of Player never raises that error.  `flush` sets
`current_component` too: to each component while it updates it, so that a call made from the
update hook, or from the patch function when the hook and the before-update callbacks have
left `current_component` as it was (as those of the bundle do), returns a dispatcher bound to
that component; and to null before it runs the render callbacks, where a call raises.
`flush`, when it returns, and `init`, when it returns normally, restore `current_component`
to its prior value; an `init` that throws leaves it set (with no target and no current
component `init` raises a TypeError).  So between two flushes after the top-level `init` has
returned, which is in every reachable state of the page and inside its event handlers `plus`
and `reset`, a call raises. -/
theorem C12_dispatcher_needs_current_component (w : World) (hw : Reach w) :
    (createEventDispatcher w =
        Except.error "Function called outside component initialization" ∧
      (∀ k : CompId, createEventDispatcher (plus k w) =
        Except.error "Function called outside component initialization") ∧
      createEventDispatcher (reset w) =
        Except.error "Function called outside component initialization") ∧
    (∀ x : World, createEventDispatcher x =
        Except.error "Function called outside component initialization" ↔
      x.current_component = Option.none) ∧
    (∀ (x : World) (c : CompId), createEventDispatcher x = Except.ok c ↔
      x.current_component = some c) ∧
    (∀ (P : Program) (n : Nat) (c : CompId) (o : Options) (V V' : View) (x : World),
      V'.create_fragment = V.create_fragment → V'.c = V.c → V'.m = V.m →
      (∀ props y, createEventDispatcher y = Except.ok c →
        V'.inst c props y = V.inst c props y) →
      init P n c o V' x = init P n c o V x) ∧
    (∀ (n : Nat) (k : CompId) (o : Options) (x y : World),
      Player n k o x ≠ Result.throw "Function called outside component initialization" y) ∧
    (∀ (P : Program) (n : Nat) (c : CompId) (o : Options) (V : View) (x x' : World),
      init P n c o V x = Result.ok x' → x'.current_component = x.current_component) ∧
    (∀ (P : Program) (n : Nat) (c : CompId) (o : Options) (V : View) (x : World),
      o.target = false → x.current_component = Option.none →
      init P n c o V x = Result.throw "TypeError" { x with current_component := some c }) ∧
    (∀ (P : Program) (n : Nat) (x x' : World),
      flush P n x = some x' → x'.current_component = x.current_component) ∧
    (∀ (P : Program) (c : CompId) (x : World),
      drain_step P c x = update P c (dequeued c x) ∧
      createEventDispatcher (dequeued c x) = Except.ok c ∧
      createEventDispatcher ((dequeued c x).emit (Ev.hook c)) = Except.ok c) ∧
    (∀ (P : Program) (c : CompId) (x : World),
      (∀ z, (P.update c z).current_component = z.current_component) →
      (∀ n z, (P.callback n z).current_component = z.current_component) →
      createEventDispatcher (patching P c (dequeued c x)) = Except.ok c ∧
      ((x.comps c).fragment ≠ Fragment.null →
        ((hooked P c (dequeued c x)).comps c).fragment = Fragment.live →
        update P c (dequeued c x) =
          (fun v : World =>
            (v.comps c).after_update.foldl (fun w fn => add_render_callback w (Cb.user fn)) v)
            (P.patch c ((hooked P c (dequeued c x)).comps c).ctx
              ((hooked P c (dequeued c x)).comps c).dirty (patching P c (dequeued c x))))) ∧
    (∀ (c : CompId) (x : World),
      createEventDispatcher (patching bundle c (dequeued c x)) = Except.ok c) ∧
    (∀ x : World, createEventDispatcher (clear_queue x) =
      Except.error "Function called outside component initialization") := by
  obtain ⟨r, b, _, hs⟩ := reach_settled w hw
  have hcur := hs.cur
  have key : ∀ x : World, x.current_component = Option.none →
      createEventDispatcher x =
        Except.error "Function called outside component initialization" := by
    intro x hx
    simp [createEventDispatcher, get_current_component, hx]
  have bound : ∀ (x : World) (c : CompId), x.current_component = some c →
      createEventDispatcher x = Except.ok c := by
    intro x c hx
    simp [createEventDispatcher, get_current_component, hx]
  refine ⟨⟨key w hcur, fun k => key _ ((plus_current k w).trans hcur),
      key _ ((reset_current w).trans hcur)⟩,
    fun x => ⟨fun h => ?_, key x⟩, fun x c => ⟨fun h => ?_, bound x c⟩,
    fun P n c o V V' x h1 h2 h3 h4 => init_instance_context P n c o V V' x h1 h2 h3 h4,
    player_dispatcher_bound, init_restores, init_no_parent, flush_restores,
    fun P c x => ⟨rfl, rfl, rfl⟩,
    fun P c x hu hc => ⟨bound _ c ((patching_current P c hu hc _).trans rfl),
      fun h0 h1 => update_patch_call P c _ h0 h1⟩,
    fun c x => bound _ c ((patching_current bundle c (bundle_update_current c)
      (fun _ _ => rfl) _).trans rfl),
    fun x => key _ rfl⟩
  · cases hx : x.current_component with
    | none => rfl
    | some c => simp [createEventDispatcher, get_current_component, hx] at h
  · cases hx : x.current_component with
    | none => simp [createEventDispatcher, get_current_component, hx] at h
    | some c' =>
      simp [createEventDispatcher, get_current_component, hx] at h
      rw [h]

/-- Witness of C12: the state of the page when `main` has returned. -/
theorem C12_witness :
    Reach (main fuel).world ∧
    createEventDispatcher (main fuel).world =
      Except.error "Function called outside component initialization" ∧
    (∀ k : CompId, createEventDispatcher (plus k (main fuel).world) =
      Except.error "Function called outside component initialization") ∧
    createEventDispatcher (reset (main fuel).world) =
      Except.error "Function called outside component initialization" :=
  ⟨Reach.main _ main_ok,
    (C12_dispatcher_needs_current_component (main fuel).world (Reach.main _ main_ok)).1⟩

end RandomGame
